import Mathlib

/-! # FFFTP settings persistence and credential protection (`registry.cpp`)

A shallow embedding of the credential and settings layer of `registry.cpp`.

Conventions of the embedding

* A byte is a natural number; a buffer is a `List Nat`.  Where the source
  stores into a `BYTE`/`char`/`DWORD` object the value is reduced modulo
  `2^8` / `2^32` explicitly.
* A C string argument is given by the bytes in front of its terminating
  NUL: the list `s` stands for the memory `s ++ [0]`, reading index
  `s.length` yields the terminator.
* The Windows crypto provider (`CryptCreateHash`, `CryptEncrypt`, ...) is
  not code of the repository; it is a parameter of every definition that
  calls it.
* Local scratch arrays are represented by the bytes written to them; a
  function that would write past the end of its scratch array `Buf`
  returns `none`.
-/

namespace FFFTP

/-! ## C library helpers -/

/-- The C `strlen`: the number of bytes in front of the first NUL. -/
def strlen : List Nat → Nat
  | [] => 0
  | c :: rest => if c = 0 then 0 else strlen rest + 1

/-- The contents of a C string held in a buffer: the bytes in front of the
first NUL. -/
def cstr : List Nat → List Nat
  | [] => []
  | c :: rest => if c = 0 then [] else c :: cstr rest

/-! ## SHA-1 front ends (`sha1`, `sha_memory`) -/

/-- `sha1(data, datalen, buffer)`: the 20 bytes that the provider's SHA-1
(`hash`) leaves in `buffer`. -/
def sha1 (hash : List Nat → List Nat) (data : List Nat) : List Nat :=
  (List.range 20).map fun i => (hash data).getD i 0 % 256

/-- The 32-bit word that a little-endian machine reads from bytes
`4*i .. 4*i+3` of a buffer. -/
def wordAt (b : List Nat) (i : Nat) : Nat :=
  b.getD (4 * i) 0 % 256 + (b.getD (4 * i + 1) 0 % 256) * 2 ^ 8
    + (b.getD (4 * i + 2) 0 % 256) * 2 ^ 16 + (b.getD (4 * i + 3) 0 % 256) * 2 ^ 24

/-- The intrinsic `_byteswap_ulong` on a 32-bit word. -/
def byteswap_ulong (w : Nat) : Nat :=
  (w % 256) * 2 ^ 24 + (w / 2 ^ 8 % 256) * 2 ^ 16 + (w / 2 ^ 16 % 256) * 2 ^ 8
    + w / 2 ^ 24 % 256

/-- `sha_memory(mem, length, buffer)`: the five 32-bit words left in
`buffer`, each the byte-swapped word of the SHA-1 digest. -/
def sha_memory (hash : List Nat → List Nat) (mem : List Nat) : List Nat :=
  (List.range 5).map fun i => byteswap_ulong (wordAt (sha1 hash mem) i)

/-- The four bytes of a 32-bit word in memory (little endian). -/
def wordBytes (w : Nat) : List Nat :=
  [w % 256, w / 2 ^ 8 % 256, w / 2 ^ 16 % 256, w / 2 ^ 24 % 256]

/-- The bytes of an array of 32-bit words in memory, as `memcpy` and
`memcmp` see them. -/
def wordsBytes : List Nat → List Nat
  | [] => []
  | w :: ws => wordBytes w ++ wordsBytes ws

/-! ## Password hash (`CreatePasswordHash`, `CheckPasswordValidity`) -/

/-- Constants that `common.h` and the resources define; their values are
not among the sources. -/
structure Consts where
  /-- The version number written as `Version`. -/
  VER_NUM : Int
  /-- The value `YES` of the option flags. -/
  YES : Int
  /-- The longest master password. -/
  MAX_PASSWORD_LEN : Nat
  /-- The master password used when the user gives none. -/
  DEFAULT_PASSWORD : List Nat
  /-- The banner written at the head of the flat file. -/
  MSGJPN239 : List Nat

/-- The size of the local array `char Buf[MAX_PASSWORD_LEN + 32]` of
`CreatePasswordHash` and `CheckPasswordValidity`. -/
def sizeofBuf (C : Consts) : Nat := C.MAX_PASSWORD_LEN + 32

/-- The stretching loop `for(i = 0; i < StretchCount; i++)` of
`CreatePasswordHash` and `CheckPasswordValidity`, run `n` times from the
hash words `h`: each round copies the 20 bytes of the words to `&Buf[0]`
and the `length` bytes of the password to `&Buf[20]`, and hashes the
`20 + length` bytes of `Buf`.  `none` is a round whose `20 + length` bytes
do not fit `Buf`.  The second component collects the messages passed to
`sha_memory`, in order. -/
def stretchLoop (C : Consts) (hash : List Nat → List Nat) (Password : List Nat) :
    Nat → List Nat → List (List Nat) → Option (List Nat × List (List Nat))
  | 0, h, log => some (h, log)
  | n + 1, h, log =>
      if 20 + Password.length ≤ sizeofBuf C then
        let Buf := wordsBytes h ++ Password
        stretchLoop C hash Password n (sha_memory hash Buf) (log ++ [Buf])
      else none

/-- The hashing part of `CreatePasswordHash` and `CheckPasswordValidity`:
`sha_memory(Password, length, hash)` followed by the stretching loop.
`Password` is the list of the `length` bytes at the pointer; a
`StretchCount` that is not positive runs the loop zero times.  `none` is a
write past the end of `Buf`. -/
def hashPassword (C : Consts) (hash : List Nat → List Nat) (Password : List Nat)
    (StretchCount : Int) : Option (List Nat × List (List Nat)) :=
  stretchLoop C hash Password StretchCount.toNat (sha_memory hash Password) [Password]

/-- The inner loop `for(j = 0; j < 8; j++)` of `CreatePasswordHash`: emits
`(unsigned char)((rest & 0xf0000000) >> 28) + '@'` and shifts `rest` left
by four bits, `j` times. -/
def encodeNibbles : Nat → Nat → List Nat
  | 0, _ => []
  | j + 1, rest =>
      ((((rest &&& 0xf0000000) >>> 28) % 256 + 0x40) % 256)
        :: encodeNibbles j ((rest <<< 4) % 2 ^ 32)

/-- The outer loop `for(i = 0; i < 5; i++)` of `CreatePasswordHash` from
index `i` on, `n` words to go. -/
def encodeWords (h : List Nat) : Nat → Nat → List Nat
  | 0, _ => []
  | n + 1, i => encodeNibbles 8 (h.getD i 0) ++ encodeWords h n (i + 1)

/-- `CreatePasswordHash(Password, length, HashStr, StretchCount)`: the
characters written to `HashStr` in front of the terminating NUL; `none` is
a write past the end of `Buf`. -/
def CreatePasswordHash (C : Consts) (hash : List Nat → List Nat) (Password : List Nat)
    (StretchCount : Int) : Option (List Nat) :=
  match hashPassword C hash Password StretchCount with
  | some hash => some (encodeWords hash.1 5 0)
  | none => none

/-- The inner loop `for(j = 0; j < 8; j++)` of `CheckPasswordValidity`:
reads `j` characters at `p`; `none` is the `return 2` on a character
outside `0x40 .. 0x40 + 15`. -/
def decodeNibbles : Nat → Nat → List Nat → Option (Nat × List Nat)
  | 0, decode, p => some (decode, p)
  | j + 1, decode, p =>
      if p.headD 0 < 0x40 ∨ 0x40 + 15 < p.headD 0 then none
      else decodeNibbles j (((decode <<< 4) + (p.headD 0 - 0x40)) % 2 ^ 32) p.tail

/-- The outer loop `for(i = 0; i < 5; i++)` of `CheckPasswordValidity`,
`n` words to go: the decoded words `hash1`. -/
def decodeWords : Nat → List Nat → Option (List Nat)
  | 0, _ => some []
  | n + 1, p =>
      match decodeNibbles 8 0 p with
      | none => none
      | some (w, p') =>
          match decodeWords n p' with
          | none => none
          | some ws => some (w :: ws)

/-- `CheckPasswordValidity(Password, length, HashStr, StretchCount)` with
the messages it passes to `sha_memory`: the return value (0 mismatch,
1 match, 2 malformed) and the hashed messages in order; `none` is a write
past the end of `Buf`. -/
def CheckPasswordValidityTraced (C : Consts) (hash : List Nat → List Nat)
    (Password HashStr : List Nat) (StretchCount : Int) : Option (Nat × List (List Nat)) :=
  if HashStr.headD 0 = 0 then some (1, [])
  else if strlen HashStr ≠ 40 then some (2, [])
  else
    match decodeWords 5 HashStr with
    | none => some (2, [])
    | some hash1 =>
        match hashPassword C hash Password StretchCount with
        | some hash2 => some (if wordsBytes hash1 = wordsBytes hash2.1 then 1 else 0, hash2.2)
        | none => none

/-- `CheckPasswordValidity(Password, length, HashStr, StretchCount)`: the
return value; `none` is a write past the end of `Buf`. -/
def CheckPasswordValidity (C : Consts) (hash : List Nat → List Nat)
    (Password HashStr : List Nat) (StretchCount : Int) : Option Nat :=
  match CheckPasswordValidityTraced C hash Password HashStr StretchCount with
  | some r => some r.1
  | none => none

/-! ## Auxiliary notions used in the statements and proofs -/

/-- The word assembled by `j` rounds of decoding what `j` rounds of
encoding emit. -/
def nibbleRounds : Nat → Nat → Nat → Nat
  | 0, decode, _ => decode
  | j + 1, decode, rest =>
      nibbleRounds j ((decode * 16 + rest / 2 ^ 28) % 2 ^ 32) (rest * 16 % 2 ^ 32)

/-- Five 32-bit words, the shape of a `uint32_t[5]` hash buffer. -/
def IsHashWords (h : List Nat) : Prop := h.length = 5 ∧ ∀ w ∈ h, w < 2 ^ 32

/-- The hash words and the hashed messages after `n` rounds in which the
20 bytes of the words followed by the password are hashed: what
`stretchLoop` yields when every round fits `Buf`. -/
def stretchRounds (hash : List Nat → List Nat) (Password : List Nat) :
    Nat → List Nat → List (List Nat) → List Nat × List (List Nat)
  | 0, h, log => (h, log)
  | n + 1, h, log =>
      stretchRounds hash Password n (sha_memory hash (wordsBytes h ++ Password))
        (log ++ [wordsBytes h ++ Password])

/-- The hash words of the password and the hashed messages after
`StretchCount` rounds: what `hashPassword` yields when every round fits
`Buf`. -/
def hashWords (hash : List Nat → List Nat) (Password : List Nat) (StretchCount : Int) :
    List Nat × List (List Nat) :=
  stretchRounds hash Password StretchCount.toNat (sha_memory hash Password) [Password]

/-- The 40 characters that encode the words of `hashWords`: the string of
`CreatePasswordHash` when every round fits `Buf`. -/
def digestString (hash : List Nat → List Nat) (Password : List Nat) (StretchCount : Int) :
    List Nat :=
  encodeWords (hashWords hash Password StretchCount).1 5 0

/-- Whether the scratch writes of `StretchCount` rounds on a password of
`length` bytes stay inside `Buf`: no round is run, or `20 + length` bytes
fit. -/
def scratchFits (C : Consts) (length : Nat) (StretchCount : Int) : Prop :=
  StretchCount ≤ 0 ∨ 20 + length ≤ sizeofBuf C

instance (C : Consts) (length : Nat) (StretchCount : Int) :
    Decidable (scratchFits C length StretchCount) :=
  inferInstanceAs (Decidable (_ ∨ _))


/-! ## Whole-settings masking (`MaskSettingsData`, `UnmaskSettingsData`) -/

/-- One step of the seed loop of `MaskSettingsData`:
`nonce = _byteswap_ulong(~nonce * 1566083941)` on a `DWORD`. -/
def nextNonce (nonce : Nat) : Nat :=
  byteswap_ulong (((2 ^ 32 - 1 - nonce % 2 ^ 32) * 1566083941) % 2 ^ 32)

/-- The seed loop `for (DWORD nonce = i, j = 0; j < 16; j++)`: the words
stored to `buffer`, `j` words to go. -/
def seedWords : Nat → Nat → List Nat
  | 0, _ => []
  | j + 1, nonce => nextNonce nonce :: seedWords j (nextNonce nonce)

/-- The body of `if (i % 20 == 0)` in `MaskSettingsData`: the 20-byte mask
of the block that starts at offset `i`.  `key` is the list of the
`SecretKeyLength` bytes at `SecretKey`. -/
def blockMask (hash : List Nat → List Nat) (salt key : List Nat) (i : Nat) : List Nat :=
  let seeded := wordsBytes (seedWords 16 i) ++ salt ++ key
  let h1 := sha1 hash seeded
  let inner := h1.map (fun b => b ^^^ 0x36) ++ List.replicate 44 0x36
  let h2 := sha1 hash inner
  let outer := inner.map (fun b => b ^^^ 0x6a) ++ h2
  sha1 hash outer

/-- The statement
`if (!EscapeZero || p[i] != 0 && p[i] != mask[i % 20]) p[i] ^= mask[i % 20];`
of `MaskSettingsData`: the byte `p[i]` afterwards, for the byte `b` before
and the mask byte `m`. -/
def maskByte (EscapeZero : Bool) (b m : Nat) : Nat :=
  if EscapeZero = false ∨ (b ≠ 0 ∧ b ≠ m) then b ^^^ m else b

/-- The loop `for (DWORD i = 0; i < Size; i++)` of `MaskSettingsData` from
index `i` on, with the current contents of `mask`, over the remaining
bytes of `Data`. -/
def maskLoop (hash : List Nat → List Nat) (salt key : List Nat) (EscapeZero : Bool) :
    Nat → List Nat → List Nat → List Nat
  | _, _, [] => []
  | i, mask, b :: p =>
      let mask' := if i % 20 = 0 then blockMask hash salt key i else mask
      maskByte EscapeZero b (mask'.getD (i % 20) 0)
        :: maskLoop hash salt key EscapeZero (i + 1) mask' p

/-- `MaskSettingsData(salt, Data, Size, EscapeZero)`: the contents of
`Data` afterwards; `Size` is the length of the list. -/
def MaskSettingsData (hash : List Nat → List Nat) (salt key Data : List Nat)
    (EscapeZero : Bool) : List Nat :=
  maskLoop hash salt key EscapeZero 0 [] Data

/-- `UnmaskSettingsData(salt, Data, Size, EscapeZero)`. -/
def UnmaskSettingsData (hash : List Nat → List Nat) (salt key Data : List Nat)
    (EscapeZero : Bool) : List Nat :=
  MaskSettingsData hash salt key Data EscapeZero

/-- The mask byte that applies to the byte at offset `i` of a buffer:
byte `i mod 20` of the mask of the block that contains offset `i`.  It is a
function of the offset, the salt and the key only. -/
def keystream (hash : List Nat → List Nat) (salt key : List Nat) (i : Nat) : Nat :=
  (blockMask hash salt key (i - i % 20)).getD (i % 20) 0

/-! ## Flat-file value escaping (`REGDATATBL::Write`, `REGDATATBL::ReadValue`) -/

/-- The character `sprintf` prints for the hexadecimal digit `n` under
`%X`. -/
def hexDigitUpper (n : Nat) : Nat := if n < 10 then 0x30 + n else 0x41 + (n - 10)

/-- The loop of `REGDATATBL::Write(name, value, type)` over the bytes of
`value`: a byte in `0x20 .. 0x7E` is appended as it is, preceded by a
backslash when it is the backslash; every other byte is appended as
`\XX` (`sprintf(buffer, "\\%02X", (unsigned char)*it)`). -/
def escapeValue : List Nat → List Nat
  | [] => []
  | c :: rest =>
      (if 0x20 ≤ c ∧ c < 0x7F then (if c = 0x5C then [0x5C, c] else [c])
        else [0x5C, hexDigitUpper (c % 256 / 16), hexDigitUpper (c % 256 % 16)])
        ++ escapeValue rest

/-- The character class `[0-9A-F]` of the regular expression in
`REGDATATBL::ReadValue`. -/
def isUpperHex (c : Nat) : Bool :=
  (decide (0x30 ≤ c) && decide (c ≤ 0x39)) || (decide (0x41 ≤ c) && decide (c ≤ 0x46))

/-- The value of a hexadecimal digit character, as `std::stoi(.., 16)` and
`std::from_chars(.., 16)` read it. -/
def hexValue (c : Nat) : Nat :=
  if c ≤ 0x39 then c - 0x30 else if c ≤ 0x46 then c - 0x41 + 10 else c - 0x61 + 10

/-- Modelled from the spec: the helper `replace(input, regex, callback)` of
`common.h` is not among the sources; by the spec the decoding is "a single
regular-expression pass".  This is that pass for the expression
`\\([0-9A-F]{2})|\\\\` and the callback of `REGDATATBL::ReadValue`: the text
is scanned from the left; where the first alternative matches (a backslash
and two upper-case hex digits) the three characters are replaced by the byte
`std::stoi(m[1], nullptr, 16)`, otherwise where the second matches (two
backslashes) they are replaced by one backslash, and a character at which
no match starts is copied.  The first argument is the number of characters
still covered by the last match. -/
def unescapeFrom : Nat → List Nat → List Nat
  | _, [] => []
  | skip + 1, _ :: rest => unescapeFrom skip rest
  | 0, c :: rest =>
      if c = 0x5C then
        match rest with
        | a :: b :: _ =>
            if isUpperHex a && isUpperHex b then
              ((16 * hexValue a + hexValue b) % 256) :: unescapeFrom 2 rest
            else if a = 0x5C then 0x5C :: unescapeFrom 1 rest
            else c :: unescapeFrom 0 rest
        | [a] => if a = 0x5C then 0x5C :: unescapeFrom 1 rest else c :: unescapeFrom 0 rest
        | [] => c :: unescapeFrom 0 rest
      else c :: unescapeFrom 0 rest

/-- The unescaping of `REGDATATBL::ReadValue`:
`replace({ p }, re, ...)` on the text of a stored value. -/
def unescapeValue (text : List Nat) : List Nat := unescapeFrom 0 text

/-! ## Flat-file store (`REGDATATBL`) -/

/-- The result codes `FFFTP_SUCCESS` and `FFFTP_FAIL`. -/
inductive Status where
  | FFFTP_SUCCESS
  | FFFTP_FAIL
  deriving DecidableEq, Repr

/-- The order of `std::string` keys in a `std::map`: lexicographic on
bytes. -/
def keyLt : List Nat → List Nat → Bool
  | [], [] => false
  | [], _ :: _ => true
  | _ :: _, [] => false
  | a :: as, b :: bs => decide (a < b) || (decide (a = b) && keyLt as bs)

/-- The `std::map<std::string, std::vector<std::string>>` of a flat-file
store: the groups in key order, each with its lines in insertion order. -/
abbrev IniMap := List (List Nat × List (List Nat))

/-- The lines of group `key` (`map->find(key)`), `none` when the map has
no such group. -/
def IniMap.find : IniMap → List Nat → Option (List (List Nat))
  | [], _ => none
  | (k, lines) :: rest, key => if k = key then some lines else IniMap.find rest key

/-- The lines of group `key`, empty when the map has no such group. -/
def IniMap.lines (map : IniMap) (key : List Nat) : List (List Nat) :=
  (map.find key).getD []

/-- The map with the lines of group `key` replaced by `f` of them. -/
def IniMap.modify : IniMap → List Nat → (List (List Nat) → List (List Nat)) → IniMap
  | [], _, _ => []
  | (k, lines) :: rest, key, f =>
      if k = key then (k, f lines) :: rest else (k, lines) :: IniMap.modify rest key f

/-- The map with a new group `key` inserted at its place in key order. -/
def IniMap.insert : IniMap → List Nat → List (List Nat) → IniMap
  | [], key, new => [(key, new)]
  | (k, lines) :: rest, key, new =>
      if keyLt key k then (key, new) :: (k, lines) :: rest
      else (k, lines) :: IniMap.insert rest key new

/-- The map after `(*map)[key]`: a group that is missing is inserted
empty. -/
def IniMap.touch (map : IniMap) (key : List Nat) : IniMap :=
  if (map.find key).isSome then map else map.insert key []

/-- The map after `(*map)[key].push_back(line)`. -/
def IniMap.push_back (map : IniMap) (key line : List Nat) : IniMap :=
  if (map.find key).isSome then map.modify key (fun lines => lines ++ [line])
  else map.insert key [line]

/-- The test of `REGDATATBL::Scan` on one line:
`size(name) + 1 < size(line) && line.starts_with(name) && line[size(name)] == '='`. -/
def scanMatches (name line : List Nat) : Bool :=
  decide (name.length + 1 < line.length) && (line.take name.length == name)
    && (line.getD name.length 0 == 0x3D)

/-- The loop of `REGDATATBL::Scan` over the lines of the group: the text
behind `name=` in the first line that matches (`data(line) + size(name) + 1`),
`none` for `nullptr`. -/
def scanLines (name : List Nat) : List (List Nat) → Option (List Nat)
  | [] => none
  | line :: rest =>
      if scanMatches name line then some (line.drop (name.length + 1)) else scanLines name rest

/-- `REGDATATBL::Scan(name)` on the handle of group `KeyName`: the map
afterwards (the lookup `(*map)[KeyName]` inserts a missing group) and the
result. -/
def REGDATATBL.Scan (map : IniMap) (KeyName name : List Nat) : IniMap × Option (List Nat) :=
  (map.touch KeyName, scanLines name (map.lines KeyName))

/-- Whether `isspace` holds of a character in the C locale. -/
def isspace (c : Nat) : Bool := c == 0x20 || (decide (0x09 ≤ c) && decide (c ≤ 0x0D))

/-- Whether a character is a decimal digit. -/
def isdigit (c : Nat) : Bool := decide (0x30 ≤ c) && decide (c ≤ 0x39)

/-- The digit loop of `atoi`: the number denoted by the leading decimal
digits of `s`, continued from `acc`. -/
def atoiDigits : Nat → List Nat → Nat
  | acc, [] => acc
  | acc, c :: rest => if isdigit c then atoiDigits (acc * 10 + (c - 0x30)) rest else acc

/-- The sign and digit part of `atoi` behind the leading white space; a
value outside the range of `int` is clamped to `INT_MAX` / `INT_MIN`, as
the C runtime of the platform does. -/
def atoiSigned (s : List Nat) : Int :=
  if s.headD 0 = 0x2D then max (-(atoiDigits 0 s.tail : Int)) (-(2 ^ 31))
  else if s.headD 0 = 0x2B then min (atoiDigits 0 s.tail : Int) (2 ^ 31 - 1)
  else min (atoiDigits 0 s : Int) (2 ^ 31 - 1)

/-- The C library `atoi` on a C string. -/
def atoi : List Nat → Int
  | [] => 0
  | c :: rest => if isspace c then atoi rest else atoiSigned (c :: rest)

/-- The decimal digits of `n` in front of `acc`, most significant first;
the first argument bounds the number of digits. -/
def decimalDigits : Nat → Nat → List Nat → List Nat
  | 0, _, acc => acc
  | fuel + 1, n, acc =>
      if n < 10 then (0x30 + n) :: acc
      else decimalDigits fuel (n / 10) ((0x30 + n % 10) :: acc)

/-- The text of `std::to_string(int)`: decimal, with a minus sign for a
negative value. -/
def to_string (value : Int) : List Nat :=
  if value < 0 then 0x2D :: decimalDigits value.natAbs value.natAbs []
  else decimalDigits (value.natAbs + 1) value.natAbs []

/-- `REGDATATBL::ReadInt(name)`: the map afterwards and `atoi` of the
stored text. -/
def REGDATATBL.ReadInt (map : IniMap) (KeyName name : List Nat) : IniMap × Option Int :=
  ((REGDATATBL.Scan map KeyName name).1,
    match (REGDATATBL.Scan map KeyName name).2 with
    | some p => some (atoi (cstr p))
    | none => none)

/-- `REGDATATBL::ReadValue(name)`: the map afterwards and the unescaped
stored text.  `sjis` is `IniKanjiCode == KANJI_SJIS`; `a2w_u8` stands for
the conversion `u8(a2w(value))` done by helpers outside the sources. -/
def REGDATATBL.ReadValue (sjis : Bool) (a2w_u8 : List Nat → List Nat) (map : IniMap)
    (KeyName name : List Nat) : IniMap × Option (List Nat) :=
  ((REGDATATBL.Scan map KeyName name).1,
    match (REGDATATBL.Scan map KeyName name).2 with
    | some p => some (if sjis then a2w_u8 (unescapeValue (cstr p)) else unescapeValue (cstr p))
    | none => none)

/-- `REGDATATBL::Write(name, int value)`: the map afterwards. -/
def REGDATATBL.WriteInt (map : IniMap) (KeyName name : List Nat) (value : Int) : IniMap :=
  map.push_back KeyName (name ++ [0x3D] ++ to_string value)

/-- `REGDATATBL::Write(name, std::string_view value, DWORD)`: the map
afterwards. -/
def REGDATATBL.Write (map : IniMap) (KeyName name value : List Nat) : IniMap :=
  map.push_back KeyName (name ++ [0x3D] ++ escapeValue value)

/-! ## Typed access to a store (`Config`)

The methods of `Config` call the virtual `ReadInt`, `ReadValue` and `Write`
of the backend.  Each method is given here as a function of the result of
the virtual read, or as the value it passes to the virtual write; the
definitions `REGDATATBL.*FromReg` / `REGDATATBL.*ToReg` further down are the
methods on a flat-file handle. -/

/-- The four bytes of an `int` object in memory (two's complement, little
endian). -/
def intBytes (v : Int) : List Nat := wordBytes (v % 2 ^ 32).toNat

/-- The `int` held by four bytes of memory. -/
def bytesInt (b : List Nat) : Int :=
  if wordAt b 0 < 2 ^ 31 then (wordAt b 0 : Int) else (wordAt b 0 : Int) - 2 ^ 32

/-- The salt argument `KeyName + '\\' + Name` of the masking calls. -/
def saltOf (KeyName Name : List Nat) : List Nat := KeyName ++ [0x5C] ++ Name

/-- `Config::ReadIntValueFromReg(Name, Value)`, given the result `read` of
`ReadInt(Name)`.  `EncryptSettings` is the test `EncryptSettings == YES`,
`key` the `SecretKeyLength` bytes at `SecretKey`, `Value` the contents of
`*Value` before the call.  The result is the status and `*Value`
afterwards. -/
def Config.ReadIntValueFromReg (hash : List Nat → List Nat) (EncryptSettings : Bool)
    (key KeyName Name : List Nat) (read : Option Int) (Value : Int) : Status × Int :=
  match read with
  | some read =>
      (Status.FFFTP_SUCCESS,
        if EncryptSettings then
          bytesInt (UnmaskSettingsData hash (saltOf KeyName Name) key (intBytes read) false)
        else read)
  | none => (Status.FFFTP_FAIL, Value)

/-- `Config::WriteIntValueToReg(Name, Value)`: the value passed to
`Write(Name, Value)`. -/
def Config.WriteIntValueToReg (hash : List Nat → List Nat) (EncryptSettings : Bool)
    (key KeyName Name : List Nat) (Value : Int) : Int :=
  if EncryptSettings then
    bytesInt (MaskSettingsData hash (saltOf KeyName Name) key (intBytes Value) false)
  else Value

/-- `strncpy_s(Str, Size, src, _TRUNCATE)`: the string left in `Str`, as
much of `src` as fits in front of the terminating NUL. -/
def strncpy_s_truncate (Size : Nat) (src : List Nat) : List Nat := (cstr src).take (Size - 1)

/-- `Config::ReadStringFromReg(Name, Str, Size)`, given the result `read`
of `ReadValue(Name)`.  `Str` is the string in the destination before the
call; the result is the status and the string in the destination
afterwards. -/
def Config.ReadStringFromReg (hash : List Nat → List Nat) (EncryptSettings : Bool)
    (key KeyName Name : List Nat) (read : Option (List Nat)) (Str : List Nat) (Size : Nat) :
    Status × List Nat :=
  match read with
  | some read =>
      (Status.FFFTP_SUCCESS,
        if EncryptSettings then
          cstr (UnmaskSettingsData hash (saltOf KeyName Name) key
            (strncpy_s_truncate Size read ++ [0]) true)
        else strncpy_s_truncate Size read)
  | none => (Status.FFFTP_FAIL, Str)

/-- `Config::WriteStringToReg(Name, Str)`: the value passed to
`Write(Name, Str, REG_SZ)`.  With masking on, the `strlen(Str) + 1` bytes
at `Str` are masked in place and the string then found at `Str` is
written. -/
def Config.WriteStringToReg (hash : List Nat → List Nat) (EncryptSettings : Bool)
    (key KeyName Name Str : List Nat) : List Nat :=
  if EncryptSettings then
    cstr (MaskSettingsData hash (saltOf KeyName Name) key (cstr Str ++ [0]) true)
  else cstr Str

/-- `Config::ReadBinaryFromReg(Name, Bin, Size)`, given the result `read`
of `ReadValue(Name)`.  `Bin` holds the `Size` bytes of the destination
before the call; the result is the status and the `Size` bytes
afterwards. -/
def Config.ReadBinaryFromReg (hash : List Nat → List Nat) (EncryptSettings : Bool)
    (key KeyName Name : List Nat) (read : Option (List Nat)) (Bin : List Nat) :
    Status × List Nat :=
  match read with
  | some read =>
      (Status.FFFTP_SUCCESS,
        if EncryptSettings then
          UnmaskSettingsData hash (saltOf KeyName Name) key
            (read.take Bin.length ++ Bin.drop read.length) false
        else read.take Bin.length ++ Bin.drop read.length)
  | none => (Status.FFFTP_FAIL, Bin)

/-- `Config::WriteBinaryToReg(Name, Bin, Len)`: the value passed to
`Write(Name, .., REG_BINARY)`; `Bin` is the list of the `Len` bytes. -/
def Config.WriteBinaryToReg (hash : List Nat → List Nat) (EncryptSettings : Bool)
    (key KeyName Name Bin : List Nat) : List Nat :=
  if EncryptSettings then MaskSettingsData hash (saltOf KeyName Name) key Bin false else Bin

/-! ### The methods on a flat-file handle

A handle is given by the shared map and its `KeyName`; every read returns
the map as well, since `Scan` may insert the group. -/

/-- `ReadIntValueFromReg(Name, Value)` on a flat-file handle: the map, the
status and `*Value` afterwards. -/
def REGDATATBL.ReadIntValueFromReg (hash : List Nat → List Nat) (EncryptSettings : Bool)
    (key : List Nat) (map : IniMap) (KeyName Name : List Nat) (Value : Int) :
    IniMap × Status × Int :=
  ((REGDATATBL.ReadInt map KeyName Name).1,
    Config.ReadIntValueFromReg hash EncryptSettings key KeyName Name
      (REGDATATBL.ReadInt map KeyName Name).2 Value)

/-- `WriteIntValueToReg(Name, Value)` on a flat-file handle: the map
afterwards. -/
def REGDATATBL.WriteIntValueToReg (hash : List Nat → List Nat) (EncryptSettings : Bool)
    (key : List Nat) (map : IniMap) (KeyName Name : List Nat) (Value : Int) : IniMap :=
  REGDATATBL.WriteInt map KeyName Name
    (Config.WriteIntValueToReg hash EncryptSettings key KeyName Name Value)

/-- `ReadStringFromReg(Name, Str, Size)` on a flat-file handle: the map,
the status and the string in the destination afterwards. -/
def REGDATATBL.ReadStringFromReg (hash : List Nat → List Nat) (EncryptSettings : Bool)
    (key : List Nat) (sjis : Bool) (a2w_u8 : List Nat → List Nat) (map : IniMap)
    (KeyName Name : List Nat) (Str : List Nat) (Size : Nat) : IniMap × Status × List Nat :=
  ((REGDATATBL.ReadValue sjis a2w_u8 map KeyName Name).1,
    Config.ReadStringFromReg hash EncryptSettings key KeyName Name
      (REGDATATBL.ReadValue sjis a2w_u8 map KeyName Name).2 Str Size)

/-- `WriteStringToReg(Name, Str)` on a flat-file handle: the map
afterwards. -/
def REGDATATBL.WriteStringToReg (hash : List Nat → List Nat) (EncryptSettings : Bool)
    (key : List Nat) (map : IniMap) (KeyName Name Str : List Nat) : IniMap :=
  REGDATATBL.Write map KeyName Name
    (Config.WriteStringToReg hash EncryptSettings key KeyName Name Str)

/-- `ReadBinaryFromReg(Name, Bin, Size)` on a flat-file handle: the map,
the status and the bytes of the destination afterwards. -/
def REGDATATBL.ReadBinaryFromReg (hash : List Nat → List Nat) (EncryptSettings : Bool)
    (key : List Nat) (sjis : Bool) (a2w_u8 : List Nat → List Nat) (map : IniMap)
    (KeyName Name : List Nat) (Bin : List Nat) : IniMap × Status × List Nat :=
  ((REGDATATBL.ReadValue sjis a2w_u8 map KeyName Name).1,
    Config.ReadBinaryFromReg hash EncryptSettings key KeyName Name
      (REGDATATBL.ReadValue sjis a2w_u8 map KeyName Name).2 Bin)

/-- `WriteBinaryToReg(Name, Bin, Len)` on a flat-file handle: the map
afterwards. -/
def REGDATATBL.WriteBinaryToReg (hash : List Nat → List Nat) (EncryptSettings : Bool)
    (key : List Nat) (map : IniMap) (KeyName Name Bin : List Nat) : IniMap :=
  REGDATATBL.Write map KeyName Name
    (Config.WriteBinaryToReg hash EncryptSettings key KeyName Name Bin)

/-! ## Field cipher (`EncodePassword`, `DecodePassword`) -/

/-- The Windows crypto provider and the allocator, as far as the field
cipher uses them.  None of it is code of the repository. -/
structure Provider where
  /-- The SHA-1 digest computed by `CryptHashData` / `CryptGetHashParam`. -/
  hash : List Nat → List Nat
  /-- Whether an allocation of the given number of bytes succeeds
  (`malloc`, `std::vector`). -/
  alloc : Nat → Bool
  /-- Whether `CryptImportKey` accepts the 32 key bytes. -/
  CryptImportKey : List Nat → Bool
  /-- Whether `CryptSetKeyParam(hkey, KP_MODE, CRYPT_MODE_CBC)` succeeds. -/
  CryptSetKeyParam_MODE : List Nat → Bool
  /-- Whether `CryptSetKeyParam(hkey, KP_IV, iv)` succeeds. -/
  CryptSetKeyParam_IV : List Nat → List Nat → Bool
  /-- `CryptEncrypt(hkey, 0, false, ..)` under key and IV: the contents of
  the data buffer afterwards, `none` when the call fails. -/
  CryptEncrypt : List Nat → List Nat → List Nat → Option (List Nat)
  /-- `CryptDecrypt(hkey, 0, false, ..)` under key and IV: the contents of
  the data buffer afterwards, `none` when the call fails. -/
  CryptDecrypt : List Nat → List Nat → List Nat → Option (List Nat)

/-- The literal `">g^r=@N7=//z<[` + "`" + `:"` of `CreateAesKey`. -/
def aesSuffix1 : List Nat :=
  [0x3E, 0x67, 0x5E, 0x72, 0x3D, 0x40, 0x4E, 0x37, 0x3D, 0x2F, 0x2F, 0x7A, 0x3C, 0x5B, 0x60, 0x3A]

/-- The literal `"VG77dO1#EyC]$|C@"` of `CreateAesKey`. -/
def aesSuffix2 : List Nat :=
  [0x56, 0x47, 0x37, 0x37, 0x64, 0x4F, 0x31, 0x23, 0x45, 0x79, 0x43, 0x5D, 0x24, 0x7C, 0x43, 0x40]

/-- `CreateAesKey(AesKey)`: the 32 key bytes, `none` when `malloc` fails.
`SecretKey` is the contents of the array; the function uses the string in
it (`strlen`, `strcpy`).  The key bytes are the bytes in memory of the
first eight of the ten words `results`. -/
def CreateAesKey (P : Provider) (SecretKey : List Nat) : Option (List Nat) :=
  if P.alloc (strlen SecretKey + 16 + 1) then
    let results := sha_memory P.hash (cstr SecretKey ++ aesSuffix1)
      ++ sha_memory P.hash (cstr SecretKey ++ aesSuffix2)
    some (wordsBytes (results.take 8))
  else none

/-- The character `sprintf` prints for the hexadecimal digit `n` under
`%x`. -/
def hexDigitLower (n : Nat) : Nat := if n < 10 then 0x30 + n else 0x61 + (n - 10)

/-- The loop `for (auto const& item : ..) { sprintf(p, "%02x", item); p += 2; }`. -/
def hexPairs : List Nat → List Nat
  | [] => []
  | item :: rest =>
      hexDigitLower (item % 256 / 16) :: hexDigitLower (item % 256 % 16) :: hexPairs rest

/-- The padded length computed by `EncodePassword` for a plaintext of
`length` bytes, for a `length` below `2^32 - 16`, where the `DWORD`
arithmetic does not wrap. -/
def paddedLength (length : Nat) : Nat := max ((length + 16 - 1) / 16 * 16) (16 * 2)

/-- `EncodePassword(Str, Buf)`: the string left in `Buf`.  `rndPad` and
`rndIv` are what the two calls of `CryptGenRandom` deliver (`none` when
the call fails); the first call is only made when the padded buffer has
room behind the NUL that follows the plaintext. -/
def EncodePassword (P : Provider) (SecretKey : List Nat) (rndPad rndIv : Option (List Nat))
    (Str : List Nat) : List Nat :=
  if P.alloc (paddedLength Str.length) = false then []
  else
    let padded : Option (List Nat) :=
      if paddedLength Str.length ≤ Str.length + 1 then
        some (Str ++ List.replicate (paddedLength Str.length - Str.length) 0)
      else
        match rndPad with
        | some pad => some (Str ++ [0] ++ pad)
        | none => none
    match padded, rndIv with
    | some buffer, some iv =>
        match CreateAesKey P SecretKey with
        | some key =>
            if P.CryptImportKey key && P.CryptSetKeyParam_MODE key
                && P.CryptSetKeyParam_IV key iv then
              match P.CryptEncrypt key iv buffer with
              | some encrypted => [0x30, 0x43] ++ hexPairs iv ++ [0x3A] ++ hexPairs encrypted
              | none => []
            else []
        | none => []
    | _, _ => []

/-- Whether a character is a hexadecimal digit for `std::from_chars`. -/
def isHexDigit (c : Nat) : Bool :=
  (decide (0x30 ≤ c) && decide (c ≤ 0x39)) || (decide (0x41 ≤ c) && decide (c ≤ 0x46))
    || (decide (0x61 ≤ c) && decide (c ≤ 0x66))

/-- `std::from_chars(Str, Str + 2, item, 16)` on the characters `c0 c1`:
the value of `item` afterwards (unchanged when `c0` is no hex digit). -/
def from_chars2 (c0 c1 item : Nat) : Nat :=
  if isHexDigit c0 then
    (if isHexDigit c1 then 16 * hexValue c0 + hexValue c1 else hexValue c0)
  else item

/-- The loops of `DecodePassword3` that fill an array from pairs of
characters (`std::from_chars(Str, Str + 2, item, 16); Str += 2;`): the
array and the rest of the input, for the initial contents `items` of the
array; `none` when the input buffer ends inside a pair. -/
def readHexPairs : List Nat → List Nat → Option (List Nat × List Nat)
  | [], Str => some ([], Str)
  | item :: items, c0 :: c1 :: Str =>
      match readHexPairs items Str with
      | some (rest, Str') => some (from_chars2 c0 c1 item :: rest, Str')
      | none => none
  | _ :: _, _ => none

/-- The function `strlen` on a buffer given with its end: `none` when the
buffer holds no NUL. -/
def strlenIn : List Nat → Option Nat
  | [] => none
  | c :: rest => if c = 0 then some 0 else (strlenIn rest).map (fun n => n + 1)

/-- `DecodePassword3(Str, Buf)`: the string left in `Buf`.  `Str` is the
input buffer from the pointer to its end, `stack` the indeterminate initial
contents of the local array `iv`; `none` stands for a read outside the
input buffer. -/
def DecodePassword3 (P : Provider) (SecretKey stack Str : List Nat) : Option (List Nat) :=
  match strlenIn Str with
  | none => none
  | some length =>
      if 16 * 2 + 1 < length then
        let encodedLength := (length - 1) / 2 - 16
        if P.alloc (encodedLength + 1) = false then some []
        else
          match readHexPairs ((List.range 16).map fun j => stack.getD j 0 % 256) Str with
          | none => none
          | some (iv, Str1) =>
              match Str1 with
              | [] => none
              | c :: Str2 =>
                  if c = 0x3A then
                    match CreateAesKey P SecretKey with
                    | none => some []
                    | some key =>
                        match readHexPairs (List.replicate encodedLength 0) Str2 with
                        | none => none
                        | some (buffer, _) =>
                            if P.CryptImportKey key && P.CryptSetKeyParam_MODE key
                                && P.CryptSetKeyParam_IV key iv then
                              match P.CryptDecrypt key iv buffer with
                              | some decrypted => some (cstr (decrypted ++ [0]))
                              | none => some []
                            else some []
                  else some []
      else some []

/-- One character group of `DecodePasswordOriginal` / `DecodePassword2`:
the value of `Ch` stored through `Put` for the characters `c0 = *Get` and
`c1 = *(Get+1)`. -/
def decodeGroup (c0 c1 : Nat) : Nat :=
  let Rnd := (c0 >>> 4) &&& 0x3
  let Ch := (c0 &&& 0xF) ||| ((c1 &&& 0xF) <<< 4)
  let Ch := Ch <<< 8
  let Ch := Ch >>> Rnd
  (Ch &&& 0xFF) ||| ((Ch >>> 8) &&& 0xFF)

/-- The loop `while(*Get != NUL)` of `DecodePasswordOriginal` over the
input buffer from `Get` to its end; the first argument is the number of
bytes `Get` still has to advance.  `none` stands for a read outside the
buffer. -/
def decodeOriginalFrom : Nat → List Nat → Option (List Nat)
  | _, [] => none
  | skip + 1, _ :: rest => decodeOriginalFrom skip rest
  | 0, c0 :: rest =>
      if c0 = 0 then some []
      else
        match rest with
        | [] => none
        | c1 :: _ =>
            match decodeOriginalFrom (if c0 &&& 0x1 ≠ 0 then 2 else 1) rest with
            | some out => some (decodeGroup c0 c1 % 256 :: out)
            | none => none

/-- `DecodePasswordOriginal(Str, Buf)`: the string left in `Buf`, `none`
for a read outside the input buffer. -/
def DecodePasswordOriginal (Str : List Nat) : Option (List Nat) :=
  (decodeOriginalFrom 0 Str).map cstr

/-- The loop `while(*Get != NUL)` of `DecodePassword2`; `KeyCurrent` is
the offset of the key pointer in the buffer `Key`, `KeyEnd` is
`strlen(Key)`. -/
def decode2From (Key : List Nat) (KeyEnd : Nat) : Nat → Nat → List Nat → Option (List Nat)
  | _, _, [] => none
  | skip + 1, KeyCurrent, _ :: rest => decode2From Key KeyEnd skip KeyCurrent rest
  | 0, KeyCurrent, c0 :: rest =>
      if c0 = 0 then some []
      else
        match rest, Key[KeyCurrent]? with
        | c1 :: _, some k =>
            match decode2From Key KeyEnd (if c0 &&& 0x1 ≠ 0 then 2 else 1)
                (if KeyCurrent + 1 = KeyEnd then 0 else KeyCurrent + 1) rest with
            | some out => some ((decodeGroup c0 c1 ^^^ k) % 256 :: out)
            | none => none
        | _, _ => none

/-- `DecodePassword2(Str, Buf, Key)`: the string left in `Buf`, `none`
for a read outside the input buffer or the key buffer. -/
def DecodePassword2 (Str Key : List Nat) : Option (List Nat) :=
  (decode2From Key (strlen Key) 0 0 Str).map cstr

/-- The test `strncmp(Get, lit, n) == 0` on the input buffer, for a string
literal `lit`; `none` for a read outside the buffer. -/
def strncmpEq : Nat → List Nat → List Nat → Option Bool
  | 0, _, _ => some true
  | _ + 1, [], _ => none
  | n + 1, a :: Get, lit =>
      if a ≠ lit.headD 0 then some false
      else if a = 0 then some true
      else strncmpEq n Get lit.tail

/-- `DecodePassword(Str, Buf)`: the string left in `Buf`.  `Str` is the
input buffer from the pointer to its end, `SecretKey` the contents of the
key array; `none` stands for a read outside a buffer. -/
def DecodePassword (P : Provider) (SecretKey stack Str : List Nat) : Option (List Nat) :=
  match Str with
  | [] => none
  | c :: _ =>
      if c = 0 then some []
      else if 0x40 ≤ c ∧ c < 0x80 then DecodePasswordOriginal Str
      else
        match strncmpEq 2 Str [0x30, 0x41] with
        | none => none
        | some true => DecodePasswordOriginal (Str.drop 2)
        | some false =>
            match strncmpEq 2 Str [0x30, 0x42] with
            | none => none
            | some true => DecodePassword2 (Str.drop 2) SecretKey
            | some false =>
                match strncmpEq 2 Str [0x30, 0x43] with
                | none => none
                | some true => DecodePassword3 P SecretKey stack (Str.drop 2)
                | some false => some []

/-- The crypto provider succeeds and is an AES-256-CBC provider: a key of
32 bytes is imported and takes the mode and a 16-byte IV, `CryptEncrypt`
on whole blocks of bytes returns as many bytes, and `CryptDecrypt` under
the same key and IV returns the data that was encrypted. -/
def Provider.Succeeds (P : Provider) : Prop :=
  ∀ key iv : List Nat, key.length = 32 → iv.length = 16 →
    P.CryptImportKey key = true ∧ P.CryptSetKeyParam_MODE key = true ∧
    P.CryptSetKeyParam_IV key iv = true ∧
    ∀ data : List Nat, data.length % 16 = 0 → (∀ b ∈ data, b < 256) →
      ∃ encrypted, P.CryptEncrypt key iv data = some encrypted ∧
        encrypted.length = data.length ∧ (∀ b ∈ encrypted, b < 256) ∧
        P.CryptDecrypt key iv encrypted = some data

/-- A provider for evaluating the definitions on concrete inputs: a hash
that returns the first bytes of its message, and a cipher that XORs every
byte with 0x5A. -/
def toyProvider : Provider where
  hash := fun m => m.take 20
  alloc := fun _ => true
  CryptImportKey := fun _ => true
  CryptSetKeyParam_MODE := fun _ => true
  CryptSetKeyParam_IV := fun _ _ => true
  CryptEncrypt := fun _ _ d => some (d.map fun b => b ^^^ 0x5A)
  CryptDecrypt := fun _ _ d => some (d.map fun b => b ^^^ 0x5A)

/-! ## The flat file behind a store (`~REGDATATBL`, `ReadInReg`) -/

/-- The output of `for (auto const& line : lines) of << line << "\n";`. -/
def linesText : List (List Nat) → List Nat
  | [] => []
  | line :: rest => line ++ [0x0A] ++ linesText rest

/-- The output of the loop over the groups of the map in `~REGDATATBL`:
`of << "\n[" << key << "]\n"` and the lines of the group, for each group. -/
def groupsText : IniMap → List Nat
  | [] => []
  | (key, lines) :: rest =>
      [0x0A, 0x5B] ++ key ++ [0x5D, 0x0A] ++ linesText lines ++ groupsText rest

/-- The text that `~REGDATATBL` writes to the file for a handle opened for
update: the banner `MSGJPN239` and the groups. -/
def REGDATATBL.flush (MSGJPN239 : List Nat) (map : IniMap) : List Nat :=
  MSGJPN239 ++ groupsText map

/-- The lines that repeated `getline(is, line)` delivers from a text; the
second argument is the line read so far, in reverse. -/
def getlines : List Nat → List Nat → List (List Nat)
  | [], [] => []
  | [], c :: acc => [(c :: acc).reverse]
  | c :: rest, acc => if c = 0x0A then acc.reverse :: getlines rest [] else getlines rest (c :: acc)

/-- The position of the first `]` in a line (`line.find(']')`). -/
def findBracket : List Nat → Option Nat
  | [] => none
  | c :: rest => if c = 0x5D then some 0 else (findBracket rest).map (fun n => n + 1)

/-- The loop of `ReadInReg` over the lines of the file, with the current
group name `key` and the map built so far. -/
def readLines : List Nat → IniMap → List (List Nat) → IniMap
  | _, map, [] => map
  | key, map, line :: rest =>
      if line = [] ∨ line.headD 0 = 0x23 then readLines key map rest
      else if line.headD 0 = 0x5B then
        readLines
          (((match findBracket line with
            | some pos => line.take pos
            | none => line)).drop 1) map rest
      else readLines key (map.push_back key line) rest

/-- `ReadInReg(Name, Handle)` on a file that could be opened: the map of
the new root handle. -/
def ReadInReg (Name : List Nat) (text : List Nat) : IniMap :=
  readLines Name [] (getlines text [])

/-! ## Master password (`SetMasterPassword`, `SetHashSalt`, `ValidateMasterPassword`) and `SaveRegistry` -/

/-- The states `PASSWORD_OK`, `PASSWORD_UNMATCH` and `BAD_PASSWORD_HASH`
of the master password. -/
inductive PasswordStatus where
  | PASSWORD_OK
  | PASSWORD_UNMATCH
  | BAD_PASSWORD_HASH
  deriving DecidableEq, Repr

/-- The file-level variables of `registry.cpp` that the master password
and the typed access use. -/
structure Statics where
  /-- The array `SecretKey`. -/
  SecretKey : List Nat
  /-- The variable `SecretKeyLength`. -/
  SecretKeyLength : Nat
  /-- The variable `IsMasterPasswordError`. -/
  IsMasterPasswordError : PasswordStatus
  /-- Whether `EncryptSettings == YES`. -/
  EncryptSettings : Bool
  /-- Whether `EncryptSettingsError == YES`. -/
  EncryptSettingsError : Bool
  /-- Whether `IniKanjiCode == KANJI_SJIS`. -/
  sjis : Bool

/-- The `SecretKeyLength` bytes at `SecretKey`: the password argument of
the hash functions and the key of the masking. -/
def Statics.key (g : Statics) : List Nat := g.SecretKey.take g.SecretKeyLength

/-- The contents of an array after `memcpy(&mem[off], src, src.length)`. -/
def memcpyAt (mem : List Nat) (off : Nat) (src : List Nat) : List Nat :=
  mem.take off ++ src ++ mem.drop (off + src.length)

/-- `SetMasterPassword(Password)`; `none` is the `NULL` argument. -/
def SetMasterPassword (C : Consts) (Password : Option (List Nat)) (g : Statics) : Statics :=
  let zeroed := memcpyAt g.SecretKey 0 (List.replicate (C.MAX_PASSWORD_LEN + 12) 0)
  let copied :=
    match Password with
    | some p => memcpyAt zeroed 0 ((cstr p).take C.MAX_PASSWORD_LEN ++ [0])
    | none => memcpyAt zeroed 0 (cstr C.DEFAULT_PASSWORD ++ [0])
  { g with
    SecretKey := copied
    SecretKeyLength := strlen copied
    IsMasterPasswordError := PasswordStatus.PASSWORD_OK }

/-- `SetHashSalt1(Salt, Length)`; `none` is the `NULL` argument, `Salt`
the list of the `Length` bytes. -/
def SetHashSalt1 (Salt : Option (List Nat)) (g : Statics) : Statics :=
  match Salt with
  | some salt =>
      { g with
        SecretKey := memcpyAt g.SecretKey (strlen g.SecretKey + 1) salt
        SecretKeyLength :=
          strlen (memcpyAt g.SecretKey (strlen g.SecretKey + 1) salt) + 1 + salt.length }
  | none => { g with SecretKeyLength := strlen g.SecretKey + 1 }

/-- `SetHashSalt(salt)` for the `DWORD` value `salt`: the four bytes of
the salt, most significant first, are installed by `SetHashSalt1`. -/
def SetHashSalt (salt : Nat) (g : Statics) : Statics :=
  SetHashSalt1
    (some [(salt >>> 24) &&& 0xff, (salt >>> 16) &&& 0xff, (salt >>> 8) &&& 0xff, salt &&& 0xff]) g

/-- The `DWORD` that an `int` converts to. -/
def toDWORD (v : Int) : Nat := (v % 2 ^ 32).toNat

/-- The reads that `ValidateMasterPassword` makes on the handle it opened,
as functions of the name: the results of the virtual `ReadInt` and
`ReadValue`. -/
structure OpenedStore where
  /-- The result of `ReadInt(name)`. -/
  ReadInt : List Nat → Option Int
  /-- The result of `ReadValue(name)`. -/
  ReadValue : List Nat → Option (List Nat)

/-- The bytes of a string literal of the source (ASCII). -/
def ascii (s : String) : List Nat := s.toList.map Char.toNat

/-- The status that `ValidateMasterPassword` derives from the result of
`CheckPasswordValidity` (`switch` with the cases 0, 1 and default). -/
def statusOfCheck (r : Nat) : PasswordStatus :=
  if r = 0 then PasswordStatus.PASSWORD_UNMATCH
  else if r = 1 then PasswordStatus.PASSWORD_OK
  else PasswordStatus.BAD_PASSWORD_HASH

/-- The body of `if(i == FFFTP_SUCCESS)` in `ValidateMasterPassword`, on
the opened handle `h` with key name `FFFTP`.  `checkbuf` and `salt1` are
the indeterminate initial contents of the local arrays; `salt1` has 16
bytes.  `none` is a write past the end of `Buf` in
`CheckPasswordValidity`. -/
def validateOpened (C : Consts) (hash : List Nat → List Nat) (h : OpenedStore)
    (checkbuf salt1 : List Nat) (g : Statics) : Option Statics :=
  match Config.ReadStringFromReg hash g.EncryptSettings g.key (ascii "FFFTP")
      (ascii "CredentialCheck1") (h.ReadValue (ascii "CredentialCheck1")) checkbuf 48 with
  | (Status.FFFTP_SUCCESS, check1) =>
      let g1 :=
        match Config.ReadBinaryFromReg hash g.EncryptSettings g.key (ascii "FFFTP")
            (ascii "CredentialSalt1") (h.ReadValue (ascii "CredentialSalt1"))
            ((List.range 16).map fun i => salt1.getD i 0) with
        | (Status.FFFTP_SUCCESS, salt) => SetHashSalt1 (some salt) g
        | (Status.FFFTP_FAIL, _) => SetHashSalt1 none g
      let stretch :=
        (Config.ReadIntValueFromReg hash g1.EncryptSettings g1.key (ascii "FFFTP")
          (ascii "CredentialStretch") (h.ReadInt (ascii "CredentialStretch")) 0).2
      match CheckPasswordValidity C hash g1.key check1 stretch with
      | some r => some { g1 with IsMasterPasswordError := statusOfCheck r }
      | none => none
  | (Status.FFFTP_FAIL, _) =>
      match Config.ReadStringFromReg hash g.EncryptSettings g.key (ascii "FFFTP")
          (ascii "CredentialCheck") (h.ReadValue (ascii "CredentialCheck")) checkbuf 48 with
      | (Status.FFFTP_SUCCESS, check) =>
          let g1 :=
            match Config.ReadIntValueFromReg hash g.EncryptSettings g.key (ascii "FFFTP")
                (ascii "CredentialSalt") (h.ReadInt (ascii "CredentialSalt")) 0 with
            | (Status.FFFTP_SUCCESS, salt) => SetHashSalt (toDWORD salt) g
            | (Status.FFFTP_FAIL, _) => SetHashSalt1 none g
          match CheckPasswordValidity C hash g1.key check 0 with
          | some r => some { g1 with IsMasterPasswordError := statusOfCheck r }
          | none => none
      | (Status.FFFTP_FAIL, _) => some g

/-- The handle that `OpenReg("FFFTP", ..)` yields on the flat file with
the given text. -/
def openIni (sjis : Bool) (a2w_u8 : List Nat → List Nat) (text : List Nat) : OpenedStore where
  ReadInt := fun name => (REGDATATBL.ReadInt (ReadInReg (ascii "FFFTP") text) (ascii "FFFTP") name).2
  ReadValue := fun name =>
    (REGDATATBL.ReadValue sjis a2w_u8 (ReadInReg (ascii "FFFTP") text) (ascii "FFFTP") name).2

/-- `ValidateMasterPassword()`.  `file` is the text of the flat file
(`none` when it cannot be opened), `AskForceIni` the test
`AskForceIni() == NO` negated, `registry` the handle that `OpenReg` yields
for the registry (`none` when the key cannot be opened).  The result is
the variables afterwards and whether the function returns `YES`; `none` is
a write past the end of `Buf` in `CheckPasswordValidity`. -/
def ValidateMasterPassword (C : Consts) (hash : List Nat → List Nat)
    (a2w_u8 : List Nat → List Nat) (file : Option (List Nat)) (AskForceIni : Bool)
    (registry : Option OpenedStore) (checkbuf salt1 : List Nat) (g : Statics) :
    Option (Statics × Bool) :=
  match file with
  | some text =>
      match validateOpened C hash (openIni g.sjis a2w_u8 text) checkbuf salt1 g with
      | some g1 => some (g1, true)
      | none => none
  | none =>
      if AskForceIni then some (g, false)
      else
        match registry with
        | some h =>
            match validateOpened C hash h checkbuf salt1 g with
            | some g1 => some (g1, true)
            | none => none
        | none => some (g, false)

/-- The writes of `SaveRegistry()` between `CreateReg` and `CloseReg` on a
flat-file store (the body of `if(CreateReg("FFFTP", &hKey3) == FFFTP_SUCCESS)`),
as far as the root group is concerned: the variables and the map before
the handle is closed.  `tick` is `GetTickCount()`, `ft0`, `ft2`, `ft3` the
`dwLowDateTime` of the process times; `rndPad`, `rndIv` what the random
source delivers to `EncodePassword`; `subgroupWrites` the lines that the
function pushes through the handles of the sub-groups (`Options`, hosts,
history), each with the key name of its handle, in order.  The deletions
at the end fail on this backend and change nothing.  `none` is a write
past the end of `Buf` in `CreatePasswordHash`. -/
def saveRegistryWrites (C : Consts) (P : Provider) (EncryptAllSettings : Int)
    (tick ft0 ft2 ft3 : Nat) (rndPad rndIv : Option (List Nat))
    (subgroupWrites : List (List Nat × List Nat)) (g : Statics) : Option (Statics × IniMap) :=
  let root := ascii "FFFTP"
  let salt : Int := bytesInt (wordBytes tick)
  let map1 := REGDATATBL.WriteIntValueToReg P.hash g.EncryptSettings g.key [] root
    (ascii "Version") C.VER_NUM
  let saved : Option (Statics × IniMap) :=
    if EncryptAllSettings = C.YES then
      let salt1 := intBytes salt ++ wordBytes ft0 ++ wordBytes ft2 ++ wordBytes ft3
      let g1 := SetHashSalt1 (some salt1) g
      let map2 := REGDATATBL.WriteBinaryToReg P.hash g1.EncryptSettings g1.key map1 root
        (ascii "CredentialSalt1") salt1
      let map3 := REGDATATBL.WriteIntValueToReg P.hash g1.EncryptSettings g1.key map2 root
        (ascii "CredentialStretch") 65535
      match CreatePasswordHash C P.hash g1.key 65535 with
      | some buf =>
          some (g1, REGDATATBL.WriteStringToReg P.hash g1.EncryptSettings g1.key map3 root
            (ascii "CredentialCheck1") buf)
      | none => none
    else
      let g1 := SetHashSalt (toDWORD salt) g
      let map2 := REGDATATBL.WriteIntValueToReg P.hash g1.EncryptSettings g1.key map1 root
        (ascii "CredentialSalt") salt
      match CreatePasswordHash C P.hash g1.key 0 with
      | some buf =>
          some (g1, REGDATATBL.WriteStringToReg P.hash g1.EncryptSettings g1.key map2 root
            (ascii "CredentialCheck") buf)
      | none => none
  match saved with
  | none => none
  | some saved =>
      let g1 := saved.1
      let map5 := REGDATATBL.WriteIntValueToReg P.hash g1.EncryptSettings g1.key saved.2 root
        (ascii "EncryptAll") EncryptAllSettings
      let Str := EncodePassword P g1.SecretKey rndPad rndIv (to_string EncryptAllSettings)
      let map6 := REGDATATBL.WriteStringToReg P.hash g1.EncryptSettings g1.key map5 root
        (ascii "EncryptAllDetector") Str
      some ({ g1 with EncryptSettings := false },
        subgroupWrites.foldl (fun m w => m.push_back w.1 w.2) map6)

/-- `SaveRegistry()` with `RegType == REGTYPE_INI`.  `ReadOnlySettings` is
the test `ReadOnlySettings == YES`, `canWrite` whether the file can be
opened for writing when the root handle is closed; the other arguments are
those of `saveRegistryWrites`.  The result is the variables and the text of
the file afterwards; `none` is a write past the end of `Buf` in
`CreatePasswordHash`. -/
def SaveRegistry (C : Consts) (P : Provider) (ReadOnlySettings : Bool)
    (EncryptAllSettings : Int) (tick ft0 ft2 ft3 : Nat) (rndPad rndIv : Option (List Nat))
    (subgroupWrites : List (List Nat × List Nat)) (canWrite : Bool)
    (file : Option (List Nat)) (g : Statics) : Option (Statics × Option (List Nat)) :=
  if g.IsMasterPasswordError = PasswordStatus.PASSWORD_UNMATCH then some (g, file)
  else if g.EncryptSettingsError then some (g, file)
  else if ReadOnlySettings then some (g, file)
  else
    match saveRegistryWrites C P EncryptAllSettings tick ft0 ft2 ft3 rndPad rndIv
        subgroupWrites g with
    | some written =>
        some (written.1,
          if canWrite then some (REGDATATBL.flush C.MSGJPN239 written.2) else file)
    | none => none

/-! ## Auxiliary notions for the flat file -/

/-- A line that `ReadInReg` stores under the current group: not empty, not
a comment, not a group header, and without a line break. -/
def lineOk (line : List Nat) : Prop :=
  line ≠ [] ∧ line.headD 0 ≠ 0x23 ∧ line.headD 0 ≠ 0x5B ∧ 0x0A ∉ line

/-- A group name that `ReadInReg` reads back from its header: without a
line break and without `]`. -/
def keyOk (key : List Nat) : Prop := 0x0A ∉ key ∧ 0x5D ∉ key

/-- A map whose groups have distinct names and survive the file: every
name is `keyOk`, every line `lineOk`. -/
def IniMap.WF (map : IniMap) : Prop :=
  (map.map Prod.fst).Nodup ∧ ∀ g ∈ map, keyOk g.1 ∧ ∀ l ∈ g.2, lineOk l

/-- The string that `SetMasterPassword` leaves in `SecretKey`. -/
def passwordString (C : Consts) (Password : Option (List Nat)) : List Nat :=
  match Password with
  | some p => (cstr p).take C.MAX_PASSWORD_LEN
  | none => cstr C.DEFAULT_PASSWORD

/-- The salt bytes that `SaveRegistry` installs in `SecretKey`: the 16
bytes built from the tick count and the process times when all settings
are encrypted, and otherwise the four bytes of the tick count, most
significant first. -/
def savedSalt (C : Consts) (EncryptAllSettings : Int) (tick ft0 ft2 ft3 : Nat) : List Nat :=
  if EncryptAllSettings = C.YES then
    intBytes (bytesInt (wordBytes tick)) ++ wordBytes ft0 ++ wordBytes ft2 ++ wordBytes ft3
  else
    [(toDWORD (bytesInt (wordBytes tick)) >>> 24) &&& 0xff,
      (toDWORD (bytesInt (wordBytes tick)) >>> 16) &&& 0xff,
      (toDWORD (bytesInt (wordBytes tick)) >>> 8) &&& 0xff,
      toDWORD (bytesInt (wordBytes tick)) &&& 0xff]

/-- The lines that `getline` delivers from the text of the groups of a
map: for each group an empty line, the header and the lines. -/
def groupLines : IniMap → List (List Nat)
  | [] => []
  | (key, lines) :: rest => [] :: ([0x5B] ++ key ++ [0x5D]) :: (lines ++ groupLines rest)

/-! ## Multi-strings, deletion and default suppression -/

/-- `Config::ReadMultiStringFromReg(Name, Str, Size)`, given the result
`read` of `ReadValue(Name)`.  `Str` is the memory at the destination before
the call and the result holds the memory there afterwards.  `StrMultiLen`
is the helper of that name, whose code is not among the sources, as a
function of the memory at its argument.  The subtraction in
`(size_t)Size - 1` wraps for `Size = 0`, which leaves `read->size()` as the
minimum. -/
def Config.ReadMultiStringFromReg (StrMultiLen : List Nat → Nat) (hash : List Nat → List Nat)
    (EncryptSettings : Bool) (key KeyName Name : List Nat) (read : Option (List Nat))
    (Str : List Nat) (Size : Nat) : Status × List Nat :=
  match read with
  | some read =>
      let len := if Size = 0 then read.length else min read.length (Size - 1)
      let copied := memcpyAt Str 0 (read.take len ++ [0])
      (Status.FFFTP_SUCCESS,
        if EncryptSettings then
          UnmaskSettingsData hash (saltOf KeyName Name) key
              (copied.take (StrMultiLen copied + 1)) true
            ++ copied.drop (StrMultiLen copied + 1)
        else copied)
  | none => (Status.FFFTP_FAIL, Str)

/-- `ReadMultiStringFromReg(Name, Str, Size)` on a flat-file handle: the
map, the status and the memory at the destination afterwards. -/
def REGDATATBL.ReadMultiStringFromReg (StrMultiLen : List Nat → Nat)
    (hash : List Nat → List Nat) (EncryptSettings : Bool) (key : List Nat) (sjis : Bool)
    (a2w_u8 : List Nat → List Nat) (map : IniMap) (KeyName Name : List Nat) (Str : List Nat)
    (Size : Nat) : IniMap × Status × List Nat :=
  ((REGDATATBL.ReadValue sjis a2w_u8 map KeyName Name).1,
    Config.ReadMultiStringFromReg StrMultiLen hash EncryptSettings key KeyName Name
      (REGDATATBL.ReadValue sjis a2w_u8 map KeyName Name).2 Str Size)

/-- The values of `TmpRegType`. -/
inductive RegType
  | REGTYPE_REG
  | REGTYPE_INI
  deriving DecidableEq, Repr

/-- `DeleteSubKey(Handle, Name)`.  `RegDeleteKeyW` is whether the registry
call on the name, made for `REGTYPE_REG` only, returns `ERROR_SUCCESS`;
`map` is the map behind a flat-file handle.  The result is the status and
the map afterwards. -/
def DeleteSubKey (TmpRegType : RegType) (RegDeleteKeyW : List Nat → Bool) (map : IniMap)
    (Name : List Nat) : Status × IniMap :=
  if TmpRegType = RegType.REGTYPE_REG then
    (if RegDeleteKeyW Name then Status.FFFTP_SUCCESS else Status.FFFTP_FAIL, map)
  else (Status.FFFTP_FAIL, map)

/-- `DeleteValue(Handle, Name)`.  `RegDeleteValueW` is whether the registry
call on the name, made for `REGTYPE_REG` only, returns `ERROR_SUCCESS`;
`map` is the map behind a flat-file handle.  The result is the status and
the map afterwards. -/
def DeleteValue (TmpRegType : RegType) (RegDeleteValueW : List Nat → Bool) (map : IniMap)
    (Name : List Nat) : Status × IniMap :=
  if TmpRegType = RegType.REGTYPE_REG then
    (if RegDeleteValueW Name then Status.FFFTP_SUCCESS else Status.FFFTP_FAIL, map)
  else (Status.FFFTP_FAIL, map)

/-- The C `strcmp` on two C strings: negative, zero or positive as the
first string is less than, equal to or greater than the second. -/
def strcmp : List Nat → List Nat → Int
  | [], [] => 0
  | [], d :: _ => if d = 0 then 0 else -1
  | c :: _, [] => if c = 0 then 0 else 1
  | c :: s, d :: t =>
      if c = d then (if c = 0 then 0 else strcmp s t) else if c < d then -1 else 1

/-- A call that `SaveStr` or `SaveIntNum` makes on its handle. -/
inductive StoreCall
  | DeleteValue (Name : List Nat)
  | WriteStringToReg (Name Str : List Nat)
  | WriteIntValueToReg (Name : List Nat) (Value : Int)
  deriving DecidableEq, Repr

/-- `SaveStr(Handle, Key, Str, DefaultStr)` on a flat-file handle (so
`TmpRegType` is `REGTYPE_INI`); `none` is the `NULL` default.  The result
is the map afterwards and the calls made on the handle, in order. -/
def SaveStr (hash : List Nat → List Nat) (EncryptSettings : Bool) (key : List Nat)
    (map : IniMap) (KeyName Key Str : List Nat) (DefaultStr : Option (List Nat)) :
    IniMap × List StoreCall :=
  if DefaultStr.isSome ∧ strcmp Str (DefaultStr.getD []) = 0 then
    ((DeleteValue RegType.REGTYPE_INI (fun _ => false) map Key).2, [StoreCall.DeleteValue Key])
  else
    (REGDATATBL.WriteStringToReg hash EncryptSettings key map KeyName Key Str,
      [StoreCall.WriteStringToReg Key Str])

/-- `SaveIntNum(Handle, Key, Num, DefaultNum)` on a flat-file handle: the
map afterwards and the calls made on the handle, in order. -/
def SaveIntNum (hash : List Nat → List Nat) (EncryptSettings : Bool) (key : List Nat)
    (map : IniMap) (KeyName Key : List Nat) (Num DefaultNum : Int) : IniMap × List StoreCall :=
  if Num = DefaultNum then
    ((DeleteValue RegType.REGTYPE_INI (fun _ => false) map Key).2, [StoreCall.DeleteValue Key])
  else
    (REGDATATBL.WriteIntValueToReg hash EncryptSettings key map KeyName Key Num,
      [StoreCall.WriteIntValueToReg Key Num])

/-! ## Auxiliary notions for the digest string and multi-strings -/

/-- The characters that stand for a list of bytes when every 4-bit nibble,
high nibble first, is written as the character `0x40` plus the nibble. -/
def digestChars : List Nat → List Nat
  | [] => []
  | b :: rest => (0x40 + b / 16) :: (0x40 + b % 16) :: digestChars rest

/-- A provider for evaluating the failure paths on concrete inputs: as
`toyProvider`, but `CryptImportKey` refuses every key. -/
def refusingProvider : Provider :=
  { toyProvider with CryptImportKey := fun _ => false }

/-- The entries of a NUL-joined value: the runs of bytes in front of each
NUL, and a last run without NUL when the value does not end in one.  The
second argument is the entry read so far, in reverse. -/
def multiEntriesFrom : List Nat → List Nat → List (List Nat)
  | [], [] => []
  | [], c :: acc => [(c :: acc).reverse]
  | c :: rest, acc =>
      if c = 0 then acc.reverse :: multiEntriesFrom rest [] else multiEntriesFrom rest (c :: acc)

/-- The entries of a NUL-joined value. -/
def multiEntries (value : List Nat) : List (List Nat) := multiEntriesFrom value []

/-- The NUL-joined value of a list of entries: every entry followed by a
NUL. -/
def joinEntries : List (List Nat) → List Nat
  | [] => []
  | e :: es => e ++ [0] ++ joinEntries es

/-- A destination that holds a well-formed multi-string made of whole
entries of the stored value: some number of its leading entries, each with
its NUL, and then the NUL that ends a multi-string. -/
def WholeEntries (stored dest : List Nat) : Prop :=
  ∃ k ∈ List.range ((multiEntries stored).length + 1),
    (joinEntries ((multiEntries stored).take k) ++ [0]) <+: dest

instance (stored dest : List Nat) : Decidable (WholeEntries stored dest) :=
  inferInstanceAs (Decidable (∃ k ∈ List.range ((multiEntries stored).length + 1),
    (joinEntries ((multiEntries stored).take k) ++ [0]) <+: dest))

/-! ## Version fix-ups of `LoadRegistry` -/

/-- Constants of `common.h` that the version fix-ups of `LoadRegistry`
use; their values are not among the sources. -/
structure KanjiConsts where
  /-- The value `NO` of the option flags. -/
  NO : Int
  /-- The kanji code `KANJI_SJIS`. -/
  KANJI_SJIS : Int
  /-- The kanji code `KANJI_UTF8N`. -/
  KANJI_UTF8N : Int
  /-- The kanji code `KANJI_UTF8BOM`. -/
  KANJI_UTF8BOM : Int

/-- The fields of `HOSTDATA` that the version fix-ups of `LoadRegistry`
assign. -/
structure HOSTDATA where
  /-- The field `KanjiCode`. -/
  KanjiCode : Int
  /-- The field `NameKanjiCode`. -/
  NameKanjiCode : Int
  /-- The field `Pasv`. -/
  Pasv : Int
  /-- The field `ListCmdOnly`. -/
  ListCmdOnly : Int
  /-- The field `MaxThreadCount`. -/
  MaxThreadCount : Int
  /-- The field `ReuseCmdSkt`. -/
  ReuseCmdSkt : Int
  deriving DecidableEq, Repr

/-- The value of `*Value` after `h->ReadIntValueFromReg(Name, Value)` on an
opened handle with key name `KeyName`, under the variables `g`. -/
def OpenedStore.ReadIntValueFromReg (h : OpenedStore) (hash : List Nat → List Nat)
    (g : Statics) (KeyName : List Nat) (Name : String) (Value : Int) : Int :=
  (Config.ReadIntValueFromReg hash g.EncryptSettings g.key KeyName (ascii Name)
    (h.ReadInt (ascii Name)) Value).2

/-- The start of the body of `if(i == FFFTP_SUCCESS)` in `LoadRegistry`:
`hKey3->ReadIntValueFromReg("Version", &Version);` and
`if(Version < 1980) IniKanjiCode = KANJI_SJIS;`.  `Version` is the
indeterminate initial value of the local variable; the result is the
variables afterwards and the value of `Version`. -/
def LoadRegistry.readVersion (hash : List Nat → List Nat) (hKey3 : OpenedStore)
    (Version : Int) (g : Statics) : Statics × Int :=
  let Version := hKey3.ReadIntValueFromReg hash g (ascii "FFFTP") "Version" Version
  (if Version < 1980 then { g with sjis := true } else g, Version)

/-- The body of `if(OpenSubKey(hKey4, Str, &hKey5) == FFFTP_SUCCESS)` in
the host loop of `LoadRegistry`, as far as it assigns the fields of
`HOSTDATA` above; the reads of the other fields, which lie between these
statements, do not touch them.  `Host` is the record that `CopyDefaultHost`
delivers, `hKey5` the opened sub-group with key name `KeyName`, `g` the
variables during the loop; the result is the record passed to
`AddHostToList`.  Each `let` is one statement of the source, in order, and
names the value of the field it assigns. -/
def LoadRegistry.readHost (K : KanjiConsts) (hash : List Nat → List Nat) (g : Statics)
    (KeyName : List Nat) (hKey5 : OpenedStore) (Version : Int) (Host : HOSTDATA) : HOSTDATA :=
  -- if(Version < 1921) { Host.Pasv = NO; Host.ListCmdOnly = NO; }
  let Pasv := if Version < 1921 then K.NO else Host.Pasv
  let ListCmdOnly := if Version < 1921 then K.NO else Host.ListCmdOnly
  -- if(Version < 1980) Host.NameKanjiCode = KANJI_SJIS;
  let NameKanjiCode := if Version < 1980 then K.KANJI_SJIS else Host.NameKanjiCode
  -- hKey5->ReadIntValueFromReg("Kanji", &Host.KanjiCode);
  let KanjiCode := hKey5.ReadIntValueFromReg hash g KeyName "Kanji" Host.KanjiCode
  -- if(Version < 1983) { if(Host.KanjiCode == KANJI_UTF8N) Host.KanjiCode = KANJI_UTF8BOM; }
  let KanjiCode :=
    if Version < 1983 then (if KanjiCode = K.KANJI_UTF8N then K.KANJI_UTF8BOM else KanjiCode)
    else KanjiCode
  -- hKey5->ReadIntValueFromReg("NameKanji", &Host.NameKanjiCode);
  let NameKanjiCode := hKey5.ReadIntValueFromReg hash g KeyName "NameKanji" NameKanjiCode
  -- hKey5->ReadIntValueFromReg("Pasv", &Host.Pasv);
  let Pasv := hKey5.ReadIntValueFromReg hash g KeyName "Pasv" Pasv
  -- hKey5->ReadIntValueFromReg("List", &Host.ListCmdOnly);
  let ListCmdOnly := hKey5.ReadIntValueFromReg hash g KeyName "List" ListCmdOnly
  -- hKey5->ReadIntValueFromReg("ThreadCount", &Host.MaxThreadCount);
  let MaxThreadCount :=
    hKey5.ReadIntValueFromReg hash g KeyName "ThreadCount" Host.MaxThreadCount
  -- hKey5->ReadIntValueFromReg("ReuseCmdSkt", &Host.ReuseCmdSkt);
  let ReuseCmdSkt := hKey5.ReadIntValueFromReg hash g KeyName "ReuseCmdSkt" Host.ReuseCmdSkt
  -- if(Version < 1985) { if(Host.MaxThreadCount > 1) Host.ReuseCmdSkt = NO; }
  let ReuseCmdSkt :=
    if Version < 1985 then (if MaxThreadCount > 1 then K.NO else ReuseCmdSkt) else ReuseCmdSkt
  { KanjiCode := KanjiCode
    NameKanjiCode := NameKanjiCode
    Pasv := Pasv
    ListCmdOnly := ListCmdOnly
    MaxThreadCount := MaxThreadCount
    ReuseCmdSkt := ReuseCmdSkt }

/-! ## Auxiliary notions for the stretched hash -/

/-- The bytes of a buffer with every group of four bytes in reverse order:
what a little-endian machine holds in memory for byte-swapped 32-bit
words. -/
def reverseWordBytes : List Nat → List Nat
  | a :: b :: c :: d :: rest => d :: c :: b :: a :: reverseWordBytes rest
  | rest => rest

/-- The digest bytes after `n` rounds of the stretching loop: the first
hash is that of the password, and every round hashes the previous digest,
with every group of four bytes reversed, followed by the password. -/
def stretchDigest (hash : List Nat → List Nat) (Password : List Nat) : Nat → List Nat
  | 0 => sha1 hash Password
  | n + 1 => sha1 hash (reverseWordBytes (stretchDigest hash Password n) ++ Password)

/-- The recurrence `H_0 = SHA1(password)`, `H_(i+1) = SHA1(H_i || password)`
on the digest bytes in digest order. -/
def stretchDigestPlain (hash : List Nat → List Nat) (Password : List Nat) : Nat → List Nat
  | 0 => sha1 hash Password
  | n + 1 => sha1 hash (stretchDigestPlain hash Password n ++ Password)

/-! ## Auxiliary notions for the mask -/

/-- The mask of the block at offset `i` when all 84 bytes of the last
buffer, the second hash at offset 64 included, are XORed with `0x6a`
before the last hash. -/
def blockMaskAll84 (hash : List Nat → List Nat) (salt key : List Nat) (i : Nat) : List Nat :=
  let seeded := wordsBytes (seedWords 16 i) ++ salt ++ key
  let h1 := sha1 hash seeded
  let inner := h1.map (fun b => b ^^^ 0x36) ++ List.replicate 44 0x36
  let h2 := sha1 hash inner
  sha1 hash ((inner ++ h2).map fun b => b ^^^ 0x6a)

/-! ## Auxiliary notions for the AES key -/

/-- The 32 key bytes when the two digests are taken in digest byte order
over the key material with its salt: the 20 bytes of the hash of the
material followed by the first suffix and the first 12 bytes of the hash of
the material followed by the second suffix. -/
def aesKeyInDigestOrder (hash : List Nat → List Nat) (material : List Nat) : List Nat :=
  sha1 hash (material ++ aesSuffix1) ++ (sha1 hash (material ++ aesSuffix2)).take 12

/-! ## Auxiliary notions for the legacy decoding -/

/-- The 8-bit right rotation of the byte `x` by `r` bits. -/
def rotr8 (x r : Nat) : Nat := ((x >>> r) ||| (x <<< (8 - r))) % 256

/-! # Theorems -/

/-! ## Lemmas on the digest encoding -/

theorem and_top_nibble (rest : Nat) (h : rest < 2 ^ 32) :
    (rest &&& 0xf0000000) >>> 28 = rest / 2 ^ 28 := by
  rw [← Nat.shiftRight_eq_div_pow]
  apply Nat.eq_of_testBit_eq
  intro j
  have hM : (0xf0000000 : Nat) = (2 ^ 4 - 1) <<< 28 := by decide
  rw [Nat.testBit_shiftRight, Nat.testBit_shiftRight, Nat.testBit_and, hM, Nat.testBit_shiftLeft,
    Nat.testBit_two_pow_sub_one]
  by_cases hj : j < 4
  · simp [hj]
  · have : rest.testBit (28 + j) = false := by
      apply Nat.testBit_lt_two_pow
      calc rest < 2 ^ 32 := h
        _ ≤ 2 ^ (28 + j) := Nat.pow_le_pow_right (by decide) (by omega)
    simp [this]

theorem encodeNibbles_succ (j rest : Nat) (h : rest < 2 ^ 32) :
    encodeNibbles (j + 1) rest = (rest / 2 ^ 28 + 0x40) :: encodeNibbles j (rest * 16 % 2 ^ 32) := by
  have h1 : rest / 2 ^ 28 < 16 := by omega
  simp only [encodeNibbles, and_top_nibble rest h, Nat.shiftLeft_eq]
  congr 1
  omega

theorem decodeNibbles_cons (j decode n : Nat) (p : List Nat) (hn : n < 16) :
    decodeNibbles (j + 1) decode ((n + 0x40) :: p)
      = decodeNibbles j ((decode * 16 + n) % 2 ^ 32) p := by
  have h1 : ¬ (n + 0x40 < 0x40 ∨ 0x40 + 15 < n + 0x40) := by omega
  simp only [decodeNibbles, List.headD_cons, List.tail_cons, if_neg h1, Nat.shiftLeft_eq]
  congr 2

theorem decodeNibbles_encodeNibbles (j : Nat) : ∀ (decode rest : Nat) (tail : List Nat),
    rest < 2 ^ 32 →
    decodeNibbles j decode (encodeNibbles j rest ++ tail)
      = some (nibbleRounds j decode rest, tail) := by
  induction j with
  | zero => intro decode rest tail _; rfl
  | succ j ih =>
    intro decode rest tail h
    rw [encodeNibbles_succ j rest h, List.cons_append,
      decodeNibbles_cons j decode _ _ (by omega), ih _ _ _ (Nat.mod_lt _ (by decide))]
    rfl

theorem nibbleRounds_eight (w : Nat) (h : w < 2 ^ 32) : nibbleRounds 8 0 w = w := by
  simp only [nibbleRounds]
  omega


theorem byteswap_ulong_lt (w : Nat) : byteswap_ulong w < 2 ^ 32 := by
  unfold byteswap_ulong
  omega

theorem sha_memory_isHashWords (hash : List Nat → List Nat) (mem : List Nat) :
    IsHashWords (sha_memory hash mem) := by
  refine ⟨by simp [sha_memory], ?_⟩
  intro w hw
  simp only [sha_memory, List.mem_map] at hw
  obtain ⟨i, _, rfl⟩ := hw
  exact byteswap_ulong_lt _

theorem stretchRounds_isHashWords (hash : List Nat → List Nat) (Password : List Nat) (n : Nat) :
    ∀ (h : List Nat) (log : List (List Nat)), IsHashWords h →
      IsHashWords (stretchRounds hash Password n h log).1 := by
  induction n with
  | zero => intro h log hh; exact hh
  | succ n ih =>
    intro h log _
    exact ih _ _ (sha_memory_isHashWords hash _)

theorem hashWords_isHashWords (hash : List Nat → List Nat) (Password : List Nat)
    (StretchCount : Int) : IsHashWords (hashWords hash Password StretchCount).1 :=
  stretchRounds_isHashWords hash Password _ _ _ (sha_memory_isHashWords hash _)

theorem stretchLoop_of_fits (C : Consts) (hash : List Nat → List Nat) (Password : List Nat)
    (hfit : 20 + Password.length ≤ sizeofBuf C) :
    ∀ (n : Nat) (h : List Nat) (log : List (List Nat)),
      stretchLoop C hash Password n h log = some (stretchRounds hash Password n h log)
  | 0, _, _ => rfl
  | n + 1, h, log => by
    rw [stretchLoop, if_pos hfit, stretchRounds]
    exact stretchLoop_of_fits C hash Password hfit n _ _

theorem stretchLoop_overflow (C : Consts) (hash : List Nat → List Nat) (Password : List Nat)
    (hover : ¬ 20 + Password.length ≤ sizeofBuf C) (n : Nat) (h : List Nat)
    (log : List (List Nat)) :
    stretchLoop C hash Password (n + 1) h log = none := by
  rw [stretchLoop, if_neg hover]

theorem hashPassword_eq (C : Consts) (hash : List Nat → List Nat) (Password : List Nat)
    (StretchCount : Int) :
    hashPassword C hash Password StretchCount
      = if scratchFits C Password.length StretchCount
          then some (hashWords hash Password StretchCount) else none := by
  unfold hashPassword hashWords scratchFits
  by_cases hfit : 20 + Password.length ≤ sizeofBuf C
  · rw [if_pos (Or.inr hfit)]
    exact stretchLoop_of_fits C hash Password hfit _ _ _
  · by_cases hsc : StretchCount ≤ 0
    · rw [if_pos (Or.inl hsc), Int.toNat_eq_zero.mpr hsc]
      rfl
    · rw [if_neg (fun h => h.elim hsc hfit)]
      obtain ⟨n, hn⟩ : ∃ n, StretchCount.toNat = n + 1 :=
        Nat.exists_eq_succ_of_ne_zero (fun h => hsc (Int.toNat_eq_zero.mp h))
      rw [hn]
      exact stretchLoop_overflow C hash Password hfit n _ _

theorem hashPassword_of_fits (C : Consts) (hash : List Nat → List Nat) (Password : List Nat)
    (StretchCount : Int) (hfit : scratchFits C Password.length StretchCount) :
    hashPassword C hash Password StretchCount = some (hashWords hash Password StretchCount) := by
  rw [hashPassword_eq, if_pos hfit]

theorem hashPassword_overflow (C : Consts) (hash : List Nat → List Nat) (Password : List Nat)
    (StretchCount : Int) (hover : ¬ scratchFits C Password.length StretchCount) :
    hashPassword C hash Password StretchCount = none := by
  rw [hashPassword_eq, if_neg hover]

theorem CreatePasswordHash_eq (C : Consts) (hash : List Nat → List Nat) (Password : List Nat)
    (StretchCount : Int) :
    CreatePasswordHash C hash Password StretchCount
      = if scratchFits C Password.length StretchCount
          then some (digestString hash Password StretchCount) else none := by
  unfold CreatePasswordHash digestString
  rw [hashPassword_eq]
  by_cases hfit : scratchFits C Password.length StretchCount
  · rw [if_pos hfit, if_pos hfit]
  · rw [if_neg hfit, if_neg hfit]

theorem CreatePasswordHash_of_fits (C : Consts) (hash : List Nat → List Nat)
    (Password : List Nat) (StretchCount : Int)
    (hfit : scratchFits C Password.length StretchCount) :
    CreatePasswordHash C hash Password StretchCount
      = some (digestString hash Password StretchCount) := by
  rw [CreatePasswordHash_eq, if_pos hfit]

theorem CreatePasswordHash_overflow (C : Consts) (hash : List Nat → List Nat)
    (Password : List Nat) (StretchCount : Int)
    (hover : ¬ scratchFits C Password.length StretchCount) :
    CreatePasswordHash C hash Password StretchCount = none := by
  rw [CreatePasswordHash_eq, if_neg hover]

theorem CheckPasswordValidity_of_traced (C : Consts) (hash : List Nat → List Nat)
    (Password HashStr : List Nat) (StretchCount : Int) :
    CheckPasswordValidity C hash Password HashStr StretchCount
      = (CheckPasswordValidityTraced C hash Password HashStr StretchCount).map Prod.fst := by
  unfold CheckPasswordValidity
  cases CheckPasswordValidityTraced C hash Password HashStr StretchCount <;> rfl

theorem encodeNibbles_length (j : Nat) : ∀ rest, (encodeNibbles j rest).length = j := by
  induction j with
  | zero => intro rest; rfl
  | succ j ih => intro rest; simp [encodeNibbles, ih]

theorem encodeNibbles_range (j : Nat) : ∀ rest, ∀ c ∈ encodeNibbles j rest, 0x40 ≤ c ∧ c ≤ 0x4F := by
  induction j with
  | zero => intro rest c hc; simp [encodeNibbles] at hc
  | succ j ih =>
    intro rest c hc
    simp only [encodeNibbles, List.mem_cons] at hc
    rcases hc with rfl | hc
    · have h1 : (rest &&& 0xf0000000) >>> 28 < 16 := by
        rw [Nat.shiftRight_eq_div_pow]
        have : rest &&& 0xf0000000 < 2 ^ 32 := Nat.and_lt_two_pow _ (by decide)
        omega
      omega
    · exact ih _ c hc

theorem encodeWords_length (h : List Nat) (n : Nat) : ∀ i, (encodeWords h n i).length = 8 * n := by
  induction n with
  | zero => intro i; rfl
  | succ n ih => intro i; simp [encodeWords, encodeNibbles_length, ih]; omega

theorem encodeWords_range (h : List Nat) (n : Nat) :
    ∀ i, ∀ c ∈ encodeWords h n i, 0x40 ≤ c ∧ c ≤ 0x4F := by
  induction n with
  | zero => intro i c hc; simp [encodeWords] at hc
  | succ n ih =>
    intro i c hc
    simp only [encodeWords, List.mem_append] at hc
    rcases hc with hc | hc
    · exact encodeNibbles_range _ _ c hc
    · exact ih _ c hc

theorem strlen_of_nonzero : ∀ (s : List Nat), (∀ c ∈ s, c ≠ 0) → strlen s = s.length
  | [], _ => rfl
  | c :: rest, h => by
    have hc : c ≠ 0 := h c (List.mem_cons_self _ _)
    simp only [strlen, if_neg hc, List.length_cons]
    rw [strlen_of_nonzero rest (fun d hd => h d (List.mem_cons_of_mem _ hd))]

theorem decodeWords_encodeWords (h : List Nat) (hh : ∀ k, h.getD k 0 < 2 ^ 32) (n : Nat) :
    ∀ i, decodeWords n (encodeWords h n i)
      = some ((List.range' i n).map fun k => h.getD k 0) := by
  induction n with
  | zero => intro i; rfl
  | succ n ih =>
    intro i
    simp only [encodeWords, decodeWords, decodeNibbles_encodeNibbles 8 0 _ _ (hh i), ih (i + 1),
      nibbleRounds_eight _ (hh i), List.range'_succ, List.map_cons]

theorem isHashWords_getD_lt {h : List Nat} (hh : IsHashWords h) (k : Nat) :
    h.getD k 0 < 2 ^ 32 := by
  rw [List.getD_eq_getElem?_getD]
  cases hk : h[k]? with
  | none => simp
  | some w => simpa using hh.2 w (List.getElem?_mem hk)

theorem isHashWords_range {h : List Nat} (hh : IsHashWords h) :
    ((List.range' 0 5).map fun k => h.getD k 0) = h := by
  obtain ⟨hl, _⟩ := hh
  match h, hl with
  | [a, b, c, d, e], _ => rfl

theorem decodeWords_digestString (hash : List Nat → List Nat) (Password : List Nat)
    (StretchCount : Int) :
    decodeWords 5 (digestString hash Password StretchCount)
      = some (hashWords hash Password StretchCount).1 := by
  have hh := hashWords_isHashWords hash Password StretchCount
  unfold digestString
  rw [decodeWords_encodeWords _ (isHashWords_getD_lt hh) 5 0, isHashWords_range hh]

theorem digestString_length (hash : List Nat → List Nat) (Password : List Nat)
    (StretchCount : Int) : (digestString hash Password StretchCount).length = 40 :=
  encodeWords_length _ 5 0

theorem digestString_range (hash : List Nat → List Nat) (Password : List Nat)
    (StretchCount : Int) :
    ∀ c ∈ digestString hash Password StretchCount, 0x40 ≤ c ∧ c ≤ 0x4F :=
  encodeWords_range _ 5 0

theorem digestString_strlen (hash : List Nat → List Nat) (Password : List Nat)
    (StretchCount : Int) : strlen (digestString hash Password StretchCount) = 40 := by
  rw [strlen_of_nonzero _ (fun c hc => by
    have := digestString_range hash Password StretchCount c hc; omega),
    digestString_length]

theorem headD_ne_zero_of_range (D : List Nat) (hlen : D.length = 40)
    (hr : ∀ c ∈ D, 0x40 ≤ c ∧ c ≤ 0x4F) : D.headD 0 ≠ 0 := by
  cases hc : D with
  | nil => rw [hc] at hlen; simp at hlen
  | cons c rest =>
    have := hr c (by rw [hc]; exact List.mem_cons_self _ _)
    simp only [List.headD_cons]
    omega

theorem checkTraced_of_create (C : Consts) (hash : List Nat → List Nat)
    (Password : List Nat) (StretchCount : Int) :
    CheckPasswordValidityTraced C hash Password (digestString hash Password StretchCount)
        StretchCount
      = if scratchFits C Password.length StretchCount
          then some (1, (hashWords hash Password StretchCount).2) else none := by
  have hhead := headD_ne_zero_of_range _ (digestString_length hash Password StretchCount)
    (digestString_range hash Password StretchCount)
  unfold CheckPasswordValidityTraced
  rw [if_neg hhead, if_neg (by rw [digestString_strlen]; simp), decodeWords_digestString,
    hashPassword_eq]
  by_cases hfit : scratchFits C Password.length StretchCount
  · rw [if_pos hfit, if_pos hfit]
    simp
  · rw [if_neg hfit, if_neg hfit]

theorem check_of_create (C : Consts) (hash : List Nat → List Nat)
    (Password : List Nat) (StretchCount : Int)
    (hfit : scratchFits C Password.length StretchCount) :
    CheckPasswordValidity C hash Password (digestString hash Password StretchCount)
      StretchCount = some 1 := by
  rw [CheckPasswordValidity_of_traced, checkTraced_of_create, if_pos hfit]
  rfl

theorem decodeNibbles_some (j : Nat) : ∀ (decode : Nat) (p : List Nat) (w : Nat) (p' : List Nat),
    decodeNibbles j decode p = some (w, p') →
      p' = p.drop j ∧ ∀ c ∈ p.take j, 0x40 ≤ c ∧ c ≤ 0x4F := by
  induction j with
  | zero =>
    intro decode p w p' h
    simp only [decodeNibbles, Option.some.injEq, Prod.mk.injEq] at h
    simp [h.2]
  | succ j ih =>
    intro decode p w p' h
    simp only [decodeNibbles] at h
    split at h
    · exact absurd h (by simp)
    · rename_i hc
      cases p with
      | nil => simp at hc
      | cons c rest =>
        simp only [List.headD_cons, List.tail_cons] at h hc
        obtain ⟨h1, h2⟩ := ih _ _ _ _ h
        refine ⟨by simpa using h1, ?_⟩
        intro d hd
        simp only [List.take_succ_cons, List.mem_cons] at hd
        rcases hd with rfl | hd
        · omega
        · exact h2 d hd

theorem decodeWords_some (n : Nat) : ∀ (p ws : List Nat), decodeWords n p = some ws →
    ∀ c ∈ p.take (8 * n), 0x40 ≤ c ∧ c ≤ 0x4F := by
  induction n with
  | zero => intro p ws _ c hc; simp at hc
  | succ n ih =>
    intro p ws h c hc
    simp only [decodeWords] at h
    split at h
    · exact absurd h (by simp)
    · rename_i w p' hw
      split at h
      · exact absurd h (by simp)
      · rename_i ws' hws
        obtain ⟨h1, h2⟩ := decodeNibbles_some 8 0 p w p' hw
        have h3 := ih p' ws' hws
        have e : 8 * (n + 1) = 8 + 8 * n := by omega
        rw [e, List.take_add, List.mem_append] at hc
        rcases hc with hc | hc
        · exact h2 c hc
        · exact h3 c (by rw [h1]; exact hc)

theorem check_malformed (C : Consts) (hash : List Nat → List Nat) (Password : List Nat)
    (StretchCount : Int) (HashStr : List Nat) (hne : HashStr ≠ [])
    (hnz : ∀ c ∈ HashStr, c ≠ 0)
    (hbad : HashStr.length ≠ 40 ∨ ∃ c ∈ HashStr, c < 0x40 ∨ 0x4F < c) :
    CheckPasswordValidityTraced C hash Password HashStr StretchCount = some (2, []) := by
  have hhead : HashStr.headD 0 ≠ 0 := by
    cases HashStr with
    | nil => exact absurd rfl hne
    | cons c rest => simpa using hnz c (List.mem_cons_self _ _)
  have hstr := strlen_of_nonzero HashStr hnz
  unfold CheckPasswordValidityTraced
  rw [if_neg hhead]
  by_cases hlen : HashStr.length = 40
  · rw [if_neg (by rw [hstr, hlen]; simp)]
    cases hd : decodeWords 5 HashStr with
    | none => rfl
    | some ws =>
      exfalso
      rcases hbad with hbad | ⟨c, hc, hcb⟩
      · exact hbad hlen
      · have := decodeWords_some 5 HashStr ws hd c (by
          rw [List.take_of_length_le (by omega)]; exact hc)
        omega
  · rw [if_pos (by rw [hstr]; exact hlen)]

/-- C10: with an empty stored digest `CheckPasswordValidity` returns 1 (match)
and passes no message to the hash, for every provider, password and stretch
count; no scratch write is made. -/
theorem CheckPasswordValidity_empty_digest (C : Consts) (hash : List Nat → List Nat)
    (Password : List Nat) (StretchCount : Int) :
    CheckPasswordValidity C hash Password [] StretchCount = some 1 ∧
      CheckPasswordValidityTraced C hash Password [] StretchCount = some (1, []) := by
  constructor <;> rfl

/-- C9, as stated, fails: the empty digest has a length other than 40 (and is
the truncation of every valid digest to length 0), yet the check returns 1,
not 2. -/
theorem CheckPasswordValidity_empty_digest_not_malformed :
    ([] : List Nat).length ≠ 40 ∧
      CheckPasswordValidity ⟨1980, 1, 127, [], []⟩ (fun _ => []) [0x70, 0x77]
        ([] : List Nat) 0 = some 1 ∧
      (CreatePasswordHash ⟨1980, 1, 127, [], []⟩ (fun _ => []) [0x70, 0x77] 0).map
          (fun H => CheckPasswordValidity ⟨1980, 1, 127, [], []⟩ (fun _ => []) [0x70, 0x77]
            (H.take 0) 0)
        = some (some 1) := by
  refine ⟨by decide, rfl, rfl⟩

/-- C9, amended: every non-empty stored digest string (NUL-free bytes) whose
length is not 40, or that contains a character outside `0x40 .. 0x4F`, makes
`CheckPasswordValidity` return 2 (malformed) without hashing anything,
whatever the provider, password and stretch count; in particular every
truncation of the 40 characters that encode five hash words, and so of
every digest made by `CreatePasswordHash`, to a length `n` with
`0 < n < 40` is malformed. -/
theorem CheckPasswordValidity_malformed (C : Consts) (hash : List Nat → List Nat)
    (Password : List Nat) (StretchCount : Int) :
    (∀ HashStr : List Nat, HashStr ≠ [] → (∀ c ∈ HashStr, c ≠ 0) →
      (HashStr.length ≠ 40 ∨ ∃ c ∈ HashStr, c < 0x40 ∨ 0x4F < c) →
      CheckPasswordValidity C hash Password HashStr StretchCount = some 2 ∧
      CheckPasswordValidityTraced C hash Password HashStr StretchCount = some (2, [])) ∧
    (∀ (h : List Nat) (n : Nat), 0 < n → n < 40 →
      CheckPasswordValidity C hash Password ((encodeWords h 5 0).take n) StretchCount
        = some 2) ∧
    (∀ (C' : Consts) (hash' : List Nat → List Nat) (Password' : List Nat)
      (StretchCount' : Int) (H : List Nat) (n : Nat),
      CreatePasswordHash C' hash' Password' StretchCount' = some H → 0 < n → n < 40 →
      CheckPasswordValidity C hash Password (H.take n) StretchCount = some 2) := by
  have main : ∀ HashStr : List Nat, HashStr ≠ [] → (∀ c ∈ HashStr, c ≠ 0) →
      (HashStr.length ≠ 40 ∨ ∃ c ∈ HashStr, c < 0x40 ∨ 0x4F < c) →
      CheckPasswordValidity C hash Password HashStr StretchCount = some 2 ∧
      CheckPasswordValidityTraced C hash Password HashStr StretchCount = some (2, []) := by
    intro HashStr hne hnz hbad
    have h := check_malformed C hash Password StretchCount HashStr hne hnz hbad
    refine ⟨?_, h⟩
    rw [CheckPasswordValidity_of_traced, h]
    rfl
  have trunc : ∀ (h : List Nat) (n : Nat), 0 < n → n < 40 →
      CheckPasswordValidity C hash Password ((encodeWords h 5 0).take n) StretchCount
        = some 2 := by
    intro h n hn0 hn40
    have hlen := encodeWords_length h 5 0
    have hrange := encodeWords_range h 5 0
    refine (main _ ?_ ?_ ?_).1
    · intro e
      have := congrArg List.length e
      simp [hlen] at this
      omega
    · intro c hc
      have := hrange c (List.mem_of_mem_take hc)
      omega
    · left
      simp [hlen]
      omega
  refine ⟨main, trunc, ?_⟩
  intro C' hash' Password' StretchCount' H n hH hn0 hn40
  unfold CreatePasswordHash at hH
  cases hp : hashPassword C' hash' Password' StretchCount' with
  | none => rw [hp] at hH; exact absurd hH (by simp)
  | some r =>
    rw [hp] at hH
    have e : H = encodeWords r.1 5 0 := (Option.some.inj hH).symm
    rw [e]
    exact trunc r.1 n hn0 hn40

/-- Witness for C9 (amended): a 39-character string of valid characters and
the 39-character truncation of a digest are both malformed. -/
theorem CheckPasswordValidity_malformed_witness :
    CheckPasswordValidity ⟨1980, 1, 127, [], []⟩ (fun _ => []) [0x70]
        (List.replicate 39 0x41) 3 = some 2 ∧
      CheckPasswordValidity ⟨1980, 1, 127, [], []⟩ (fun _ => []) [0x70]
        ((encodeWords (sha_memory (fun _ => []) [0x70]) 5 0).take 39) 3 = some 2 ∧
      CreatePasswordHash ⟨1980, 1, 127, [], []⟩ (fun _ => []) [0x70] 0
        = some (encodeWords (sha_memory (fun _ => []) [0x70]) 5 0) :=
  ⟨((CheckPasswordValidity_malformed ⟨1980, 1, 127, [], []⟩ (fun _ => []) [0x70] 3).1
      (List.replicate 39 0x41) (by decide) (by decide) (Or.inl (by decide))).1,
    (CheckPasswordValidity_malformed ⟨1980, 1, 127, [], []⟩ (fun _ => []) [0x70] 3).2.2
      ⟨1980, 1, 127, [], []⟩ (fun _ => []) [0x70] 0 _ 39 rfl (by decide) (by decide),
    rfl⟩


/-! ## Whole-settings masking -/

theorem maskLoop_keystream (hash : List Nat → List Nat) (salt key : List Nat) :
    ∀ (Data : List Nat) (i : Nat) (mask : List Nat),
      (i % 20 ≠ 0 → mask = blockMask hash salt key (i - i % 20)) →
      maskLoop hash salt key false i mask Data
        = List.zipWith (fun b m => b ^^^ m) Data
            ((List.range' i Data.length).map (keystream hash salt key)) := by
  intro Data
  induction Data with
  | nil => intro i mask _; rfl
  | cons b p ih =>
    intro i mask hmask
    have hm : (if i % 20 = 0 then blockMask hash salt key i else mask)
        = blockMask hash salt key (i - i % 20) := by
      by_cases h : i % 20 = 0
      · rw [if_pos h, h, Nat.sub_zero]
      · rw [if_neg h, hmask h]
    simp only [maskLoop, maskByte, hm, true_or, if_true, List.length_cons, List.range'_succ,
      List.map_cons, List.zipWith_cons_cons]
    rw [ih (i + 1) _ (by
      intro h
      have e : i + 1 - (i + 1) % 20 = i - i % 20 := by omega
      rw [e])]
    rfl

theorem maskLoop_involutive (hash : List Nat → List Nat) (salt key : List Nat) :
    ∀ (Data : List Nat) (i : Nat) (mask : List Nat),
      maskLoop hash salt key false i mask (maskLoop hash salt key false i mask Data) = Data := by
  intro Data
  induction Data with
  | nil => intro i mask; rfl
  | cons b p ih =>
    intro i mask
    simp only [maskLoop, maskByte, true_or, if_true, Nat.xor_cancel_right, ih]

/-- C7: without zero escaping `MaskSettingsData` is its own inverse on
buffers of every length, for every salt, key and hash provider; it XORs byte
`i` with a mask byte that is a function of `i`, the salt and the key only. -/
theorem MaskSettingsData_self_inverse (hash : List Nat → List Nat) (salt key Data : List Nat) :
    MaskSettingsData hash salt key (MaskSettingsData hash salt key Data false) false = Data ∧
      MaskSettingsData hash salt key Data false
        = List.zipWith (fun b m => b ^^^ m) Data
            ((List.range Data.length).map (keystream hash salt key)) := by
  refine ⟨maskLoop_involutive hash salt key Data 0 [], ?_⟩
  unfold MaskSettingsData
  rw [maskLoop_keystream hash salt key Data 0 [] (by simp), List.range_eq_range']

/-! ## Flat-file value escaping -/

theorem hexDigitUpper_isUpperHex (n : Nat) (h : n < 16) : isUpperHex (hexDigitUpper n) = true := by
  revert n; decide

theorem hexValue_hexDigitUpper (n : Nat) (h : n < 16) : hexValue (hexDigitUpper n) = n := by
  revert n; decide

theorem unescapeFrom_hex (a b : Nat) (t : List Nat) (ha : isUpperHex a = true)
    (hb : isUpperHex b = true) :
    unescapeFrom 0 (0x5C :: a :: b :: t)
      = ((16 * hexValue a + hexValue b) % 256) :: unescapeFrom 0 t := by
  simp only [unescapeFrom, if_true, ha, hb, Bool.and_self]

theorem unescapeFrom_escape_cons (c : Nat) (hc : c < 256) (t : List Nat) :
    unescapeFrom 0
        ((if 0x20 ≤ c ∧ c < 0x7F then (if c = 0x5C then [0x5C, c] else [c])
            else [0x5C, hexDigitUpper (c % 256 / 16), hexDigitUpper (c % 256 % 16)]) ++ t)
      = c :: unescapeFrom 0 t := by
  by_cases hp : 0x20 ≤ c ∧ c < 0x7F
  · rw [if_pos hp]
    by_cases hb : c = 0x5C
    · subst hb
      cases t with
      | nil => simp [unescapeFrom]
      | cons d t' => simp [unescapeFrom, isUpperHex]
    · rw [if_neg hb]
      simp [unescapeFrom, hb]
  · rw [if_neg hp]
    have h1 : c % 256 / 16 < 16 := by omega
    have h2 : c % 256 % 16 < 16 := by omega
    have hv : (16 * (c % 256 / 16) + c % 256 % 16) % 256 = c := by omega
    show unescapeFrom 0 (0x5C :: hexDigitUpper (c % 256 / 16) :: hexDigitUpper (c % 256 % 16) :: t)
      = c :: unescapeFrom 0 t
    rw [unescapeFrom_hex _ _ _ (hexDigitUpper_isUpperHex _ h1) (hexDigitUpper_isUpperHex _ h2),
      hexValue_hexDigitUpper _ h1, hexValue_hexDigitUpper _ h2, hv]

theorem unescapeValue_escapeValue_aux : ∀ v : List Nat, (∀ b ∈ v, b < 256) →
    unescapeFrom 0 (escapeValue v) = v
  | [], _ => rfl
  | c :: rest, h => by
    rw [escapeValue, unescapeFrom_escape_cons c (h c (List.mem_cons_self _ _)),
      unescapeValue_escapeValue_aux rest (fun b hb => h b (List.mem_cons_of_mem _ hb))]

/-- C6: for every byte string `v` the unescaping pass of
`REGDATATBL::ReadValue`, applied to the text that `REGDATATBL::Write` emits
for `v`, yields `v`. -/
theorem unescapeValue_escapeValue (v : List Nat) (hv : ∀ b ∈ v, b < 256) :
    unescapeValue (escapeValue v) = v :=
  unescapeValue_escapeValue_aux v hv

/-- Witness for C6: a value holding the bytes 0x00, 0x5C, 0x0A and 0x41. -/
theorem unescapeValue_escapeValue_witness :
    (∀ b ∈ [0x00, 0x5C, 0x0A, 0x41], b < 256) ∧
      unescapeValue (escapeValue [0x00, 0x5C, 0x0A, 0x41]) = [0x00, 0x5C, 0x0A, 0x41] :=
  ⟨by decide, unescapeValue_escapeValue [0x00, 0x5C, 0x0A, 0x41] (by decide)⟩

/-! ## Flat-file store: lookup after a write -/

theorem IniMap.find_modify (map : IniMap) (key : List Nat)
    (f : List (List Nat) → List (List Nat)) :
    (map.modify key f).find key = (map.find key).map f := by
  induction map with
  | nil => rfl
  | cons g rest ih =>
    obtain ⟨k, lines⟩ := g
    by_cases hk : k = key
    · simp [IniMap.modify, IniMap.find, hk]
    · simp only [IniMap.modify, IniMap.find, if_neg hk]
      exact ih

theorem IniMap.find_insert (map : IniMap) (key : List Nat) (new : List (List Nat))
    (h : map.find key = none) : (map.insert key new).find key = some new := by
  induction map with
  | nil => simp [IniMap.insert, IniMap.find]
  | cons g rest ih =>
    obtain ⟨k, lines⟩ := g
    have hk : k ≠ key := by
      intro hk
      simp [IniMap.find, hk] at h
    simp only [IniMap.find, if_neg hk] at h
    by_cases hlt : keyLt key k = true
    · simp [IniMap.insert, IniMap.find, hlt]
    · simp only [IniMap.insert, if_neg hlt, IniMap.find, if_neg hk]
      exact ih h

theorem IniMap.lines_push_back (map : IniMap) (key line : List Nat) :
    (map.push_back key line).lines key = map.lines key ++ [line] := by
  unfold IniMap.push_back IniMap.lines
  cases h : map.find key with
  | none => simp [IniMap.find_insert _ _ _ h]
  | some ls => simp [IniMap.find_modify, h]

theorem scanLines_append (name : List Nat) (ls : List (List Nat)) (line : List Nat)
    (h : scanLines name ls = none) :
    scanLines name (ls ++ [line])
      = if scanMatches name line then some (line.drop (name.length + 1)) else none := by
  induction ls with
  | nil => simp [scanLines]
  | cons l rest ih =>
    simp only [scanLines] at h
    split at h
    · exact absurd h (by simp)
    · rename_i hl
      simp only [List.cons_append, scanLines, if_neg hl]
      exact ih h

theorem scanMatches_line (name text : List Nat) (h : text ≠ []) :
    scanMatches name (name ++ [0x3D] ++ text) = true := by
  have hlen : 0 < text.length := List.length_pos.mpr h
  have hget : ∀ n : List Nat, (n ++ 0x3D :: text).getD n.length 0 = 0x3D := by
    intro n
    induction n with
    | nil => rfl
    | cons a n ih => simpa using ih
  have e : name ++ [0x3D] ++ text = name ++ 0x3D :: text := by simp
  rw [e]
  simp only [scanMatches, hget, List.take_left, List.length_append, List.length_cons]
  simp
  omega

theorem drop_line (name text : List Nat) :
    (name ++ [0x3D] ++ text).drop (name.length + 1) = text := by
  have : (name ++ [0x3D]).length = name.length + 1 := by simp
  rw [← this, List.drop_left]

theorem scanLines_push_back (map : IniMap) (KeyName name text : List Nat)
    (hfresh : scanLines name (map.lines KeyName) = none) (h : text ≠ []) :
    scanLines name ((map.push_back KeyName (name ++ [0x3D] ++ text)).lines KeyName)
      = some text := by
  rw [IniMap.lines_push_back, scanLines_append _ _ _ hfresh, scanMatches_line _ _ h, if_pos rfl,
    drop_line]

theorem scanLines_push_back_empty (map : IniMap) (KeyName name : List Nat)
    (hfresh : scanLines name (map.lines KeyName) = none) :
    scanLines name ((map.push_back KeyName (name ++ [0x3D] ++ [])).lines KeyName) = none := by
  rw [IniMap.lines_push_back, scanLines_append _ _ _ hfresh]
  simp [scanMatches]

/-! ## Integers: decimal text and memory bytes -/

theorem decimalDigits_digits (fuel : Nat) : ∀ (n : Nat) (acc : List Nat),
    (∀ c ∈ acc, isdigit c = true) → ∀ c ∈ decimalDigits fuel n acc, isdigit c = true := by
  induction fuel with
  | zero => intro n acc h; exact h
  | succ fuel ih =>
    intro n acc h c hc
    simp only [decimalDigits] at hc
    split at hc
    · rename_i hn
      rcases List.mem_cons.mp hc with rfl | hc
      · simp [isdigit]; omega
      · exact h c hc
    · refine ih _ _ ?_ c hc
      intro d hd
      rcases List.mem_cons.mp hd with rfl | hd
      · simp [isdigit]; omega
      · exact h d hd

theorem atoiDigits_decimalDigits (fuel : Nat) : ∀ (n : Nat) (acc : List Nat), n < 10 ^ fuel →
    atoiDigits 0 (decimalDigits fuel n acc) = atoiDigits n acc := by
  induction fuel with
  | zero => intro n acc h; simp at h; subst h; rfl
  | succ fuel ih =>
    intro n acc h
    simp only [decimalDigits]
    split
    · rename_i hn
      have hd : isdigit (0x30 + n) = true := by simp [isdigit]; omega
      simp only [atoiDigits, hd, if_true]
      congr 1
      omega
    · rename_i hn
      have hlt : n / 10 < 10 ^ fuel := by
        rw [Nat.div_lt_iff_lt_mul (by decide)]
        rw [Nat.pow_succ] at h
        exact h
      rw [ih _ _ hlt]
      have hd : isdigit (0x30 + n % 10) = true := by simp [isdigit]; omega
      simp only [atoiDigits, hd, if_true]
      congr 1
      omega

theorem lt_ten_pow_self (n : Nat) : n < 10 ^ n := Nat.lt_pow_self (by decide) n

theorem cstr_of_nonzero : ∀ (s : List Nat), (∀ c ∈ s, c ≠ 0) → cstr s = s
  | [], _ => rfl
  | c :: rest, h => by
    have hc : c ≠ 0 := h c (List.mem_cons_self _ _)
    simp only [cstr, if_neg hc]
    rw [cstr_of_nonzero rest (fun d hd => h d (List.mem_cons_of_mem _ hd))]

theorem isdigit_ne_zero {c : Nat} (h : isdigit c = true) : c ≠ 0 := by
  simp [isdigit] at h
  omega

theorem decimalDigits_ne_nil (fuel : Nat) : ∀ (n : Nat) (acc : List Nat), acc ≠ [] →
    decimalDigits fuel n acc ≠ [] := by
  induction fuel with
  | zero => intro n acc h; exact h
  | succ fuel ih =>
    intro n acc h
    simp only [decimalDigits]
    split
    · simp
    · exact ih _ _ (by simp)

theorem decimalDigits_succ_ne_nil (fuel n : Nat) : decimalDigits (fuel + 1) n [] ≠ [] := by
  simp only [decimalDigits]
  split
  · simp
  · exact decimalDigits_ne_nil _ _ _ (by simp)

theorem to_string_ne_nil (v : Int) : to_string v ≠ [] := by
  unfold to_string
  split
  · simp
  · exact decimalDigits_succ_ne_nil _ _

theorem to_string_nonzero (v : Int) : ∀ c ∈ to_string v, c ≠ 0 := by
  intro c hc
  unfold to_string at hc
  split at hc
  · rcases List.mem_cons.mp hc with rfl | hc
    · decide
    · exact isdigit_ne_zero (decimalDigits_digits _ _ [] (by simp) c hc)
  · exact isdigit_ne_zero (decimalDigits_digits _ _ [] (by simp) c hc)

theorem atoi_digits (s : List Nat) (hne : s ≠ []) (hd : ∀ c ∈ s, isdigit c = true) :
    atoi s = min (atoiDigits 0 s : Int) (2 ^ 31 - 1) := by
  cases s with
  | nil => exact absurd rfl hne
  | cons c rest =>
    have hc := hd c (List.mem_cons_self _ _)
    have h1 : isspace c = false := by
      simp [isdigit] at hc
      simp [isspace]
      omega
    have h2 : c ≠ 0x2D := by simp [isdigit] at hc; omega
    have h3 : c ≠ 0x2B := by simp [isdigit] at hc; omega
    simp [atoi, h1, atoiSigned, h2, h3]

theorem atoi_to_string (v : Int) (hlo : -(2 ^ 31) ≤ v) (hhi : v < 2 ^ 31) :
    atoi (cstr (to_string v)) = v := by
  rw [cstr_of_nonzero _ (to_string_nonzero v)]
  unfold to_string
  split
  · rename_i hneg
    have hs : isspace 0x2D = false := by decide
    have hpos : 0 < v.natAbs := by omega
    simp only [atoi, hs, atoiSigned, List.headD_cons, List.tail_cons, if_true]
    rw [if_neg (by simp), atoiDigits_decimalDigits _ _ _ (lt_ten_pow_self _)]
    simp only [atoiDigits]
    omega
  · rename_i hpos
    rw [atoi_digits _ (decimalDigits_succ_ne_nil _ _) (decimalDigits_digits _ _ [] (by simp)),
      atoiDigits_decimalDigits _ _ _ (Nat.lt_trans (lt_ten_pow_self _) (by
        apply Nat.pow_lt_pow_right (by decide) (by omega)))]
    simp only [atoiDigits]
    omega


theorem bytesInt_intBytes (v : Int) (hlo : -(2 ^ 31) ≤ v) (hhi : v < 2 ^ 31) :
    bytesInt (intBytes v) = v := by
  have hw : ((v % 2 ^ 32).toNat : Int) = v % 2 ^ 32 :=
    Int.toNat_of_nonneg (Int.emod_nonneg _ (by decide))
  have hlt : (v % 2 ^ 32).toNat < 2 ^ 32 := by
    have := Int.emod_lt_of_pos v (show (0 : Int) < 2 ^ 32 by decide)
    omega
  have hword : wordAt (intBytes v) 0 = (v % 2 ^ 32).toNat := by
    simp only [intBytes, wordBytes, wordAt, List.getD_cons_zero, List.getD_cons_succ,
      Nat.mul_zero, Nat.zero_add]
    omega
  unfold bytesInt
  rw [hword]
  split <;> omega

theorem intBytes_bytesInt (b0 b1 b2 b3 : Nat) (h0 : b0 < 256) (h1 : b1 < 256) (h2 : b2 < 256)
    (h3 : b3 < 256) : intBytes (bytesInt [b0, b1, b2, b3]) = [b0, b1, b2, b3] := by
  have hword : wordAt [b0, b1, b2, b3] 0 = b0 + b1 * 2 ^ 8 + b2 * 2 ^ 16 + b3 * 2 ^ 24 := by
    simp only [wordAt, List.getD_cons_zero, List.getD_cons_succ, Nat.mul_zero, Nat.zero_add,
      Nat.mod_eq_of_lt h0, Nat.mod_eq_of_lt h1, Nat.mod_eq_of_lt h2, Nat.mod_eq_of_lt h3]
  have hv : (bytesInt [b0, b1, b2, b3] % 2 ^ 32).toNat
      = b0 + b1 * 2 ^ 8 + b2 * 2 ^ 16 + b3 * 2 ^ 24 := by
    unfold bytesInt
    rw [hword]
    split <;> omega
  unfold intBytes
  rw [hv]
  simp only [wordBytes]
  congr 1
  · omega
  · congr 1
    · omega
    · congr 1
      · omega
      · congr 1
        omega

theorem bytesInt_range (b : List Nat) : -(2 ^ 31) ≤ bytesInt b ∧ bytesInt b < 2 ^ 31 := by
  have hlt : wordAt b 0 < 2 ^ 32 := by
    unfold wordAt
    omega
  unfold bytesInt
  split <;> omega

theorem sha1_lt (hash : List Nat → List Nat) (data : List Nat) : ∀ b ∈ sha1 hash data, b < 256 := by
  intro b hb
  simp only [sha1, List.mem_map] at hb
  obtain ⟨i, _, rfl⟩ := hb
  exact Nat.mod_lt _ (by decide)

theorem getD_lt_of_forall_lt (l : List Nat) (i : Nat) (h : ∀ b ∈ l, b < 256) :
    l.getD i 0 < 256 := by
  rw [List.getD_eq_getElem?_getD]
  cases hk : l[i]? with
  | none => simp
  | some w => simpa using h w (List.getElem?_mem hk)

theorem blockMask_lt (hash : List Nat → List Nat) (salt key : List Nat) (i : Nat) :
    ∀ b ∈ blockMask hash salt key i, b < 256 := sha1_lt hash _

theorem maskByte_lt (ez : Bool) (b m : Nat) (hb : b < 256) (hm : m < 256) :
    maskByte ez b m < 256 := by
  unfold maskByte
  split
  · exact Nat.xor_lt_two_pow (n := 8) hb hm
  · exact hb

theorem maskLoop_length (hash : List Nat → List Nat) (salt key : List Nat) (ez : Bool) :
    ∀ (Data : List Nat) (i : Nat) (mask : List Nat),
      (maskLoop hash salt key ez i mask Data).length = Data.length := by
  intro Data
  induction Data with
  | nil => intro i mask; rfl
  | cons b p ih => intro i mask; simp [maskLoop, ih]

theorem maskLoop_lt (hash : List Nat → List Nat) (salt key : List Nat) (ez : Bool) :
    ∀ (Data : List Nat) (i : Nat) (mask : List Nat),
      (∀ m ∈ mask, m < 256) → (∀ b ∈ Data, b < 256) →
      ∀ c ∈ maskLoop hash salt key ez i mask Data, c < 256 := by
  intro Data
  induction Data with
  | nil => intro i mask _ _ c hc; simp [maskLoop] at hc
  | cons b p ih =>
    intro i mask hmask hdata c hc
    have hm : ∀ m ∈ (if i % 20 = 0 then blockMask hash salt key i else mask), m < 256 := by
      split
      · exact blockMask_lt hash salt key i
      · exact hmask
    have hb : b < 256 := hdata b (List.mem_cons_self _ _)
    simp only [maskLoop, List.mem_cons] at hc
    rcases hc with rfl | hc
    · exact maskByte_lt ez b _ hb (getD_lt_of_forall_lt _ _ hm)
    · exact ih _ _ hm (fun d hd => hdata d (List.mem_cons_of_mem _ hd)) c hc

theorem MaskSettingsData_length (hash : List Nat → List Nat) (salt key Data : List Nat)
    (ez : Bool) : (MaskSettingsData hash salt key Data ez).length = Data.length :=
  maskLoop_length hash salt key ez Data 0 []

theorem MaskSettingsData_lt (hash : List Nat → List Nat) (salt key Data : List Nat) (ez : Bool)
    (h : ∀ b ∈ Data, b < 256) : ∀ c ∈ MaskSettingsData hash salt key Data ez, c < 256 :=
  maskLoop_lt hash salt key ez Data 0 [] (by simp) h

theorem intBytes_length (v : Int) : (intBytes v).length = 4 := rfl

theorem wordBytes_length (w : Nat) : (wordBytes w).length = 4 := rfl

theorem intBytes_lt (v : Int) : ∀ b ∈ intBytes v, b < 256 := by
  intro b hb
  simp only [intBytes, wordBytes, List.mem_cons, List.mem_singleton, List.not_mem_nil,
    or_false] at hb
  omega

theorem unmask_mask_int (hash : List Nat → List Nat) (salt key : List Nat) (v : Int)
    (hlo : -(2 ^ 31) ≤ v) (hhi : v < 2 ^ 31) :
    bytesInt (UnmaskSettingsData hash salt key
      (intBytes (bytesInt (MaskSettingsData hash salt key (intBytes v) false))) false) = v := by
  have hlen := MaskSettingsData_length hash salt key (intBytes v) false
  have hlt := MaskSettingsData_lt hash salt key (intBytes v) false (intBytes_lt v)
  rw [intBytes_length] at hlen
  match hm : MaskSettingsData hash salt key (intBytes v) false, hlen with
  | [b0, b1, b2, b3], _ =>
    rw [hm] at hlt
    rw [intBytes_bytesInt b0 b1 b2 b3 (hlt b0 (by simp)) (hlt b1 (by simp)) (hlt b2 (by simp))
      (hlt b3 (by simp)), ← hm]
    unfold UnmaskSettingsData
    rw [show MaskSettingsData hash salt key (MaskSettingsData hash salt key (intBytes v) false)
        false = intBytes v from maskLoop_involutive hash salt key (intBytes v) 0 [],
      bytesInt_intBytes v hlo hhi]


/-! ## Typed access: write followed by read -/

theorem ReadInt_WriteInt (map : IniMap) (KeyName Name : List Nat) (w : Int)
    (hlo : -(2 ^ 31) ≤ w) (hhi : w < 2 ^ 31)
    (hfresh : scanLines Name (map.lines KeyName) = none) :
    (REGDATATBL.ReadInt (REGDATATBL.WriteInt map KeyName Name w) KeyName Name).2 = some w := by
  simp only [REGDATATBL.ReadInt, REGDATATBL.Scan, REGDATATBL.WriteInt]
  rw [scanLines_push_back map KeyName Name _ hfresh (to_string_ne_nil w)]
  simp only [atoi_to_string w hlo hhi]

/-- C5: on a flat-file handle, writing the 32-bit integer `v` under a name
that no earlier line of the group matches and reading the name back returns
`FFFTP_SUCCESS` and `v`, with whole-settings masking off and with it on under
the same key and group name. -/
theorem ReadIntValueFromReg_WriteIntValueToReg (hash : List Nat → List Nat)
    (EncryptSettings : Bool) (key : List Nat) (map : IniMap) (KeyName Name : List Nat)
    (v Value : Int) (hlo : -(2 ^ 31) ≤ v) (hhi : v < 2 ^ 31)
    (hfresh : scanLines Name (map.lines KeyName) = none) :
    (REGDATATBL.ReadIntValueFromReg hash EncryptSettings key
      (REGDATATBL.WriteIntValueToReg hash EncryptSettings key map KeyName Name v)
      KeyName Name Value).2 = (Status.FFFTP_SUCCESS, v) := by
  cases EncryptSettings with
  | false =>
    simp only [REGDATATBL.ReadIntValueFromReg, REGDATATBL.WriteIntValueToReg,
      Config.WriteIntValueToReg, Bool.false_eq_true, if_false,
      ReadInt_WriteInt map KeyName Name v hlo hhi hfresh, Config.ReadIntValueFromReg]
  | true =>
    have hr := bytesInt_range (MaskSettingsData hash (saltOf KeyName Name) key (intBytes v) false)
    simp only [REGDATATBL.ReadIntValueFromReg, REGDATATBL.WriteIntValueToReg,
      Config.WriteIntValueToReg, if_true,
      ReadInt_WriteInt map KeyName Name _ hr.1 hr.2 hfresh, Config.ReadIntValueFromReg,
      unmask_mask_int hash _ key v hlo hhi]

/-- Witness for C5: `INT_MIN` under the name `V` in the empty group `F`, with
masking on. -/
theorem ReadIntValueFromReg_WriteIntValueToReg_witness :
    (REGDATATBL.ReadIntValueFromReg (fun _ => []) true [0x70, 0x77]
      (REGDATATBL.WriteIntValueToReg (fun _ => []) true [0x70, 0x77] [] [0x46] [0x56]
        (-2147483648))
      [0x46] [0x56] 7).2 = (Status.FFFTP_SUCCESS, -2147483648) :=
  ReadIntValueFromReg_WriteIntValueToReg (fun _ => []) true [0x70, 0x77] [] [0x46] [0x56]
    (-2147483648) 7 (by decide) (by decide) rfl

theorem MaskSettingsData_nul (hash : List Nat → List Nat) (salt key : List Nat) :
    MaskSettingsData hash salt key [0] true = [0] := by
  simp [MaskSettingsData, maskLoop, maskByte]

/-- C4 at the empty string: on a flat-file handle, after `WriteStringToReg`
of the empty string under a name that no earlier line of the group matches,
`ReadStringFromReg` of that name returns `FFFTP_FAIL` and leaves the
destination as it was, with masking on or off: `Scan` only accepts a line
that is longer than `name=`. -/
theorem ReadStringFromReg_WriteStringToReg_empty (hash : List Nat → List Nat)
    (EncryptSettings : Bool) (key : List Nat) (sjis : Bool) (a2w_u8 : List Nat → List Nat)
    (map : IniMap) (KeyName Name Str : List Nat) (Size : Nat)
    (hfresh : scanLines Name (map.lines KeyName) = none) :
    (REGDATATBL.ReadStringFromReg hash EncryptSettings key sjis a2w_u8
      (REGDATATBL.WriteStringToReg hash EncryptSettings key map KeyName Name [])
      KeyName Name Str Size).2 = (Status.FFFTP_FAIL, Str) := by
  have hval : Config.WriteStringToReg hash EncryptSettings key KeyName Name [] = [] := by
    cases EncryptSettings with
    | false => simp [Config.WriteStringToReg, cstr]
    | true =>
      have e : cstr ([] : List Nat) ++ [0] = [0] := rfl
      simp only [Config.WriteStringToReg, if_true, e, MaskSettingsData_nul]
      rfl
  simp only [REGDATATBL.ReadStringFromReg, REGDATATBL.WriteStringToReg, hval,
    REGDATATBL.ReadValue, REGDATATBL.Scan, REGDATATBL.Write, escapeValue]
  rw [scanLines_push_back_empty map KeyName Name hfresh]
  rfl

/-- Witness for C4 at the empty string: the name `U` in the empty group `F`,
destination holding `x`, capacity 81. -/
theorem ReadStringFromReg_WriteStringToReg_empty_witness :
    (REGDATATBL.ReadStringFromReg (fun _ => []) false [] false (fun s => s)
      (REGDATATBL.WriteStringToReg (fun _ => []) false [] [] [0x46] [0x55] [])
      [0x46] [0x55] [0x78] 81).2 = (Status.FFFTP_FAIL, [0x78]) :=
  ReadStringFromReg_WriteStringToReg_empty (fun _ => []) false [] false (fun s => s) []
    [0x46] [0x55] [0x78] 81 rfl

/-! ## Field cipher: dispatch of `DecodePassword` -/

theorem strncmpEq_two (s tail : List Nat) (a b : Nat) (ha : a ≠ 0) (hb : b ≠ 0)
    (hs : ∀ c ∈ s, c ≠ 0) :
    strncmpEq 2 (s ++ 0 :: tail) [a, b] = some (decide ([a, b] <+: s)) := by
  cases s with
  | nil =>
    have h0 : (0 : Nat) ≠ a := fun h => ha h.symm
    simp [strncmpEq, h0]
  | cons c r =>
    have hc : c ≠ 0 := hs c (List.mem_cons_self _ _)
    by_cases hca : c = a
    · subst hca
      cases r with
      | nil =>
        have h0 : (0 : Nat) ≠ b := fun h => hb h.symm
        simp [strncmpEq, hc, h0, List.prefix_cons_inj]
      | cons d r' =>
        have hd : d ≠ 0 := hs d (by simp)
        by_cases hdb : d = b
        · subst hdb
          simp [strncmpEq, hc, hd, List.prefix_cons_inj]
        · simp [strncmpEq, hc, hdb, List.prefix_cons_inj, List.cons_prefix_cons]
          exact fun h => hdb h.symm
    · simp [strncmpEq, hca, List.cons_prefix_cons]
      intro h
      exact absurd h.symm hca

theorem DecodePassword_cases (P : Provider) (SecretKey stack s tail : List Nat)
    (hs : ∀ c ∈ s, c ≠ 0) :
    DecodePassword P SecretKey stack (s ++ 0 :: tail) =
      if s = [] then some []
      else if 0x40 ≤ s.headD 0 ∧ s.headD 0 < 0x80 then DecodePasswordOriginal (s ++ 0 :: tail)
      else if [0x30, 0x41] <+: s then DecodePasswordOriginal (s.drop 2 ++ 0 :: tail)
      else if [0x30, 0x42] <+: s then DecodePassword2 (s.drop 2 ++ 0 :: tail) SecretKey
      else if [0x30, 0x43] <+: s then DecodePassword3 P SecretKey stack (s.drop 2 ++ 0 :: tail)
      else some [] := by
  have hdrop : ∀ a b : Nat, [a, b] <+: s → (s ++ 0 :: tail).drop 2 = s.drop 2 ++ 0 :: tail := by
    intro a b h
    obtain ⟨t, rfl⟩ := h
    simp
  have hA := strncmpEq_two s tail 0x30 0x41 (by decide) (by decide) hs
  have hB := strncmpEq_two s tail 0x30 0x42 (by decide) (by decide) hs
  have hC := strncmpEq_two s tail 0x30 0x43 (by decide) (by decide) hs
  cases s with
  | nil => simp [DecodePassword]
  | cons c r =>
    have hc : c ≠ 0 := hs c (List.mem_cons_self _ _)
    rw [if_neg (by simp)]
    simp only [List.cons_append, DecodePassword, if_neg hc, List.headD_cons]
    simp only [List.cons_append] at hA hB hC hdrop
    by_cases hleg : 0x40 ≤ c ∧ c < 0x80
    · rw [if_pos hleg, if_pos hleg]
    · rw [if_neg hleg, if_neg hleg, hA]
      by_cases pA : [0x30, 0x41] <+: c :: r
      · simp only [pA, decide_True, if_true]
        rw [hdrop _ _ pA]
      · simp only [pA, decide_False, if_false]
        rw [hB]
        by_cases pB : [0x30, 0x42] <+: c :: r
        · simp only [pB, decide_True, if_true]
          rw [hdrop _ _ pB]
        · simp only [pB, decide_False, if_false]
          rw [hC]
          by_cases pC : [0x30, 0x43] <+: c :: r
          · simp only [pC, decide_True, if_true]
            rw [hdrop _ _ pC]
          · simp only [pC, decide_False, if_false]

/-- C8: on an input string `s` (followed in its buffer by the NUL and
anything), `DecodePassword` yields: the empty string when `s` is empty;
otherwise the legacy decoding of the whole input when the first byte is in
`0x40 .. 0x7F`; otherwise the legacy decoding of the rest when `s` begins
with `0A`; otherwise the keyed-XOR decoding of the rest with `SecretKey`
when `s` begins with `0B`; otherwise the AES decoding of the rest when `s`
begins with `0C`; and the empty string in every other case. -/
theorem DecodePassword_dispatch (P : Provider) (SecretKey stack s tail : List Nat)
    (hs : ∀ c ∈ s, c ≠ 0) :
    DecodePassword P SecretKey stack (s ++ 0 :: tail) =
      if s = [] then some []
      else if 0x40 ≤ s.headD 0 ∧ s.headD 0 < 0x80 then DecodePasswordOriginal (s ++ 0 :: tail)
      else if [0x30, 0x41] <+: s then DecodePasswordOriginal (s.drop 2 ++ 0 :: tail)
      else if [0x30, 0x42] <+: s then DecodePassword2 (s.drop 2 ++ 0 :: tail) SecretKey
      else if [0x30, 0x43] <+: s then DecodePassword3 P SecretKey stack (s.drop 2 ++ 0 :: tail)
      else some [] :=
  DecodePassword_cases P SecretKey stack s tail hs

/-- Witness for C8: the input `0Z`, which carries no known tag, decodes to
the empty string. -/
theorem DecodePassword_dispatch_witness :
    DecodePassword ⟨fun _ => [], fun _ => true, fun _ => true, fun _ => true,
        fun _ _ => true, fun _ _ d => some d, fun _ _ d => some d⟩ [0x70, 0] []
        ([0x30, 0x5A] ++ 0 :: [0x41]) = some [] := by
  have h := DecodePassword_dispatch ⟨fun _ => [], fun _ => true, fun _ => true, fun _ => true,
    fun _ _ => true, fun _ _ d => some d, fun _ _ d => some d⟩ [0x70, 0] [] [0x30, 0x5A] [0x41]
    (by decide)
  rw [h]
  decide


/-! ## Field cipher: `EncodePassword` followed by `DecodePassword` -/

theorem hexDigitLower_isHexDigit (n : Nat) (h : n < 16) : isHexDigit (hexDigitLower n) = true := by
  revert n; decide

theorem hexValue_hexDigitLower (n : Nat) (h : n < 16) : hexValue (hexDigitLower n) = n := by
  revert n; decide

theorem hexDigitLower_ne_zero (n : Nat) : hexDigitLower n ≠ 0 := by
  unfold hexDigitLower
  split <;> omega

theorem from_chars2_hex (b item : Nat) (hb : b < 256) :
    from_chars2 (hexDigitLower (b % 256 / 16)) (hexDigitLower (b % 256 % 16)) item = b := by
  have h1 : b % 256 / 16 < 16 := by omega
  have h2 : b % 256 % 16 < 16 := by omega
  simp only [from_chars2, hexDigitLower_isHexDigit _ h1, hexDigitLower_isHexDigit _ h2, if_true,
    hexValue_hexDigitLower _ h1, hexValue_hexDigitLower _ h2]
  omega

theorem hexPairs_length : ∀ l : List Nat, (hexPairs l).length = 2 * l.length
  | [] => rfl
  | b :: l => by simp [hexPairs, hexPairs_length l]; omega

theorem hexPairs_nonzero : ∀ l : List Nat, ∀ c ∈ hexPairs l, c ≠ 0
  | [], c, hc => by simp [hexPairs] at hc
  | b :: l, c, hc => by
    simp only [hexPairs, List.mem_cons] at hc
    rcases hc with rfl | rfl | hc
    · exact hexDigitLower_ne_zero _
    · exact hexDigitLower_ne_zero _
    · exact hexPairs_nonzero l c hc

theorem readHexPairs_hexPairs : ∀ (l items rest : List Nat), items.length = l.length →
    (∀ b ∈ l, b < 256) → readHexPairs items (hexPairs l ++ rest) = some (l, rest)
  | [], items, rest, hlen, _ => by
    have : items = [] := List.length_eq_zero.mp (by simpa using hlen)
    subst this
    rfl
  | b :: l, [], rest, hlen, _ => by simp at hlen
  | b :: l, item :: items, rest, hlen, hl => by
    have ih := readHexPairs_hexPairs l items rest (by simpa using hlen)
      (fun c hc => hl c (List.mem_cons_of_mem _ hc))
    have e : hexPairs (b :: l) ++ rest = hexDigitLower (b % 256 / 16)
        :: hexDigitLower (b % 256 % 16) :: (hexPairs l ++ rest) := rfl
    rw [e, readHexPairs, ih, from_chars2_hex b item (hl b (List.mem_cons_self _ _))]

theorem strlenIn_append : ∀ (s tail : List Nat), (∀ c ∈ s, c ≠ 0) →
    strlenIn (s ++ 0 :: tail) = some s.length
  | [], tail, _ => by simp [strlenIn]
  | c :: s, tail, h => by
    have hc : c ≠ 0 := h c (List.mem_cons_self _ _)
    simp [strlenIn, hc, strlenIn_append s tail (fun d hd => h d (List.mem_cons_of_mem _ hd))]

theorem cstr_append_nul : ∀ (s tail : List Nat), (∀ c ∈ s, c ≠ 0) → cstr (s ++ 0 :: tail) = s
  | [], tail, _ => by simp [cstr]
  | c :: s, tail, h => by
    have hc : c ≠ 0 := h c (List.mem_cons_self _ _)
    simp [cstr, hc, cstr_append_nul s tail (fun d hd => h d (List.mem_cons_of_mem _ hd))]

theorem paddedLength_spec (n : Nat) :
    n ≤ paddedLength n ∧ 32 ≤ paddedLength n ∧ paddedLength n % 16 = 0 := by
  unfold paddedLength
  omega

theorem sha_memory_length (hash : List Nat → List Nat) (mem : List Nat) :
    (sha_memory hash mem).length = 5 := by
  simp [sha_memory]

theorem wordsBytes_length : ∀ ws : List Nat, (wordsBytes ws).length = 4 * ws.length
  | [] => rfl
  | w :: ws => by simp [wordsBytes, wordBytes, wordsBytes_length ws]; omega

theorem CreateAesKey_length (P : Provider) (SecretKey key : List Nat)
    (h : CreateAesKey P SecretKey = some key) : key.length = 32 := by
  unfold CreateAesKey at h
  split at h
  · simp only [Option.some.injEq] at h
    rw [← h, wordsBytes_length]
    simp [sha_memory_length]
  · exact absurd h (by simp)


theorem EncodePassword_shape (P : Provider) (SecretKey Str pad iv : List Nat)
    (hStr : ∀ b ∈ Str, b ≠ 0 ∧ b < 256)
    (hpad : pad.length = paddedLength Str.length - Str.length - 1 ∧ ∀ b ∈ pad, b < 256)
    (hiv : iv.length = 16 ∧ ∀ b ∈ iv, b < 256)
    (halloc1 : P.alloc (paddedLength Str.length) = true)
    (halloc2 : P.alloc (strlen SecretKey + 16 + 1) = true)
    (hP : P.Succeeds) :
    ∃ key buffer encrypted,
      CreateAesKey P SecretKey = some key ∧ key.length = 32 ∧
      P.CryptDecrypt key iv encrypted = some buffer ∧
      encrypted.length = paddedLength Str.length ∧ (∀ b ∈ encrypted, b < 256) ∧
      cstr (buffer ++ [0]) = Str ∧
      EncodePassword P SecretKey (some pad) (some iv) Str
        = [0x30, 0x43] ++ hexPairs iv ++ [0x3A] ++ hexPairs encrypted := by
  have hL := paddedLength_spec Str.length
  have hnz : ∀ c ∈ Str, c ≠ 0 := fun c hc => (hStr c hc).1
  obtain ⟨key, hkey⟩ : ∃ key, CreateAesKey P SecretKey = some key := by
    unfold CreateAesKey
    rw [if_pos halloc2]
    exact ⟨_, rfl⟩
  have hklen := CreateAesKey_length P SecretKey key hkey
  obtain ⟨himp, hmode, hsetiv, hcbc⟩ := hP key iv hklen hiv.1
  -- the padded plaintext buffer
  have hbuf : ∃ buffer : List Nat,
      (if paddedLength Str.length ≤ Str.length + 1 then
          some (Str ++ List.replicate (paddedLength Str.length - Str.length) 0)
        else some (Str ++ [0] ++ pad)) = some buffer ∧
      buffer.length = paddedLength Str.length ∧ (∀ b ∈ buffer, b < 256) ∧
      cstr (buffer ++ [0]) = Str := by
    by_cases hle : paddedLength Str.length ≤ Str.length + 1
    · rw [if_pos hle]
      refine ⟨_, rfl, ?_, ?_, ?_⟩
      · simp; omega
      · intro b hb
        rcases List.mem_append.mp hb with hb | hb
        · exact (hStr b hb).2
        · rw [List.eq_of_mem_replicate hb]; decide
      · have hcases : paddedLength Str.length - Str.length = 0
            ∨ paddedLength Str.length - Str.length = 1 := by omega
        rcases hcases with h0 | h1
        · rw [h0]
          simpa using cstr_append_nul Str [] hnz
        · rw [h1]
          simpa using cstr_append_nul Str [0] hnz
    · rw [if_neg hle]
      refine ⟨_, rfl, ?_, ?_, ?_⟩
      · simp [hpad.1]; omega
      · intro b hb
        simp only [List.mem_append, List.mem_singleton] at hb
        rcases hb with (hb | rfl) | hb
        · exact (hStr b hb).2
        · decide
        · exact hpad.2 b hb
      · simpa using cstr_append_nul Str (pad ++ [0]) hnz
  obtain ⟨buffer, hbe, hblen, hblt, hbstr⟩ := hbuf
  obtain ⟨encrypted, henc, helen, helt, hdec⟩ := hcbc buffer (by rw [hblen]; exact hL.2.2) hblt
  refine ⟨key, buffer, encrypted, hkey, hklen, hdec, by rw [helen, hblen], helt, hbstr, ?_⟩
  unfold EncodePassword
  rw [if_neg (by rw [halloc1]; simp)]
  simp only [hkey, himp, hmode, hsetiv, Bool.and_true, if_true]
  by_cases hle : paddedLength Str.length ≤ Str.length + 1
  · rw [if_pos hle] at hbe
    simp only [Option.some.injEq] at hbe
    simp only [if_pos hle, hbe, henc, himp, hmode, hsetiv, Bool.and_true, Bool.true_and, if_true]
  · rw [if_neg hle] at hbe
    simp only [Option.some.injEq] at hbe
    simp only [if_neg hle, hbe, henc, himp, hmode, hsetiv, Bool.and_true, Bool.true_and, if_true]

theorem DecodePassword3_hex (P : Provider) (SecretKey stack tail key iv encrypted buffer : List Nat)
    (hiv : iv.length = 16 ∧ ∀ b ∈ iv, b < 256)
    (helen : 32 ≤ encrypted.length) (helt : ∀ b ∈ encrypted, b < 256)
    (halloc : P.alloc (encrypted.length + 1) = true)
    (hkey : CreateAesKey P SecretKey = some key)
    (himp : P.CryptImportKey key = true) (hmode : P.CryptSetKeyParam_MODE key = true)
    (hsetiv : P.CryptSetKeyParam_IV key iv = true)
    (hdec : P.CryptDecrypt key iv encrypted = some buffer) :
    DecodePassword3 P SecretKey stack (hexPairs iv ++ [0x3A] ++ hexPairs encrypted ++ 0 :: tail)
      = some (cstr (buffer ++ [0])) := by
  have hnz : ∀ c ∈ hexPairs iv ++ [0x3A] ++ hexPairs encrypted, c ≠ 0 := by
    intro c hc
    simp only [List.mem_append, List.mem_singleton] at hc
    rcases hc with (hc | rfl) | hc
    · exact hexPairs_nonzero _ c hc
    · decide
    · exact hexPairs_nonzero _ c hc
  have hlen : (hexPairs iv ++ [0x3A] ++ hexPairs encrypted).length
      = 33 + 2 * encrypted.length := by
    simp [hexPairs_length, hiv.1]; omega
  have hencl : (33 + 2 * encrypted.length - 1) / 2 - 16 = encrypted.length := by omega
  unfold DecodePassword3
  rw [strlenIn_append _ tail hnz, hlen]
  simp only [hencl]
  rw [if_pos (by omega), if_neg (by rw [halloc]; simp)]
  have e1 : hexPairs iv ++ [0x3A] ++ hexPairs encrypted ++ 0 :: tail
      = hexPairs iv ++ (0x3A :: (hexPairs encrypted ++ 0 :: tail)) := by simp
  rw [e1, readHexPairs_hexPairs iv _ _ (by simp [hiv.1]) hiv.2]
  simp only [if_true, hkey]
  rw [readHexPairs_hexPairs encrypted _ _ (by simp) helt]
  simp only [himp, hmode, hsetiv, Bool.and_true, Bool.true_and, if_true, hdec]

/-- C1: for every NUL-free plaintext `Str` and all padding and IV bytes
that the random source returns, under the same `SecretKey`, with the
allocations succeeding and a crypto provider whose CBC decryption inverts
its encryption, `DecodePassword` applied to the string that
`EncodePassword` wrote (wherever it lies in a buffer) returns `Str`.  The
empty plaintext and plaintexts whose length is a multiple of 16 are
included. -/
theorem DecodePassword_EncodePassword (P : Provider)
    (SecretKey stack tail Str pad iv : List Nat)
    (hStr : ∀ b ∈ Str, b ≠ 0 ∧ b < 256)
    (hpad : pad.length = paddedLength Str.length - Str.length - 1 ∧ ∀ b ∈ pad, b < 256)
    (hiv : iv.length = 16 ∧ ∀ b ∈ iv, b < 256)
    (halloc1 : P.alloc (paddedLength Str.length) = true)
    (halloc2 : P.alloc (strlen SecretKey + 16 + 1) = true)
    (halloc3 : P.alloc (paddedLength Str.length + 1) = true)
    (hP : P.Succeeds) :
    DecodePassword P SecretKey stack
      (EncodePassword P SecretKey (some pad) (some iv) Str ++ 0 :: tail) = some Str := by
  obtain ⟨key, buffer, encrypted, hkey, hklen, hdec, helen, helt, hbstr, henc⟩ :=
    EncodePassword_shape P SecretKey Str pad iv hStr hpad hiv halloc1 halloc2 hP
  obtain ⟨himp, hmode, hsetiv, _⟩ := hP key iv hklen hiv.1
  have hL := paddedLength_spec Str.length
  have hnz : ∀ c ∈ [0x30, 0x43] ++ hexPairs iv ++ [0x3A] ++ hexPairs encrypted, c ≠ 0 := by
    intro c hc
    simp only [List.mem_append, List.mem_singleton, List.mem_cons, List.not_mem_nil,
      or_false] at hc
    rcases hc with (((rfl | rfl) | hc) | rfl) | hc
    · decide
    · decide
    · exact hexPairs_nonzero _ c hc
    · decide
    · exact hexPairs_nonzero _ c hc
  rw [henc, DecodePassword_cases P SecretKey stack _ tail hnz]
  have e : [0x30, 0x43] ++ hexPairs iv ++ [0x3A] ++ hexPairs encrypted
      = 0x30 :: 0x43 :: (hexPairs iv ++ [0x3A] ++ hexPairs encrypted) := by simp
  rw [e]
  simp only [List.headD_cons, List.drop_succ_cons, List.drop_zero, List.cons_prefix_cons]
  simp only [reduceCtorEq, if_false]
  rw [if_neg (by omega), if_neg (by simp), if_neg (by simp), if_pos (by simp)]
  rw [DecodePassword3_hex P SecretKey stack tail key iv encrypted buffer hiv (by omega) helt
    (by rw [helen]; exact halloc3) hkey himp hmode hsetiv hdec, hbstr]


theorem toyProvider_succeeds : toyProvider.Succeeds := by
  intro key iv _ _
  refine ⟨rfl, rfl, rfl, fun data _ hlt => ⟨_, rfl, by simp, ?_, ?_⟩⟩
  · intro b hb
    obtain ⟨a, ha, rfl⟩ := List.mem_map.mp hb
    exact Nat.xor_lt_two_pow (n := 8) (hlt a ha) (by decide)
  · simp [toyProvider, List.map_map, Function.comp_def, Nat.xor_cancel_right]

/-- Witness for C1: a plaintext of 32 letters (no NUL in the encrypted
block) and the empty plaintext with 31 padding bytes. -/
theorem DecodePassword_EncodePassword_witness :
    DecodePassword toyProvider [0x70, 0] []
        (EncodePassword toyProvider [0x70, 0] (some []) (some (List.replicate 16 7))
          (List.replicate 32 0x61) ++ 0 :: [0x41]) = some (List.replicate 32 0x61) ∧
      DecodePassword toyProvider [0x70, 0] []
        (EncodePassword toyProvider [0x70, 0] (some (List.replicate 31 9))
          (some (List.replicate 16 7)) [] ++ 0 :: []) = some [] :=
  ⟨DecodePassword_EncodePassword toyProvider [0x70, 0] [] [0x41] (List.replicate 32 0x61) []
      (List.replicate 16 7) (by decide) (by decide) (by decide) rfl rfl rfl toyProvider_succeeds,
    DecodePassword_EncodePassword toyProvider [0x70, 0] [] [] [] (List.replicate 31 9)
      (List.replicate 16 7) (by decide) (by decide) (by decide) rfl rfl rfl toyProvider_succeeds⟩


/-! ## Strings and binary values: write followed by read -/

theorem hexDigitUpper_printable (n : Nat) (h : n < 16) :
    0x20 ≤ hexDigitUpper n ∧ hexDigitUpper n < 0x7F := by
  revert n; decide

theorem escapeValue_printable : ∀ (v : List Nat), ∀ c ∈ escapeValue v, 0x20 ≤ c ∧ c < 0x7F
  | [], c, hc => by simp [escapeValue] at hc
  | b :: v, c, hc => by
    simp only [escapeValue, List.mem_append] at hc
    rcases hc with hc | hc
    · by_cases hp : 0x20 ≤ b ∧ b < 0x7F
      · rw [if_pos hp] at hc
        by_cases hb : b = 0x5C
        · rw [if_pos hb] at hc
          simp only [List.mem_cons, List.mem_singleton, List.not_mem_nil, or_false] at hc
          omega
        · rw [if_neg hb] at hc
          simp only [List.mem_singleton] at hc
          omega
      · rw [if_neg hp] at hc
        have h1 := hexDigitUpper_printable (b % 256 / 16) (by omega)
        have h2 := hexDigitUpper_printable (b % 256 % 16) (by omega)
        simp only [List.mem_cons, List.mem_singleton, List.not_mem_nil, or_false] at hc
        rcases hc with rfl | rfl | rfl
        · decide
        · exact h1
        · exact h2
    · exact escapeValue_printable v c hc

theorem escapeValue_ne_nil (v : List Nat) (h : v ≠ []) : escapeValue v ≠ [] := by
  cases v with
  | nil => exact absurd rfl h
  | cons b v =>
    simp only [escapeValue]
    split
    · split <;> simp
    · simp

theorem ReadValue_Write (a2w_u8 : List Nat → List Nat) (map : IniMap)
    (KeyName Name value : List Nat) (hne : value ≠ []) (hlt : ∀ b ∈ value, b < 256)
    (hfresh : scanLines Name (map.lines KeyName) = none) :
    (REGDATATBL.ReadValue false a2w_u8 (REGDATATBL.Write map KeyName Name value) KeyName Name).2
      = some value := by
  simp only [REGDATATBL.ReadValue, REGDATATBL.Scan, REGDATATBL.Write]
  rw [scanLines_push_back map KeyName Name _ hfresh (escapeValue_ne_nil value hne)]
  simp only [Bool.false_eq_true, if_false]
  rw [cstr_of_nonzero _ (fun c hc => by have := escapeValue_printable value c hc; omega)]
  exact congrArg some (unescapeValue_escapeValue_aux value hlt)

theorem maskByte_escape_involutive (b m : Nat) : maskByte true (maskByte true b m) m = b := by
  unfold maskByte
  by_cases h : b ≠ 0 ∧ b ≠ m
  · have h1 : b ^^^ m ≠ 0 := fun e => h.2 (Nat.xor_eq_zero.mp e)
    have h2 : b ^^^ m ≠ m := by
      intro e
      have := Nat.xor_cancel_right m b
      rw [e, Nat.xor_self] at this
      exact h.1 this.symm
    rw [if_pos (Or.inr h), if_pos (Or.inr ⟨h1, h2⟩), Nat.xor_cancel_right]
  · have hn : ¬ (true = false ∨ (b ≠ 0 ∧ b ≠ m)) := by
      rintro (h' | h')
      · exact absurd h' (by decide)
      · exact h h'
    rw [if_neg hn, if_neg hn]

theorem maskByte_escape_ne_zero (b m : Nat) (hb : b ≠ 0) : maskByte true b m ≠ 0 := by
  unfold maskByte
  by_cases h : b ≠ 0 ∧ b ≠ m
  · rw [if_pos (Or.inr h)]
    exact fun e => h.2 (Nat.xor_eq_zero.mp e)
  · have hn : ¬ (true = false ∨ (b ≠ 0 ∧ b ≠ m)) := by
      rintro (h' | h')
      · exact absurd h' (by decide)
      · exact h h'
    rw [if_neg hn]
    exact hb

theorem maskByte_escape_zero (m : Nat) : maskByte true 0 m = 0 := by
  simp [maskByte]

theorem maskLoop_escape_involutive (hash : List Nat → List Nat) (salt key : List Nat) :
    ∀ (Data : List Nat) (i : Nat) (mask : List Nat),
      maskLoop hash salt key true i mask (maskLoop hash salt key true i mask Data) = Data := by
  intro Data
  induction Data with
  | nil => intro i mask; rfl
  | cons b p ih =>
    intro i mask
    simp only [maskLoop, ih, maskByte_escape_involutive]

theorem maskLoop_escape_nonzero (hash : List Nat → List Nat) (salt key : List Nat) :
    ∀ (Data : List Nat) (i : Nat) (mask : List Nat), (∀ b ∈ Data, b ≠ 0) →
      ∀ c ∈ maskLoop hash salt key true i mask Data, c ≠ 0 := by
  intro Data
  induction Data with
  | nil => intro i mask _ c hc; simp [maskLoop] at hc
  | cons b p ih =>
    intro i mask h c hc
    have hb : b ≠ 0 := h b (List.mem_cons_self _ _)
    simp only [maskLoop, List.mem_cons] at hc
    rcases hc with rfl | hc
    · exact maskByte_escape_ne_zero b _ hb
    · exact ih _ _ (fun d hd => h d (List.mem_cons_of_mem _ hd)) c hc

theorem maskLoop_escape_append_nul (hash : List Nat → List Nat) (salt key : List Nat) :
    ∀ (Data : List Nat) (i : Nat) (mask : List Nat),
      maskLoop hash salt key true i mask (Data ++ [0])
        = maskLoop hash salt key true i mask Data ++ [0] := by
  intro Data
  induction Data with
  | nil => intro i mask; simp [maskLoop, maskByte_escape_zero]
  | cons b p ih =>
    intro i mask
    rw [List.cons_append]
    simp only [maskLoop]
    rw [ih, List.cons_append]

theorem cstr_mask_string (hash : List Nat → List Nat) (salt key s : List Nat)
    (hnz : ∀ b ∈ s, b ≠ 0) :
    cstr (MaskSettingsData hash salt key (s ++ [0]) true)
      = MaskSettingsData hash salt key s true := by
  unfold MaskSettingsData
  rw [maskLoop_escape_append_nul]
  exact cstr_append_nul _ [] (maskLoop_escape_nonzero hash salt key s 0 [] hnz)

theorem ReadStringFromReg_WriteStringToReg_nonempty (hash : List Nat → List Nat)
    (EncryptSettings : Bool) (key : List Nat) (a2w_u8 : List Nat → List Nat)
    (map : IniMap) (KeyName Name s Str : List Nat) (Size : Nat)
    (hne : s ≠ []) (hs : ∀ b ∈ s, b ≠ 0 ∧ b < 256) (hsize : s.length < Size)
    (hfresh : scanLines Name (map.lines KeyName) = none) :
    (REGDATATBL.ReadStringFromReg hash EncryptSettings key false a2w_u8
      (REGDATATBL.WriteStringToReg hash EncryptSettings key map KeyName Name s)
      KeyName Name Str Size).2 = (Status.FFFTP_SUCCESS, s) := by
  have hnz : ∀ b ∈ s, b ≠ 0 := fun b hb => (hs b hb).1
  have hlt : ∀ b ∈ s, b < 256 := fun b hb => (hs b hb).2
  have htake : ∀ t : List Nat, (∀ b ∈ t, b ≠ 0) → t.length = s.length →
      strncpy_s_truncate Size t = t := by
    intro t ht hl
    unfold strncpy_s_truncate
    rw [cstr_of_nonzero t ht, List.take_of_length_le (by omega)]
  cases EncryptSettings with
  | false =>
    have hw : Config.WriteStringToReg hash false key KeyName Name s = s := by
      simp [Config.WriteStringToReg, cstr_of_nonzero s hnz]
    simp only [REGDATATBL.ReadStringFromReg, REGDATATBL.WriteStringToReg, hw,
      ReadValue_Write a2w_u8 map KeyName Name s hne hlt hfresh, Config.ReadStringFromReg,
      Bool.false_eq_true, if_false, htake s hnz rfl]
  | true =>
    have hm_nz : ∀ c ∈ MaskSettingsData hash (saltOf KeyName Name) key s true, c ≠ 0 :=
      maskLoop_escape_nonzero hash (saltOf KeyName Name) key s 0 [] hnz
    have hm_lt := MaskSettingsData_lt hash (saltOf KeyName Name) key s true hlt
    have hm_len := MaskSettingsData_length hash (saltOf KeyName Name) key s true
    have hm_ne : MaskSettingsData hash (saltOf KeyName Name) key s true ≠ [] := by
      intro e
      rw [e] at hm_len
      exact hne (List.length_eq_zero.mp hm_len.symm)
    have hw : Config.WriteStringToReg hash true key KeyName Name s
        = MaskSettingsData hash (saltOf KeyName Name) key s true := by
      simp only [Config.WriteStringToReg, if_true, cstr_of_nonzero s hnz]
      exact cstr_mask_string hash _ key s hnz
    simp only [REGDATATBL.ReadStringFromReg, REGDATATBL.WriteStringToReg, hw,
      ReadValue_Write a2w_u8 map KeyName Name _ hm_ne hm_lt hfresh, Config.ReadStringFromReg,
      if_true, htake _ hm_nz hm_len, UnmaskSettingsData]
    rw [cstr_mask_string hash _ key _ hm_nz]
    exact congrArg _ (maskLoop_escape_involutive hash _ key s 0 [])


/-! ## The flat file: what is written is read back -/

theorem IniMap.find_modify_ne (map : IniMap) (key key' : List Nat)
    (f : List (List Nat) → List (List Nat)) (h : key' ≠ key) :
    (map.modify key f).find key' = map.find key' := by
  induction map with
  | nil => rfl
  | cons g rest ih =>
    obtain ⟨k, lines⟩ := g
    by_cases hk : k = key
    · subst hk
      have hk' : ¬ k = key' := fun e => h e.symm
      simp [IniMap.modify, IniMap.find, hk']
    · by_cases hk' : k = key'
      · subst hk'
        simp [IniMap.modify, IniMap.find, hk]
      · simp only [IniMap.modify, IniMap.find, if_neg hk, if_neg hk']
        exact ih

theorem IniMap.find_insert_ne (map : IniMap) (key key' : List Nat) (new : List (List Nat))
    (h : key' ≠ key) : (map.insert key new).find key' = map.find key' := by
  induction map with
  | nil =>
    have hk : ¬ key = key' := fun e => h e.symm
    simp [IniMap.insert, IniMap.find, hk]
  | cons g rest ih =>
    obtain ⟨k, lines⟩ := g
    have hk : ¬ key = key' := fun e => h e.symm
    by_cases hlt : keyLt key k = true
    · simp [IniMap.insert, IniMap.find, hlt, hk]
    · by_cases hk' : k = key'
      · subst hk'
        simp [IniMap.insert, IniMap.find, hlt]
      · simp only [IniMap.insert, if_neg hlt, IniMap.find, if_neg hk']
        exact ih

theorem IniMap.lines_push_back_ne (map : IniMap) (key key' line : List Nat) (h : key' ≠ key) :
    (map.push_back key line).lines key' = map.lines key' := by
  unfold IniMap.push_back IniMap.lines
  split
  · rw [IniMap.find_modify_ne _ _ _ _ h]
  · rw [IniMap.find_insert_ne _ _ _ _ h]

theorem IniMap.find_eq_none_iff (map : IniMap) (key : List Nat) :
    map.find key = none ↔ key ∉ map.map Prod.fst := by
  induction map with
  | nil => simp [IniMap.find]
  | cons g rest ih =>
    obtain ⟨k, lines⟩ := g
    by_cases hk : k = key
    · simp [IniMap.find, hk]
    · have hk' : ¬ key = k := fun e => hk e.symm
      simp [IniMap.find, hk, hk', ih]

theorem IniMap.mem_modify (map : IniMap) (key : List Nat)
    (f : List (List Nat) → List (List Nat)) (g : List Nat × List (List Nat))
    (hg : g ∈ map.modify key f) :
    g ∈ map ∨ ∃ lines, (key, lines) ∈ map ∧ g = (key, f lines) := by
  induction map with
  | nil => simp [IniMap.modify] at hg
  | cons g0 rest ih =>
    obtain ⟨k, lines⟩ := g0
    by_cases hk : k = key
    · subst hk
      simp only [IniMap.modify, if_true, List.mem_cons] at hg
      rcases hg with rfl | hg
      · exact Or.inr ⟨lines, List.mem_cons_self _ _, rfl⟩
      · exact Or.inl (List.mem_cons_of_mem _ hg)
    · simp only [IniMap.modify, if_neg hk, List.mem_cons] at hg
      rcases hg with rfl | hg
      · exact Or.inl (List.mem_cons_self _ _)
      · rcases ih hg with h | ⟨ls, h1, h2⟩
        · exact Or.inl (List.mem_cons_of_mem _ h)
        · exact Or.inr ⟨ls, List.mem_cons_of_mem _ h1, h2⟩

theorem IniMap.keys_modify (map : IniMap) (key : List Nat)
    (f : List (List Nat) → List (List Nat)) :
    (map.modify key f).map Prod.fst = map.map Prod.fst := by
  induction map with
  | nil => rfl
  | cons g rest ih =>
    obtain ⟨k, lines⟩ := g
    by_cases hk : k = key
    · simp [IniMap.modify, hk]
    · simp [IniMap.modify, hk, ih]

theorem IniMap.mem_insert (map : IniMap) (key : List Nat) (new : List (List Nat))
    (g : List Nat × List (List Nat)) :
    g ∈ map.insert key new ↔ g = (key, new) ∨ g ∈ map := by
  induction map with
  | nil => simp [IniMap.insert]
  | cons g0 rest ih =>
    obtain ⟨k, lines⟩ := g0
    by_cases hlt : keyLt key k = true
    · simp [IniMap.insert, hlt]
    · simp only [IniMap.insert, if_neg hlt, List.mem_cons, ih]
      tauto

theorem IniMap.keys_insert_nodup (map : IniMap) (key : List Nat) (new : List (List Nat))
    (hnd : (map.map Prod.fst).Nodup) (hk : key ∉ map.map Prod.fst) :
    ((map.insert key new).map Prod.fst).Nodup := by
  induction map with
  | nil => simp [IniMap.insert]
  | cons g0 rest ih =>
    obtain ⟨k, lines⟩ := g0
    simp only [List.map_cons, List.nodup_cons, List.mem_cons, not_or] at hnd hk
    by_cases hlt : keyLt key k = true
    · simp only [IniMap.insert, if_pos hlt, List.map_cons, List.nodup_cons, List.mem_cons,
        not_or]
      exact ⟨⟨hk.1, hk.2⟩, hnd.1, hnd.2⟩
    · simp only [IniMap.insert, if_neg hlt, List.map_cons, List.nodup_cons]
      refine ⟨?_, ih hnd.2 hk.2⟩
      intro hmem
      obtain ⟨g, hg, hgk⟩ := List.mem_map.mp hmem
      rcases (IniMap.mem_insert rest key new g).mp hg with rfl | hg'
      · exact hk.1 hgk
      · exact hnd.1 (List.mem_map.mpr ⟨g, hg', hgk⟩)

theorem IniMap.WF_push_back (map : IniMap) (key line : List Nat) (hwf : map.WF)
    (hk : keyOk key) (hl : lineOk line) : (map.push_back key line).WF := by
  obtain ⟨hnd, hall⟩ := hwf
  unfold IniMap.push_back
  split
  · refine ⟨by rw [IniMap.keys_modify]; exact hnd, ?_⟩
    intro g hg
    rcases IniMap.mem_modify _ _ _ _ hg with h | ⟨ls, h1, rfl⟩
    · exact hall g h
    · refine ⟨hk, ?_⟩
      intro l hl'
      rcases List.mem_append.mp hl' with h | h
      · exact (hall _ h1).2 l h
      · rw [List.mem_singleton.mp h]; exact hl
  · rename_i hnone
    have hnone' : map.find key = none := by
      cases hf : map.find key with
      | none => rfl
      | some v => rw [hf] at hnone; simp at hnone
    refine ⟨IniMap.keys_insert_nodup _ _ _ hnd ((IniMap.find_eq_none_iff _ _).mp hnone'), ?_⟩
    intro g hg
    rcases (IniMap.mem_insert _ _ _ _).mp hg with rfl | h
    · refine ⟨hk, ?_⟩
      intro l hl'
      rw [List.mem_singleton.mp hl']; exact hl
    · exact hall g h

theorem IniMap.WF_nil : IniMap.WF [] := by
  constructor
  · simp
  · intro g hg; simp at hg


theorem getlines_line : ∀ (line rest acc : List Nat), 0x0A ∉ line →
    getlines (line ++ 0x0A :: rest) acc = (acc.reverse ++ line) :: getlines rest []
  | [], rest, acc, _ => by simp [getlines]
  | c :: line, rest, acc, h => by
    have hc : c ≠ 0x0A := fun e => h (by simp [e])
    have hl : 0x0A ∉ line := fun e => h (List.mem_cons_of_mem _ e)
    rw [List.cons_append, getlines, if_neg hc, getlines_line line rest (c :: acc) hl]
    simp

theorem getlines_append_nl : ∀ (b rest acc : List Nat),
    getlines (b ++ 0x0A :: rest) acc = getlines (b ++ [0x0A]) acc ++ getlines rest []
  | [], rest, acc => by simp [getlines]
  | c :: b, rest, acc => by
    by_cases hc : c = 0x0A
    · subst hc
      rw [List.cons_append, List.cons_append, getlines, getlines, if_pos rfl, if_pos rfl,
        getlines_append_nl b rest []]
      rfl
    · rw [List.cons_append, List.cons_append, getlines, getlines, if_neg hc, if_neg hc,
        getlines_append_nl b rest (c :: acc)]

theorem getlines_linesText : ∀ (ls : List (List Nat)) (rest : List Nat),
    (∀ l ∈ ls, 0x0A ∉ l) → getlines (linesText ls ++ rest) [] = ls ++ getlines rest []
  | [], rest, _ => rfl
  | l :: ls, rest, h => by
    have e : linesText (l :: ls) ++ rest = l ++ 0x0A :: (linesText ls ++ rest) := by
      simp [linesText]
    rw [e, getlines_line l _ [] (h l (List.mem_cons_self _ _)),
      getlines_linesText ls rest (fun l' hl' => h l' (List.mem_cons_of_mem _ hl'))]
    rfl

theorem getlines_groupsText : ∀ (map : IniMap),
    (∀ g ∈ map, keyOk g.1 ∧ ∀ l ∈ g.2, lineOk l) →
    getlines (groupsText map) [] = groupLines map
  | [], _ => rfl
  | (key, lines) :: rest, h => by
    have hg := h (key, lines) (List.mem_cons_self _ _)
    have hhead : (0x0A : Nat) ∉ [0x5B] ++ key ++ [0x5D] := by
      intro hm
      simp only [List.mem_append, List.mem_singleton] at hm
      rcases hm with (hm | hm) | hm
      · exact absurd hm (by decide)
      · exact hg.1.1 hm
      · exact absurd hm (by decide)
    have e : groupsText ((key, lines) :: rest)
        = 0x0A :: (([0x5B] ++ key ++ [0x5D]) ++ 0x0A :: (linesText lines ++ groupsText rest)) := by
      simp [groupsText]
    rw [e, getlines, if_pos rfl, getlines_line _ _ [] hhead,
      getlines_linesText lines _ (fun l hl => (hg.2 l hl).2.2.2),
      getlines_groupsText rest (fun g hg' => h g (List.mem_cons_of_mem _ hg'))]
    rfl

theorem readLines_comments : ∀ (cs : List (List Nat)) (key : List Nat) (map : IniMap)
    (rest : List (List Nat)), (∀ l ∈ cs, l = [] ∨ l.headD 0 = 0x23) →
    readLines key map (cs ++ rest) = readLines key map rest
  | [], _, _, _, _ => rfl
  | c :: cs, key, map, rest, h => by
    rw [List.cons_append, readLines, if_pos (h c (List.mem_cons_self _ _)),
      readLines_comments cs key map rest (fun l hl => h l (List.mem_cons_of_mem _ hl))]

theorem findBracket_append : ∀ (l rest : List Nat), 0x5D ∉ l →
    findBracket (l ++ 0x5D :: rest) = some l.length
  | [], rest, _ => by simp [findBracket]
  | c :: l, rest, h => by
    have hc : c ≠ 0x5D := fun e => h (by simp [e])
    have ih := findBracket_append l rest (fun e => h (List.mem_cons_of_mem _ e))
    rw [List.cons_append, findBracket, if_neg hc, ih]
    rfl

theorem readLines_header (key0 key : List Nat) (map : IniMap) (rest : List (List Nat))
    (hk : keyOk key) :
    readLines key0 map (([0x5B] ++ key ++ [0x5D]) :: rest) = readLines key map rest := by
  have hmem : (0x5D : Nat) ∉ [0x5B] ++ key := by
    intro hm
    rcases List.mem_append.mp hm with hm | hm
    · exact absurd hm (by decide)
    · exact hk.2 hm
  have hfb : findBracket ([0x5B] ++ key ++ [0x5D]) = some ([0x5B] ++ key).length :=
    findBracket_append ([0x5B] ++ key) [] hmem
  have hne : ¬ ([0x5B] ++ key ++ [0x5D] = [] ∨ ([0x5B] ++ key ++ [0x5D]).headD 0 = 0x23) := by
    simp
  have hhd : ([0x5B] ++ key ++ [0x5D]).headD 0 = 0x5B := by simp
  rw [readLines, if_neg hne, if_pos hhd, hfb]
  have e : (([0x5B] ++ key ++ [0x5D]).take ([0x5B] ++ key).length).drop 1 = key := by
    rw [List.take_left]
    rfl
  simp only [e]

theorem readLines_lines : ∀ (ls : List (List Nat)) (key : List Nat) (map : IniMap)
    (rest : List (List Nat)), (∀ l ∈ ls, lineOk l) →
    readLines key map (ls ++ rest)
      = readLines key (ls.foldl (fun m l => m.push_back key l) map) rest
  | [], _, _, _, _ => rfl
  | l :: ls, key, map, rest, h => by
    obtain ⟨h1, h2, h3, _⟩ := h l (List.mem_cons_self _ _)
    have hne : ¬ (l = [] ∨ l.headD 0 = 0x23) := by
      rintro (e | e)
      · exact h1 e
      · exact h2 e
    rw [List.cons_append, readLines, if_neg hne, if_neg h3,
      readLines_lines ls key _ rest (fun l' hl' => h l' (List.mem_cons_of_mem _ hl'))]
    rfl

theorem IniMap.lines_foldl_push_back (key : List Nat) : ∀ (ls : List (List Nat)) (map : IniMap)
    (key' : List Nat),
    (ls.foldl (fun m l => m.push_back key l) map).lines key'
      = if key' = key then map.lines key' ++ ls else map.lines key'
  | [], map, key' => by simp
  | l :: ls, map, key' => by
    rw [List.foldl_cons, IniMap.lines_foldl_push_back key ls _ key']
    by_cases hk : key' = key
    · subst hk
      simp [IniMap.lines_push_back]
    · simp [hk, IniMap.lines_push_back_ne _ _ _ _ hk]

theorem IniMap.lines_of_not_mem (map : IniMap) (key : List Nat)
    (h : key ∉ map.map Prod.fst) : map.lines key = [] := by
  unfold IniMap.lines
  rw [(IniMap.find_eq_none_iff map key).mpr h]
  rfl

theorem readLines_groupLines : ∀ (gs : IniMap) (key0 : List Nat) (acc : IniMap) (key : List Nat),
    IniMap.WF gs →
    (readLines key0 acc (groupLines gs)).lines key = acc.lines key ++ IniMap.lines gs key
  | [], _, acc, key, _ => by simp [groupLines, readLines, IniMap.lines, IniMap.find]
  | (k, ls) :: gs, key0, acc, key, hwf => by
    obtain ⟨hnd, hall⟩ := hwf
    have hg := hall (k, ls) (List.mem_cons_self _ _)
    simp only [List.map_cons, List.nodup_cons] at hnd
    have hwf' : IniMap.WF gs := ⟨hnd.2, fun g hg' => hall g (List.mem_cons_of_mem _ hg')⟩
    have hne : ([] : List Nat) = [] ∨ ([] : List Nat).headD 0 = 0x23 := Or.inl rfl
    rw [groupLines, readLines, if_pos hne, readLines_header key0 k acc _ hg.1,
      readLines_lines ls k acc _ hg.2, readLines_groupLines gs k _ key hwf',
      IniMap.lines_foldl_push_back]
    by_cases hk : key = k
    · subst hk
      rw [if_pos rfl, IniMap.lines_of_not_mem gs key hnd.1]
      simp [IniMap.lines, IniMap.find]
    · have hk' : ¬ k = key := fun e => hk e.symm
      rw [if_neg hk]
      simp [IniMap.lines, IniMap.find, hk']

theorem ReadInReg_flush (MSGJPN239 Name : List Nat) (map : IniMap) (key : List Nat)
    (hbanner : ∀ l ∈ getlines (MSGJPN239 ++ [0x0A]) [], l = [] ∨ l.headD 0 = 0x23)
    (hwf : map.WF) (hne : map ≠ []) :
    (ReadInReg Name (REGDATATBL.flush MSGJPN239 map)).lines key = map.lines key := by
  unfold ReadInReg REGDATATBL.flush
  cases map with
  | nil => exact absurd rfl hne
  | cons g gs =>
    obtain ⟨k, ls⟩ := g
    have htext : groupsText ((k, ls) :: gs)
        = 0x0A :: (([0x5B] ++ k ++ [0x5D, 0x0A]) ++ linesText ls ++ groupsText gs) := by
      simp [groupsText]
    have hgl := getlines_groupsText ((k, ls) :: gs) hwf.2
    rw [htext, getlines, if_pos rfl] at hgl
    have hgl' : getlines (([0x5B] ++ k ++ [0x5D, 0x0A]) ++ linesText ls ++ groupsText gs) []
        = (groupLines ((k, ls) :: gs)).tail := by
      have := congrArg List.tail hgl
      simpa using this
    rw [htext, getlines_append_nl, hgl', readLines_comments _ _ _ _ hbanner]
    have hskip : readLines Name [] (groupLines ((k, ls) :: gs))
        = readLines Name [] (groupLines ((k, ls) :: gs)).tail := by
      show readLines Name [] ([] :: (([0x5B] ++ k ++ [0x5D]) :: (ls ++ groupLines gs))) = _
      rw [readLines, if_pos (Or.inl rfl)]
      rfl
    rw [← hskip, readLines_groupLines _ _ _ _ hwf]
    simp [IniMap.lines, IniMap.find]


/-! ## Saving the settings and checking the master password -/


/-! ## Master password: the check after a save -/

theorem eq_of_append_eq_sign : ∀ (n n' u t : List Nat), 0x3D ∉ n → 0x3D ∉ n' →
    n ++ 0x3D :: u = n' ++ 0x3D :: t → n = n'
  | [], [], _, _, _, _, _ => rfl
  | [], c :: n', u, t, _, h', e => by
    simp only [List.nil_append, List.cons_append, List.cons.injEq] at e
    exact absurd (by simp [← e.1]) h'
  | c :: n, [], u, t, h, _, e => by
    simp only [List.nil_append, List.cons_append, List.cons.injEq] at e
    exact absurd (by simp [e.1]) h
  | c :: n, d :: n', u, t, h, h', e => by
    simp only [List.cons_append, List.cons.injEq] at e
    rw [e.1, eq_of_append_eq_sign n n' u t (fun m => h (List.mem_cons_of_mem _ m))
      (fun m => h' (List.mem_cons_of_mem _ m)) e.2]

theorem scanMatches_decompose (name line : List Nat) (h : scanMatches name line = true) :
    line = name ++ 0x3D :: line.drop (name.length + 1) := by
  simp only [scanMatches, Bool.and_eq_true, decide_eq_true_eq, beq_iff_eq] at h
  obtain ⟨⟨hlen, htake⟩, hget⟩ := h
  have h1 : line = line.take name.length ++ line.drop name.length := (List.take_append_drop _ _).symm
  have h2 : line.drop name.length = 0x3D :: line.drop (name.length + 1) := by
    rw [List.getD_eq_getElem?_getD, List.getElem?_eq_getElem (by omega)] at hget
    simp only [Option.getD_some] at hget
    rw [← hget]
    exact List.drop_eq_getElem_cons (by omega)
  rw [htake, h2] at h1
  exact h1

theorem scanMatches_ne (name name' value : List Nat) (h : 0x3D ∉ name) (h' : 0x3D ∉ name')
    (hne : name ≠ name') : scanMatches name (name' ++ [0x3D] ++ value) = false := by
  cases hm : scanMatches name (name' ++ [0x3D] ++ value) with
  | false => rfl
  | true =>
    have hd := scanMatches_decompose _ _ hm
    have e : name' ++ 0x3D :: value = name ++ 0x3D ::
        (name' ++ [0x3D] ++ value).drop (name.length + 1) := by
      simpa using hd
    exact absurd (eq_of_append_eq_sign _ _ _ _ h h' e.symm) hne

theorem scanLines_cons_ne (name name' value : List Nat) (rest : List (List Nat))
    (h : 0x3D ∉ name) (h' : 0x3D ∉ name') (hne : name ≠ name') :
    scanLines name ((name' ++ [0x3D] ++ value) :: rest) = scanLines name rest := by
  rw [scanLines, scanMatches_ne name name' value h h' hne]
  rfl

theorem scanLines_cons_eq (name value : List Nat) (rest : List (List Nat)) (hv : value ≠ []) :
    scanLines name ((name ++ [0x3D] ++ value) :: rest) = some value := by
  rw [scanLines, scanMatches_line name value hv, if_pos rfl, drop_line]

theorem take_passwordString_nonzero (C : Consts) (Password : Option (List Nat)) :
    ∀ c ∈ passwordString C Password, c ≠ 0 := by
  have hcstr : ∀ s : List Nat, ∀ c ∈ cstr s, c ≠ 0 := by
    intro s
    induction s with
    | nil => intro c hc; simp [cstr] at hc
    | cons a s ih =>
      intro c hc
      simp only [cstr] at hc
      split at hc
      · simp at hc
      · rename_i ha
        rcases List.mem_cons.mp hc with rfl | hc
        · exact ha
        · exact ih c hc
  intro c hc
  unfold passwordString at hc
  cases Password with
  | none => exact hcstr _ c hc
  | some p => exact hcstr _ c (List.mem_of_mem_take hc)

theorem strlen_append_nul (s tail : List Nat) (h : ∀ c ∈ s, c ≠ 0) :
    strlen (s ++ 0 :: tail) = s.length := by
  induction s with
  | nil => simp [strlen]
  | cons c s ih =>
    have hc : c ≠ 0 := h c (List.mem_cons_self _ _)
    simp [strlen, hc, ih (fun d hd => h d (List.mem_cons_of_mem _ hd))]

theorem SetMasterPassword_SecretKey (C : Consts) (Password : Option (List Nat)) (g : Statics) :
    ∃ tail, (SetMasterPassword C Password g).SecretKey = passwordString C Password ++ 0 :: tail := by
  cases Password with
  | none =>
    exact ⟨_, by simp [SetMasterPassword, memcpyAt, passwordString]; rfl⟩
  | some p =>
    exact ⟨_, by simp [SetMasterPassword, memcpyAt, passwordString]; rfl⟩

theorem SetHashSalt1_key (C : Consts) (Password : Option (List Nat)) (g : Statics)
    (salt : List Nat) :
    (SetHashSalt1 (some salt) (SetMasterPassword C Password g)).key
      = passwordString C Password ++ [0] ++ salt := by
  obtain ⟨tail, htail⟩ := SetMasterPassword_SecretKey C Password g
  have hnz := take_passwordString_nonzero C Password
  have hlen := strlen_append_nul (passwordString C Password) tail hnz
  have hmem : memcpyAt (passwordString C Password ++ 0 :: tail)
      ((passwordString C Password).length + 1) salt
      = passwordString C Password ++ 0 :: (salt ++ tail.drop salt.length) := by
    unfold memcpyAt
    have e1 : (passwordString C Password ++ 0 :: tail).take ((passwordString C Password).length + 1)
        = passwordString C Password ++ [0] := by
      have : passwordString C Password ++ 0 :: tail = (passwordString C Password ++ [0]) ++ tail := by
        simp
      rw [this, List.take_left' (by simp)]
    have e2 : (passwordString C Password ++ 0 :: tail).drop
        ((passwordString C Password).length + 1 + salt.length) = tail.drop salt.length := by
      have : passwordString C Password ++ 0 :: tail = (passwordString C Password ++ [0]) ++ tail := by
        simp
      rw [this, show (passwordString C Password).length + 1 + salt.length
        = (passwordString C Password ++ [0]).length + salt.length by simp, List.drop_append]
    rw [e1, e2]
    simp
  simp only [SetHashSalt1, Statics.key, htail, hlen, hmem,
    strlen_append_nul (passwordString C Password) _ hnz]
  have : passwordString C Password ++ 0 :: (salt ++ tail.drop salt.length)
      = (passwordString C Password ++ [0] ++ salt) ++ tail.drop salt.length := by simp
  rw [this, List.take_left' (by simp; omega)]


theorem lineOk_line (name value : List Nat) (h1 : name ≠ []) (h2 : name.headD 0 ≠ 0x23)
    (h3 : name.headD 0 ≠ 0x5B) (h4 : 0x0A ∉ name) (h5 : 0x0A ∉ value) :
    lineOk (name ++ [0x3D] ++ value) := by
  cases name with
  | nil => exact absurd rfl h1
  | cons c name =>
    refine ⟨by simp, by simpa using h2, by simpa using h3, ?_⟩
    intro hm
    simp only [List.mem_append, List.mem_singleton] at hm
    rcases hm with (hm | hm) | hm
    · exact h4 hm
    · exact absurd hm (by decide)
    · exact h5 hm

theorem to_string_no_newline (v : Int) : 0x0A ∉ to_string v := by
  intro hm
  unfold to_string at hm
  have hd : ∀ c, isdigit c = true → c ≠ 0x0A := by
    intro c hc e
    subst e
    exact absurd hc (by decide)
  split at hm
  · rcases List.mem_cons.mp hm with h | h
    · exact absurd h (by decide)
    · exact hd _ (decimalDigits_digits _ _ [] (by simp) _ h) rfl
  · exact hd _ (decimalDigits_digits _ _ [] (by simp) _ hm) rfl

theorem escapeValue_no_newline (v : List Nat) : 0x0A ∉ escapeValue v := by
  intro hm
  have := escapeValue_printable v _ hm
  omega

theorem lines_foldl_subgroups (root : List Nat) :
    ∀ (ws : List (List Nat × List Nat)) (map : IniMap), (∀ w ∈ ws, w.1 ≠ root) →
      (ws.foldl (fun m w => m.push_back w.1 w.2) map).lines root = map.lines root
  | [], _, _ => rfl
  | w :: ws, map, h => by
    rw [List.foldl_cons, lines_foldl_subgroups root ws _
      (fun w' hw' => h w' (List.mem_cons_of_mem _ hw')),
      IniMap.lines_push_back_ne _ _ _ _ (fun e => h w (List.mem_cons_self _ _) e.symm)]

theorem WF_foldl_subgroups : ∀ (ws : List (List Nat × List Nat)) (map : IniMap), map.WF →
    (∀ w ∈ ws, keyOk w.1 ∧ lineOk w.2) →
    (ws.foldl (fun m w => m.push_back w.1 w.2) map).WF
  | [], _, hwf, _ => hwf
  | w :: ws, map, hwf, h => by
    rw [List.foldl_cons]
    exact WF_foldl_subgroups ws _
      (IniMap.WF_push_back map w.1 w.2 hwf (h w (List.mem_cons_self _ _)).1
        (h w (List.mem_cons_self _ _)).2)
      (fun w' hw' => h w' (List.mem_cons_of_mem _ hw'))

theorem push_back_ne_nil (map : IniMap) (key line : List Nat) : map.push_back key line ≠ [] := by
  intro e
  have := IniMap.lines_push_back map key line
  rw [e] at this
  simp [IniMap.lines, IniMap.find] at this

theorem foldl_subgroups_ne_nil : ∀ (ws : List (List Nat × List Nat)) (map : IniMap), map ≠ [] →
    ws.foldl (fun m w => m.push_back w.1 w.2) map ≠ []
  | [], _, h => h
  | w :: ws, map, _ => by
    rw [List.foldl_cons]
    exact foldl_subgroups_ne_nil ws _ (push_back_ne_nil _ _ _)

theorem wordBytes_lt (w : Nat) : ∀ b ∈ wordBytes w, b < 256 := by
  intro b hb
  simp only [wordBytes, List.mem_cons, List.mem_singleton, List.not_mem_nil, or_false] at hb
  omega

theorem keyOk_root : keyOk (ascii "FFFTP") := by
  constructor <;> decide


theorem SetHashSalt1_EncryptSettings (Salt : Option (List Nat)) (g : Statics) :
    (SetHashSalt1 Salt g).EncryptSettings = g.EncryptSettings := by
  cases Salt <;> rfl

theorem SetHashSalt1_sjis (Salt : Option (List Nat)) (g : Statics) :
    (SetHashSalt1 Salt g).sjis = g.sjis := by
  cases Salt <;> rfl

theorem SaveRegistry_unfold (C : Consts) (P : Provider) (EncryptAllSettings : Int)
    (tick ft0 ft2 ft3 : Nat) (rndPad rndIv : Option (List Nat))
    (subgroupWrites : List (List Nat × List Nat)) (file : Option (List Nat))
    (Password : Option (List Nat)) (g0 : Statics) (hErr : g0.EncryptSettingsError = false) :
    SaveRegistry C P false EncryptAllSettings tick ft0 ft2 ft3 rndPad rndIv subgroupWrites
        true file (SetMasterPassword C Password g0)
      = (saveRegistryWrites C P EncryptAllSettings tick ft0 ft2 ft3 rndPad rndIv
            subgroupWrites (SetMasterPassword C Password g0)).map
          fun written => (written.1, some (REGDATATBL.flush C.MSGJPN239 written.2)) := by
  have hErr' : (SetMasterPassword C Password g0).EncryptSettingsError = false := hErr
  have hOK : (SetMasterPassword C Password g0).IsMasterPasswordError
      = PasswordStatus.PASSWORD_OK := rfl
  simp only [SaveRegistry, hOK, hErr', reduceCtorEq, if_false, if_true, Bool.false_eq_true]
  cases saveRegistryWrites C P EncryptAllSettings tick ft0 ft2 ft3 rndPad rndIv
    subgroupWrites (SetMasterPassword C Password g0) <;> rfl

/-- The map that `SaveRegistry` flushes: it survives the file, and its root
group holds the lines of the credential check for the key bytes in force. -/
theorem saveRegistryWrites_root (C : Consts) (P : Provider) (EncryptAllSettings : Int)
    (tick ft0 ft2 ft3 : Nat) (rndPad rndIv : Option (List Nat))
    (subgroupWrites : List (List Nat × List Nat))
    (Password : Option (List Nat)) (g0 : Statics)
    (hE : g0.EncryptSettings = false)
    (hsub : ∀ w ∈ subgroupWrites, w.1 ≠ ascii "FFFTP" ∧ keyOk w.1 ∧ lineOk w.2)
    (hfit : EncryptAllSettings = C.YES →
      (passwordString C Password).length + 5 ≤ C.MAX_PASSWORD_LEN) :
    ∃ (s : Statics) (m : IniMap),
    saveRegistryWrites C P EncryptAllSettings tick ft0 ft2 ft3 rndPad rndIv subgroupWrites
      (SetMasterPassword C Password g0) = some (s, m) ∧
    m.WF ∧
    m ≠ [] ∧
    s.key
        = passwordString C Password ++ [0] ++ savedSalt C EncryptAllSettings tick ft0 ft2 ft3 ∧
    ∃ detector : List Nat,
      m.lines (ascii "FFFTP")
        = (ascii "Version" ++ [0x3D] ++ to_string C.VER_NUM) ::
          ((if EncryptAllSettings = C.YES then
            [ascii "CredentialSalt1" ++ [0x3D]
                ++ escapeValue (savedSalt C EncryptAllSettings tick ft0 ft2 ft3),
              ascii "CredentialStretch" ++ [0x3D] ++ to_string 65535,
              ascii "CredentialCheck1" ++ [0x3D] ++ escapeValue (digestString P.hash
                (passwordString C Password ++ [0]
                  ++ savedSalt C EncryptAllSettings tick ft0 ft2 ft3) 65535)]
          else
            [ascii "CredentialSalt" ++ [0x3D] ++ to_string (bytesInt (wordBytes tick)),
              ascii "CredentialCheck" ++ [0x3D] ++ escapeValue (digestString P.hash
                (passwordString C Password ++ [0]
                  ++ savedSalt C EncryptAllSettings tick ft0 ft2 ft3) 0)])
            ++ [ascii "EncryptAll" ++ [0x3D] ++ to_string EncryptAllSettings,
              ascii "EncryptAllDetector" ++ [0x3D] ++ escapeValue detector]) := by
  have hroot := keyOk_root
  have hE0 : (SetMasterPassword C Password g0).EncryptSettings = false := hE
  have hdigest : ∀ K sc, cstr (digestString P.hash K sc) = digestString P.hash K sc :=
    fun K sc => cstr_of_nonzero _ (fun c hc => by
      have := digestString_range P.hash K sc c hc; omega)
  have hline : ∀ name value : List Nat, name ≠ [] → name.headD 0 ≠ 0x23 → name.headD 0 ≠ 0x5B →
      0x0A ∉ name → 0x0A ∉ value → lineOk (name ++ [0x3D] ++ value) := lineOk_line
  have hsub1 : ∀ w ∈ subgroupWrites, w.1 ≠ ascii "FFFTP" := fun w hw => (hsub w hw).1
  have hsub2 : ∀ w ∈ subgroupWrites, keyOk w.1 ∧ lineOk w.2 := fun w hw => (hsub w hw).2
  by_cases hmode : EncryptAllSettings = C.YES
  · have hkey := SetHashSalt1_key C Password g0
      (intBytes (bytesInt (wordBytes tick)) ++ wordBytes ft0 ++ wordBytes ft2 ++ wordBytes ft3)
    have hE1 : (SetHashSalt1 (some (intBytes (bytesInt (wordBytes tick)) ++ wordBytes ft0
        ++ wordBytes ft2 ++ wordBytes ft3)) (SetMasterPassword C Password g0)).EncryptSettings
        = false := by rw [SetHashSalt1_EncryptSettings]; exact hE0
    have hcreate := CreatePasswordHash_of_fits C P.hash
      (SetHashSalt1 (some (intBytes (bytesInt (wordBytes tick)) ++ wordBytes ft0
        ++ wordBytes ft2 ++ wordBytes ft3)) (SetMasterPassword C Password g0)).key 65535
      (Or.inr (by
        have := hfit hmode
        rw [hkey]
        simp only [List.length_append, List.length_singleton, intBytes_length,
          wordBytes_length, sizeofBuf]
        omega))
    simp only [saveRegistryWrites, hmode, if_true, hE0, hE1, savedSalt, hcreate]
    refine ⟨_, _, rfl, ?_, ?_, ?_, ?_⟩
    · apply WF_foldl_subgroups _ _ _ hsub2
      simp only [REGDATATBL.WriteStringToReg, REGDATATBL.WriteIntValueToReg,
        REGDATATBL.WriteBinaryToReg, REGDATATBL.Write, REGDATATBL.WriteInt]
      refine IniMap.WF_push_back _ _ _ (IniMap.WF_push_back _ _ _ (IniMap.WF_push_back _ _ _
        (IniMap.WF_push_back _ _ _ (IniMap.WF_push_back _ _ _ (IniMap.WF_push_back _ _ _
        IniMap.WF_nil hroot ?_) hroot ?_) hroot ?_) hroot ?_) hroot ?_) hroot ?_
      · exact hline _ _ (by decide) (by decide) (by decide) (by decide) (to_string_no_newline _)
      · exact hline _ _ (by decide) (by decide) (by decide) (by decide) (escapeValue_no_newline _)
      · exact hline _ _ (by decide) (by decide) (by decide) (by decide) (to_string_no_newline _)
      · exact hline _ _ (by decide) (by decide) (by decide) (by decide) (escapeValue_no_newline _)
      · exact hline _ _ (by decide) (by decide) (by decide) (by decide) (to_string_no_newline _)
      · exact hline _ _ (by decide) (by decide) (by decide) (by decide) (escapeValue_no_newline _)
    · exact foldl_subgroups_ne_nil _ _ (by
        unfold REGDATATBL.WriteStringToReg REGDATATBL.Write
        exact push_back_ne_nil _ _ _)
    · exact hkey
    · simp only [lines_foldl_subgroups _ _ _ hsub1,
        REGDATATBL.WriteStringToReg, REGDATATBL.WriteIntValueToReg,
        REGDATATBL.WriteBinaryToReg, REGDATATBL.Write, REGDATATBL.WriteInt,
        IniMap.lines_push_back, Config.WriteIntValueToReg, Config.WriteStringToReg,
        Config.WriteBinaryToReg, Bool.false_eq_true, if_false, hkey, hdigest]
      exact ⟨_, rfl⟩
  · have hkey : (SetHashSalt (toDWORD (bytesInt (wordBytes tick)))
        (SetMasterPassword C Password g0)).key = _ := SetHashSalt1_key C Password g0
      [(toDWORD (bytesInt (wordBytes tick)) >>> 24) &&& 0xff,
        (toDWORD (bytesInt (wordBytes tick)) >>> 16) &&& 0xff,
        (toDWORD (bytesInt (wordBytes tick)) >>> 8) &&& 0xff,
        toDWORD (bytesInt (wordBytes tick)) &&& 0xff]
    have hE1 : (SetHashSalt (toDWORD (bytesInt (wordBytes tick)))
        (SetMasterPassword C Password g0)).EncryptSettings = false := by
      unfold SetHashSalt
      rw [SetHashSalt1_EncryptSettings]; exact hE0
    have hcreate := CreatePasswordHash_of_fits C P.hash
      (SetHashSalt (toDWORD (bytesInt (wordBytes tick))) (SetMasterPassword C Password g0)).key
      0 (Or.inl (le_refl 0))
    simp only [saveRegistryWrites, hmode, if_false, hE0, hE1, savedSalt, hcreate]
    refine ⟨_, _, rfl, ?_, ?_, ?_, ?_⟩
    · apply WF_foldl_subgroups _ _ _ hsub2
      simp only [REGDATATBL.WriteStringToReg, REGDATATBL.WriteIntValueToReg,
        REGDATATBL.Write, REGDATATBL.WriteInt]
      refine IniMap.WF_push_back _ _ _ (IniMap.WF_push_back _ _ _ (IniMap.WF_push_back _ _ _
        (IniMap.WF_push_back _ _ _ (IniMap.WF_push_back _ _ _
        IniMap.WF_nil hroot ?_) hroot ?_) hroot ?_) hroot ?_) hroot ?_
      · exact hline _ _ (by decide) (by decide) (by decide) (by decide) (to_string_no_newline _)
      · exact hline _ _ (by decide) (by decide) (by decide) (by decide) (to_string_no_newline _)
      · exact hline _ _ (by decide) (by decide) (by decide) (by decide) (escapeValue_no_newline _)
      · exact hline _ _ (by decide) (by decide) (by decide) (by decide) (to_string_no_newline _)
      · exact hline _ _ (by decide) (by decide) (by decide) (by decide) (escapeValue_no_newline _)
    · exact foldl_subgroups_ne_nil _ _ (by
        unfold REGDATATBL.WriteStringToReg REGDATATBL.Write
        exact push_back_ne_nil _ _ _)
    · exact hkey
    · simp only [lines_foldl_subgroups _ _ _ hsub1,
        REGDATATBL.WriteStringToReg, REGDATATBL.WriteIntValueToReg,
        REGDATATBL.Write, REGDATATBL.WriteInt,
        IniMap.lines_push_back, Config.WriteIntValueToReg, Config.WriteStringToReg,
        Bool.false_eq_true, if_false, hkey, hdigest]
      exact ⟨_, rfl⟩


theorem openIni_ReadValue (a2w_u8 : List Nat → List Nat) (text name : List Nat) :
    (openIni false a2w_u8 text).ReadValue name
      = (scanLines name ((ReadInReg (ascii "FFFTP") text).lines (ascii "FFFTP"))).map
          fun p => unescapeValue (cstr p) := by
  simp only [openIni, REGDATATBL.ReadValue, REGDATATBL.Scan]
  cases scanLines name ((ReadInReg (ascii "FFFTP") text).lines (ascii "FFFTP")) <;> simp

theorem openIni_ReadInt (sjis : Bool) (a2w_u8 : List Nat → List Nat) (text name : List Nat) :
    (openIni sjis a2w_u8 text).ReadInt name
      = (scanLines name ((ReadInReg (ascii "FFFTP") text).lines (ascii "FFFTP"))).map
          fun p => atoi (cstr p) := by
  simp only [openIni, REGDATATBL.ReadInt, REGDATATBL.Scan]
  cases scanLines name ((ReadInReg (ascii "FFFTP") text).lines (ascii "FFFTP")) <;> simp

theorem unescape_cstr_escape (v : List Nat) (hlt : ∀ b ∈ v, b < 256) :
    unescapeValue (cstr (escapeValue v)) = v := by
  rw [cstr_of_nonzero _ (fun c hc => by have := escapeValue_printable v c hc; omega)]
  exact unescapeValue_escapeValue_aux v hlt

theorem digestString_ne_nil (hash : List Nat → List Nat) (K : List Nat) (sc : Int) :
    digestString hash K sc ≠ [] := by
  intro e
  have := digestString_length hash K sc
  rw [e] at this
  simp at this

theorem digestString_lt (hash : List Nat → List Nat) (K : List Nat) (sc : Int) :
    ∀ b ∈ digestString hash K sc, b < 256 := by
  intro b hb
  have := digestString_range hash K sc b hb
  omega

theorem strncpy_digest (hash : List Nat → List Nat) (K : List Nat) (sc : Int) :
    strncpy_s_truncate 48 (digestString hash K sc) = digestString hash K sc := by
  unfold strncpy_s_truncate
  rw [cstr_of_nonzero _ (fun c hc => by
    have := digestString_range hash K sc c hc; omega),
    List.take_of_length_le (by rw [digestString_length]; decide)]

theorem savedSalt_lt (C : Consts) (EncryptAllSettings : Int) (tick ft0 ft2 ft3 : Nat) :
    ∀ b ∈ savedSalt C EncryptAllSettings tick ft0 ft2 ft3, b < 256 := by
  intro b hb
  unfold savedSalt at hb
  split at hb
  · simp only [List.mem_append] at hb
    rcases hb with ((hb | hb) | hb) | hb
    · exact intBytes_lt _ b hb
    · exact wordBytes_lt _ b hb
    · exact wordBytes_lt _ b hb
    · exact wordBytes_lt _ b hb
  · simp only [List.mem_cons, List.mem_singleton, List.not_mem_nil, or_false] at hb
    have h255 : ∀ x : Nat, x &&& 0xff < 256 := fun x =>
      Nat.and_lt_two_pow (n := 8) x (by decide)
    rcases hb with rfl | rfl | rfl | rfl <;> exact h255 _

theorem savedSalt_length_yes (C : Consts) (EncryptAllSettings : Int) (tick ft0 ft2 ft3 : Nat)
    (h : EncryptAllSettings = C.YES) :
    (savedSalt C EncryptAllSettings tick ft0 ft2 ft3).length = 16 := by
  simp [savedSalt, h, intBytes, wordBytes]


theorem validateOpened_saved_yes (hash : List Nat → List Nat) (a2w_u8 : List Nat → List Nat)
    (C : Consts) (Password : Option (List Nat)) (g1 : Statics) (text salt checkbuf salt1 : List Nat)
    (ver : List Nat) (more : List (List Nat))
    (hg1 : g1.EncryptSettings = false ∧ g1.sjis = false)
    (hslen : salt.length = 16) (hsalt_lt : ∀ b ∈ salt, b < 256)
    (hfit : (passwordString C Password).length + 5 ≤ C.MAX_PASSWORD_LEN)
    (hL : (ReadInReg (ascii "FFFTP") text).lines (ascii "FFFTP")
      = (ascii "Version" ++ [0x3D] ++ ver) ::
        (ascii "CredentialSalt1" ++ [0x3D] ++ escapeValue salt) ::
        (ascii "CredentialStretch" ++ [0x3D] ++ to_string 65535) ::
        (ascii "CredentialCheck1" ++ [0x3D] ++
          escapeValue (digestString hash (passwordString C Password ++ [0] ++ salt) 65535)) ::
        more) :
    ∃ v : Statics,
    validateOpened C hash (openIni false a2w_u8 text) checkbuf salt1
        (SetMasterPassword C Password g1) = some v ∧
    v.IsMasterPasswordError = PasswordStatus.PASSWORD_OK ∧
    v.key = passwordString C Password ++ [0] ++ salt := by
  have hVE : (SetMasterPassword C Password g1).EncryptSettings = false := hg1.1
  have hsne : salt ≠ [] := by
    intro e; rw [e] at hslen; simp at hslen
  have hc1 : (openIni false a2w_u8 text).ReadValue (ascii "CredentialCheck1")
      = some (digestString hash (passwordString C Password ++ [0] ++ salt) 65535) := by
    rw [openIni_ReadValue, hL,
      scanLines_cons_ne (ascii "CredentialCheck1") (ascii "Version") _ _ (by decide)
        (by decide) (by decide),
      scanLines_cons_ne (ascii "CredentialCheck1") (ascii "CredentialSalt1") _ _ (by decide)
        (by decide) (by decide),
      scanLines_cons_ne (ascii "CredentialCheck1") (ascii "CredentialStretch") _ _
        (by decide) (by decide) (by decide),
      scanLines_cons_eq _ _ _ (escapeValue_ne_nil _ (digestString_ne_nil _ _ _))]
    simp only [Option.map_some', unescape_cstr_escape _ (digestString_lt _ _ _)]
  have hs1 : (openIni false a2w_u8 text).ReadValue (ascii "CredentialSalt1") = some salt := by
    rw [openIni_ReadValue, hL,
      scanLines_cons_ne (ascii "CredentialSalt1") (ascii "Version") _ _ (by decide)
        (by decide) (by decide),
      scanLines_cons_eq _ _ _ (escapeValue_ne_nil _ hsne)]
    simp only [Option.map_some', unescape_cstr_escape _ hsalt_lt]
  have hst : (openIni false a2w_u8 text).ReadInt (ascii "CredentialStretch") = some 65535 := by
    rw [openIni_ReadInt, hL,
      scanLines_cons_ne (ascii "CredentialStretch") (ascii "Version") _ _ (by decide)
        (by decide) (by decide),
      scanLines_cons_ne (ascii "CredentialStretch") (ascii "CredentialSalt1") _ _
        (by decide) (by decide) (by decide),
      scanLines_cons_eq _ _ _ (to_string_ne_nil _)]
    simp only [Option.map_some', atoi_to_string 65535 (by decide) (by decide)]
  have hbin : salt.take ((List.range 16).map fun i => salt1.getD i 0).length
        ++ ((List.range 16).map fun i => salt1.getD i 0).drop salt.length = salt := by
    rw [List.take_of_length_le (by simp [hslen]), List.drop_of_length_le (by simp [hslen])]
    simp
  have hkeyV := SetHashSalt1_key C Password g1 salt
  have hVE1 : (SetHashSalt1 (some salt) (SetMasterPassword C Password g1)).EncryptSettings
      = false := by
    rw [SetHashSalt1_EncryptSettings]; exact hVE
  have hchk := check_of_create C hash (passwordString C Password ++ [0] ++ salt) 65535
    (Or.inr (by
      simp only [List.length_append, List.length_singleton, hslen, sizeofBuf]
      omega))
  have hval : validateOpened C hash (openIni false a2w_u8 text) checkbuf salt1
      (SetMasterPassword C Password g1)
      = some { SetHashSalt1 (some salt) (SetMasterPassword C Password g1) with
          IsMasterPasswordError := PasswordStatus.PASSWORD_OK } := by
    simp only [validateOpened, hVE, hc1, hs1, hst, Config.ReadStringFromReg,
      Config.ReadBinaryFromReg, Config.ReadIntValueFromReg, Bool.false_eq_true, if_false,
      strncpy_digest, hbin, hVE1, hkeyV, hchk]
    rfl
  exact ⟨_, hval, rfl, hkeyV⟩

theorem validateOpened_saved_no (hash : List Nat → List Nat) (a2w_u8 : List Nat → List Nat)
    (C : Consts) (Password : Option (List Nat)) (g1 : Statics) (text checkbuf salt1 : List Nat)
    (tick : Nat) (ver enc detector : List Nat)
    (hg1 : g1.EncryptSettings = false ∧ g1.sjis = false)
    (hL : (ReadInReg (ascii "FFFTP") text).lines (ascii "FFFTP")
      = [ascii "Version" ++ [0x3D] ++ ver,
        ascii "CredentialSalt" ++ [0x3D] ++ to_string (bytesInt (wordBytes tick)),
        ascii "CredentialCheck" ++ [0x3D] ++
          escapeValue (digestString hash (passwordString C Password ++ [0] ++
            [(toDWORD (bytesInt (wordBytes tick)) >>> 24) &&& 0xff,
              (toDWORD (bytesInt (wordBytes tick)) >>> 16) &&& 0xff,
              (toDWORD (bytesInt (wordBytes tick)) >>> 8) &&& 0xff,
              toDWORD (bytesInt (wordBytes tick)) &&& 0xff]) 0),
        ascii "EncryptAll" ++ [0x3D] ++ enc,
        ascii "EncryptAllDetector" ++ [0x3D] ++ detector]) :
    ∃ v : Statics,
    validateOpened C hash (openIni false a2w_u8 text) checkbuf salt1
        (SetMasterPassword C Password g1) = some v ∧
    v.IsMasterPasswordError = PasswordStatus.PASSWORD_OK ∧
    v.key = passwordString C Password ++ [0] ++
          [(toDWORD (bytesInt (wordBytes tick)) >>> 24) &&& 0xff,
            (toDWORD (bytesInt (wordBytes tick)) >>> 16) &&& 0xff,
            (toDWORD (bytesInt (wordBytes tick)) >>> 8) &&& 0xff,
            toDWORD (bytesInt (wordBytes tick)) &&& 0xff] := by
  have hVE : (SetMasterPassword C Password g1).EncryptSettings = false := hg1.1
  have hr := bytesInt_range (wordBytes tick)
  have hc1 : (openIni false a2w_u8 text).ReadValue (ascii "CredentialCheck1") = none := by
    rw [openIni_ReadValue, hL,
      scanLines_cons_ne (ascii "CredentialCheck1") (ascii "Version") _ _ (by decide)
        (by decide) (by decide),
      scanLines_cons_ne (ascii "CredentialCheck1") (ascii "CredentialSalt") _ _ (by decide)
        (by decide) (by decide),
      scanLines_cons_ne (ascii "CredentialCheck1") (ascii "CredentialCheck") _ _
        (by decide) (by decide) (by decide),
      scanLines_cons_ne (ascii "CredentialCheck1") (ascii "EncryptAll") _ _
        (by decide) (by decide) (by decide),
      scanLines_cons_ne (ascii "CredentialCheck1") (ascii "EncryptAllDetector") _ _
        (by decide) (by decide) (by decide)]
    rfl
  have hc : (openIni false a2w_u8 text).ReadValue (ascii "CredentialCheck")
      = some (digestString hash (passwordString C Password ++ [0] ++
            [(toDWORD (bytesInt (wordBytes tick)) >>> 24) &&& 0xff,
              (toDWORD (bytesInt (wordBytes tick)) >>> 16) &&& 0xff,
              (toDWORD (bytesInt (wordBytes tick)) >>> 8) &&& 0xff,
              toDWORD (bytesInt (wordBytes tick)) &&& 0xff]) 0) := by
    rw [openIni_ReadValue, hL,
      scanLines_cons_ne (ascii "CredentialCheck") (ascii "Version") _ _ (by decide)
        (by decide) (by decide),
      scanLines_cons_ne (ascii "CredentialCheck") (ascii "CredentialSalt") _ _ (by decide)
        (by decide) (by decide),
      scanLines_cons_eq _ _ _ (escapeValue_ne_nil _ (digestString_ne_nil _ _ _))]
    simp only [Option.map_some', unescape_cstr_escape _ (digestString_lt _ _ _)]
  have hs : (openIni false a2w_u8 text).ReadInt (ascii "CredentialSalt")
      = some (bytesInt (wordBytes tick)) := by
    rw [openIni_ReadInt, hL,
      scanLines_cons_ne (ascii "CredentialSalt") (ascii "Version") _ _ (by decide)
        (by decide) (by decide),
      scanLines_cons_eq _ _ _ (to_string_ne_nil _)]
    simp only [Option.map_some', atoi_to_string _ hr.1 hr.2]
  have hkeyV : (SetHashSalt (toDWORD (bytesInt (wordBytes tick)))
      (SetMasterPassword C Password g1)).key = _ := SetHashSalt1_key C Password g1
    [(toDWORD (bytesInt (wordBytes tick)) >>> 24) &&& 0xff,
      (toDWORD (bytesInt (wordBytes tick)) >>> 16) &&& 0xff,
      (toDWORD (bytesInt (wordBytes tick)) >>> 8) &&& 0xff,
      toDWORD (bytesInt (wordBytes tick)) &&& 0xff]
  have hchk := check_of_create C hash (passwordString C Password ++ [0] ++
      [(toDWORD (bytesInt (wordBytes tick)) >>> 24) &&& 0xff,
        (toDWORD (bytesInt (wordBytes tick)) >>> 16) &&& 0xff,
        (toDWORD (bytesInt (wordBytes tick)) >>> 8) &&& 0xff,
        toDWORD (bytesInt (wordBytes tick)) &&& 0xff]) 0 (Or.inl (le_refl 0))
  have hval : validateOpened C hash (openIni false a2w_u8 text) checkbuf salt1
      (SetMasterPassword C Password g1)
      = some { SetHashSalt (toDWORD (bytesInt (wordBytes tick)))
            (SetMasterPassword C Password g1) with
          IsMasterPasswordError := PasswordStatus.PASSWORD_OK } := by
    simp only [validateOpened, hVE, hc1, hc, hs, Config.ReadStringFromReg,
      Config.ReadIntValueFromReg, Bool.false_eq_true, if_false,
      strncpy_digest, hkeyV, hchk]
    rfl
  exact ⟨_, hval, rfl, hkeyV⟩

theorem saveRegistryWrites_overflow (C : Consts) (P : Provider) (EncryptAllSettings : Int)
    (tick ft0 ft2 ft3 : Nat) (rndPad rndIv : Option (List Nat))
    (subgroupWrites : List (List Nat × List Nat))
    (Password : Option (List Nat)) (g0 : Statics)
    (hmode : EncryptAllSettings = C.YES)
    (hover : C.MAX_PASSWORD_LEN < (passwordString C Password).length + 5) :
    saveRegistryWrites C P EncryptAllSettings tick ft0 ft2 ft3 rndPad rndIv subgroupWrites
      (SetMasterPassword C Password g0) = none := by
  have hkey := SetHashSalt1_key C Password g0
    (intBytes (bytesInt (wordBytes tick)) ++ wordBytes ft0 ++ wordBytes ft2 ++ wordBytes ft3)
  have hcreate := CreatePasswordHash_overflow C P.hash
    (SetHashSalt1 (some (intBytes (bytesInt (wordBytes tick)) ++ wordBytes ft0
      ++ wordBytes ft2 ++ wordBytes ft3)) (SetMasterPassword C Password g0)).key 65535
    (by
      intro h
      rcases h with h | h
      · exact absurd h (by decide)
      · rw [hkey] at h
        simp only [List.length_append, List.length_singleton, intBytes_length,
          wordBytes_length, sizeofBuf] at h
        omega)
  simp only [saveRegistryWrites, hmode, if_true, hcreate]

/-- C3 (flat-file backend): for every master password (also the default
one), every tick count and process times that make the salt, and both
modes of `EncryptAllSettings`: when the scratch writes of the digest fit
`Buf` (always without `EncryptAllSettings`; with it, when the password
string is at least five characters shorter than `MAX_PASSWORD_LEN`), the
file written by `SaveRegistry` and then checked by `ValidateMasterPassword`
under the same master password is opened, and the check leaves the status
at `PASSWORD_OK`; the key bytes in force at the comparison are the password
string, a NUL and the salt chosen at save time, the same bytes as at the
save.  With `EncryptAllSettings` and a longer password string,
`CreatePasswordHash` in `SaveRegistry` writes past the end of `Buf`. -/
theorem ValidateMasterPassword_SaveRegistry (C : Consts) (P : Provider)
    (a2w_u8 : List Nat → List Nat) (Password : Option (List Nat)) (EncryptAllSettings : Int)
    (tick ft0 ft2 ft3 : Nat) (rndPad rndIv : Option (List Nat))
    (subgroupWrites : List (List Nat × List Nat)) (file : Option (List Nat))
    (AskForceIni : Bool) (registry : Option OpenedStore) (checkbuf salt1 : List Nat)
    (g0 g1 : Statics)
    (hg0 : g0.EncryptSettings = false ∧ g0.EncryptSettingsError = false)
    (hg1 : g1.EncryptSettings = false ∧ g1.sjis = false)
    (hbanner : ∀ l ∈ getlines (C.MSGJPN239 ++ [0x0A]) [], l = [] ∨ l.headD 0 = 0x23)
    (hsub : ∀ w ∈ subgroupWrites, w.1 ≠ ascii "FFFTP" ∧ keyOk w.1 ∧ lineOk w.2) :
    ((EncryptAllSettings = C.YES →
        (passwordString C Password).length + 5 ≤ C.MAX_PASSWORD_LEN) →
      ∃ (saved : Statics × Option (List Nat)) (checked : Statics × Bool),
        SaveRegistry C P false EncryptAllSettings tick ft0 ft2 ft3 rndPad rndIv subgroupWrites
          true file (SetMasterPassword C Password g0) = some saved ∧
        ValidateMasterPassword C P.hash a2w_u8 saved.2 AskForceIni registry checkbuf salt1
          (SetMasterPassword C Password g1) = some checked ∧
        checked.2 = true ∧
        checked.1.IsMasterPasswordError = PasswordStatus.PASSWORD_OK ∧
        checked.1.key
          = passwordString C Password ++ [0]
              ++ savedSalt C EncryptAllSettings tick ft0 ft2 ft3 ∧
        saved.1.key
          = passwordString C Password ++ [0]
              ++ savedSalt C EncryptAllSettings tick ft0 ft2 ft3) ∧
    (EncryptAllSettings = C.YES →
      C.MAX_PASSWORD_LEN < (passwordString C Password).length + 5 →
      SaveRegistry C P false EncryptAllSettings tick ft0 ft2 ft3 rndPad rndIv subgroupWrites
        true file (SetMasterPassword C Password g0) = none) := by
  have hunfold := SaveRegistry_unfold C P EncryptAllSettings tick ft0 ft2 ft3 rndPad rndIv
    subgroupWrites file Password g0 hg0.2
  constructor
  · intro hfit
    obtain ⟨s, m, hsave, hwf, hne, hkeyS, detector, hlines⟩ :=
      saveRegistryWrites_root C P EncryptAllSettings
        tick ft0 ft2 ft3 rndPad rndIv subgroupWrites Password g0 hg0.1 hsub hfit
    have hL := ReadInReg_flush C.MSGJPN239 (ascii "FFFTP") m (ascii "FFFTP") hbanner hwf hne
    rw [hlines] at hL
    have hVs : (SetMasterPassword C Password g1).sjis = false := hg1.2
    rw [hsave] at hunfold
    have hvo : ∃ v : Statics,
        validateOpened C P.hash (openIni false a2w_u8 (REGDATATBL.flush C.MSGJPN239 m))
          checkbuf salt1 (SetMasterPassword C Password g1) = some v ∧
        v.IsMasterPasswordError = PasswordStatus.PASSWORD_OK ∧
        v.key = passwordString C Password ++ [0]
          ++ savedSalt C EncryptAllSettings tick ft0 ft2 ft3 := by
      by_cases hmode : EncryptAllSettings = C.YES
      · rw [if_pos hmode] at hL
        exact validateOpened_saved_yes P.hash a2w_u8 C Password g1 _ _ checkbuf salt1 _ _ hg1
          (savedSalt_length_yes C EncryptAllSettings tick ft0 ft2 ft3 hmode)
          (savedSalt_lt C EncryptAllSettings tick ft0 ft2 ft3) (hfit hmode) hL
      · rw [if_neg hmode] at hL
        have hsv : savedSalt C EncryptAllSettings tick ft0 ft2 ft3
            = [(toDWORD (bytesInt (wordBytes tick)) >>> 24) &&& 0xff,
                (toDWORD (bytesInt (wordBytes tick)) >>> 16) &&& 0xff,
                (toDWORD (bytesInt (wordBytes tick)) >>> 8) &&& 0xff,
                toDWORD (bytesInt (wordBytes tick)) &&& 0xff] := by
          simp only [savedSalt, if_neg hmode]
        rw [hsv] at hL ⊢
        exact validateOpened_saved_no P.hash a2w_u8 C Password g1 _ checkbuf salt1 tick _ _ _
          hg1 hL
    obtain ⟨v, hv, hvOK, hvkey⟩ := hvo
    refine ⟨(s, some (REGDATATBL.flush C.MSGJPN239 m)), (v, true), hunfold, ?_, rfl, hvOK,
      hvkey, hkeyS⟩
    simp only [ValidateMasterPassword, hVs, hv]
  · intro hmode hover
    rw [hunfold, saveRegistryWrites_overflow C P EncryptAllSettings tick ft0 ft2 ft3 rndPad
      rndIv subgroupWrites Password g0 hmode hover]
    rfl

/-- Witness for C3: the master password `pw`, saved with all settings
encrypted and then checked; and a master password of `MAX_PASSWORD_LEN`
characters (here 4), for which the save with all settings encrypted writes
past the end of `Buf`. -/
theorem ValidateMasterPassword_SaveRegistry_witness :
    (∃ (saved : Statics × Option (List Nat)) (checked : Statics × Bool),
      SaveRegistry ⟨1980, 1, 127, ascii "DefaultPassword", ascii "# settings"⟩ toyProvider
        false 1 0x12345678 11 22 33 (some []) (some (List.replicate 16 7)) [] true none
        (SetMasterPassword ⟨1980, 1, 127, ascii "DefaultPassword", ascii "# settings"⟩
          (some (ascii "pw")) ⟨[], 0, PasswordStatus.PASSWORD_OK, false, false, false⟩)
        = some saved ∧
      ValidateMasterPassword ⟨1980, 1, 127, ascii "DefaultPassword", ascii "# settings"⟩
        toyProvider.hash id saved.2 false none [] []
        (SetMasterPassword ⟨1980, 1, 127, ascii "DefaultPassword", ascii "# settings"⟩
          (some (ascii "pw")) ⟨[], 0, PasswordStatus.PASSWORD_UNMATCH, false, false, false⟩)
        = some checked ∧
      checked.2 = true ∧
      checked.1.IsMasterPasswordError = PasswordStatus.PASSWORD_OK ∧
      checked.1.key
        = passwordString ⟨1980, 1, 127, ascii "DefaultPassword", ascii "# settings"⟩
            (some (ascii "pw")) ++ [0]
          ++ savedSalt ⟨1980, 1, 127, ascii "DefaultPassword", ascii "# settings"⟩ 1
            0x12345678 11 22 33 ∧
      saved.1.key
        = passwordString ⟨1980, 1, 127, ascii "DefaultPassword", ascii "# settings"⟩
            (some (ascii "pw")) ++ [0]
          ++ savedSalt ⟨1980, 1, 127, ascii "DefaultPassword", ascii "# settings"⟩ 1
            0x12345678 11 22 33) ∧
    SaveRegistry ⟨1980, 1, 4, ascii "pass", ascii "# settings"⟩ toyProvider
        false 1 0x12345678 11 22 33 (some []) (some (List.replicate 16 7)) [] true none
        (SetMasterPassword ⟨1980, 1, 4, ascii "pass", ascii "# settings"⟩
          (some (ascii "abcd")) ⟨[], 0, PasswordStatus.PASSWORD_OK, false, false, false⟩)
      = none :=
  ⟨(ValidateMasterPassword_SaveRegistry
      ⟨1980, 1, 127, ascii "DefaultPassword", ascii "# settings"⟩ toyProvider id
      (some (ascii "pw")) 1 0x12345678 11 22 33 (some []) (some (List.replicate 16 7)) [] none
      false none [] [] ⟨[], 0, PasswordStatus.PASSWORD_OK, false, false, false⟩
      ⟨[], 0, PasswordStatus.PASSWORD_UNMATCH, false, false, false⟩
      ⟨rfl, rfl⟩ ⟨rfl, rfl⟩ (by decide) (by simp)).1 (fun _ => by decide),
    (ValidateMasterPassword_SaveRegistry
      ⟨1980, 1, 4, ascii "pass", ascii "# settings"⟩ toyProvider id
      (some (ascii "abcd")) 1 0x12345678 11 22 33 (some []) (some (List.replicate 16 7)) [] none
      false none [] [] ⟨[], 0, PasswordStatus.PASSWORD_OK, false, false, false⟩
      ⟨[], 0, PasswordStatus.PASSWORD_UNMATCH, false, false, false⟩
      ⟨rfl, rfl⟩ ⟨rfl, rfl⟩ (by decide) (by simp)).2 rfl (by decide)⟩


/-! ## Reads of absent names -/

theorem scanLines_none_of_no_prefix (name : List Nat) : ∀ lines : List (List Nat),
    (∀ line ∈ lines, ¬ (name ++ [0x3D]) <+: line) → scanLines name lines = none
  | [], _ => rfl
  | line :: rest, h => by
    have hm : scanMatches name line = false := by
      cases hm : scanMatches name line with
      | false => rfl
      | true =>
        exfalso
        apply h line (List.mem_cons_self _ _)
        have hd := scanMatches_decompose name line hm
        refine ⟨line.drop (name.length + 1), ?_⟩
        rw [List.append_assoc]
        exact hd.symm
    rw [scanLines, hm]
    exact scanLines_none_of_no_prefix name rest (fun l hl => h l (List.mem_cons_of_mem _ hl))

/-- C11: when no line of the group begins with `Name=`, each of
`ReadIntValueFromReg`, `ReadStringFromReg`, `ReadMultiStringFromReg` and
`ReadBinaryFromReg` on a flat-file handle returns `FFFTP_FAIL` and leaves
the destination as it was, with masking on or off; and on every backend
the same holds whenever the virtual read returns no value. -/
theorem Read_absent_unchanged (StrMultiLen : List Nat → Nat) (hash : List Nat → List Nat)
    (EncryptSettings : Bool) (key : List Nat) (sjis : Bool) (a2w_u8 : List Nat → List Nat)
    (map : IniMap) (KeyName Name : List Nat) (Value : Int) (Str Bin : List Nat) (Size : Nat)
    (habsent : ∀ line ∈ map.lines KeyName, ¬ (Name ++ [0x3D]) <+: line) :
    ((REGDATATBL.ReadIntValueFromReg hash EncryptSettings key map KeyName Name Value).2
        = (Status.FFFTP_FAIL, Value) ∧
      (REGDATATBL.ReadStringFromReg hash EncryptSettings key sjis a2w_u8 map KeyName Name
          Str Size).2 = (Status.FFFTP_FAIL, Str) ∧
      (REGDATATBL.ReadMultiStringFromReg StrMultiLen hash EncryptSettings key sjis a2w_u8 map
          KeyName Name Str Size).2 = (Status.FFFTP_FAIL, Str) ∧
      (REGDATATBL.ReadBinaryFromReg hash EncryptSettings key sjis a2w_u8 map KeyName Name
          Bin).2 = (Status.FFFTP_FAIL, Bin)) ∧
    (Config.ReadIntValueFromReg hash EncryptSettings key KeyName Name none Value
        = (Status.FFFTP_FAIL, Value) ∧
      Config.ReadStringFromReg hash EncryptSettings key KeyName Name none Str Size
        = (Status.FFFTP_FAIL, Str) ∧
      Config.ReadMultiStringFromReg StrMultiLen hash EncryptSettings key KeyName Name none
        Str Size = (Status.FFFTP_FAIL, Str) ∧
      Config.ReadBinaryFromReg hash EncryptSettings key KeyName Name none Bin
        = (Status.FFFTP_FAIL, Bin)) := by
  have hscan := scanLines_none_of_no_prefix Name (map.lines KeyName) habsent
  have hint : (REGDATATBL.ReadInt map KeyName Name).2 = none := by
    simp only [REGDATATBL.ReadInt, REGDATATBL.Scan, hscan]
  have hval : (REGDATATBL.ReadValue sjis a2w_u8 map KeyName Name).2 = none := by
    simp only [REGDATATBL.ReadValue, REGDATATBL.Scan, hscan]
  refine ⟨⟨?_, ?_, ?_, ?_⟩, rfl, rfl, rfl, rfl⟩
  · simp only [REGDATATBL.ReadIntValueFromReg, hint, Config.ReadIntValueFromReg]
  · simp only [REGDATATBL.ReadStringFromReg, hval, Config.ReadStringFromReg]
  · simp only [REGDATATBL.ReadMultiStringFromReg, hval, Config.ReadMultiStringFromReg]
  · simp only [REGDATATBL.ReadBinaryFromReg, hval, Config.ReadBinaryFromReg]

/-- Witness for C11: the group `F` holds the line `A=1`; the name `B` is
read with masking on into destinations holding 7, `x`, `xy` and `z`. -/
theorem Read_absent_unchanged_witness :
    (REGDATATBL.ReadIntValueFromReg (fun _ => []) true [0x70] [([0x46], [[0x41, 0x3D, 0x31]])]
        [0x46] [0x42] 7).2 = (Status.FFFTP_FAIL, 7) ∧
      (REGDATATBL.ReadMultiStringFromReg (fun _ => 0) (fun _ => []) true [0x70] false id
        [([0x46], [[0x41, 0x3D, 0x31]])] [0x46] [0x42] [0x78, 0x79] 2).2
        = (Status.FFFTP_FAIL, [0x78, 0x79]) :=
  ⟨(Read_absent_unchanged (fun _ => 0) (fun _ => []) true [0x70] false id
      [([0x46], [[0x41, 0x3D, 0x31]])] [0x46] [0x42] 7 [0x78, 0x79] [0x7A] 2
      (by decide)).1.1,
    (Read_absent_unchanged (fun _ => 0) (fun _ => []) true [0x70] false id
      [([0x46], [[0x41, 0x3D, 0x31]])] [0x46] [0x42] 7 [0x78, 0x79] [0x7A] 2
      (by decide)).1.2.2.1⟩

/-! ## Deletion and default suppression -/

/-- C14: with `TmpRegType` at `REGTYPE_INI`, `DeleteValue` and
`DeleteSubKey` return `FFFTP_FAIL` for every map behind the handle and
every name, whatever the map holds, and the map afterwards is the map
before; in particular a line that `Scan` found before is still found. -/
theorem DeleteValue_DeleteSubKey_ini (api : List Nat → Bool) (map : IniMap)
    (KeyName Name : List Nat) :
    DeleteValue RegType.REGTYPE_INI api map Name = (Status.FFFTP_FAIL, map) ∧
    DeleteSubKey RegType.REGTYPE_INI api map Name = (Status.FFFTP_FAIL, map) ∧
    (REGDATATBL.Scan (DeleteValue RegType.REGTYPE_INI api map Name).2 KeyName Name).2
      = (REGDATATBL.Scan map KeyName Name).2 ∧
    (DeleteSubKey RegType.REGTYPE_INI api map Name).2.find (KeyName ++ [0x5C] ++ Name)
      = map.find (KeyName ++ [0x5C] ++ Name) :=
  ⟨rfl, rfl, rfl, rfl⟩

theorem strcmp_eq_zero_iff : ∀ s d : List Nat, strcmp s d = 0 ↔ cstr s = cstr d
  | [], [] => by simp [strcmp]
  | [], d :: t => by
    by_cases hd : d = 0
    · simp [strcmp, cstr, hd]
    · simp [strcmp, cstr, hd]
  | c :: s, [] => by
    by_cases hc : c = 0
    · simp [strcmp, cstr, hc]
    · simp [strcmp, cstr, hc]
  | c :: s, d :: t => by
    by_cases hcd : c = d
    · subst hcd
      by_cases hc : c = 0
      · simp [strcmp, cstr, hc]
      · simp [strcmp, cstr, hc, strcmp_eq_zero_iff s t]
    · by_cases hc : c = 0
      · by_cases hd : d = 0
        · exact absurd (hc.trans hd.symm) hcd
        · subst hc
          have hpos : 0 < d := Nat.pos_of_ne_zero hd
          simp [strcmp, cstr, hd, hpos, Ne.symm hd]
      · by_cases hd : d = 0
        · by_cases hlt : c < d
          · simp [strcmp, cstr, hcd, hc, hd, hlt]
          · simp [strcmp, cstr, hcd, hc, hd, hlt]
        · by_cases hlt : c < d
          · simp [strcmp, cstr, hcd, hc, hd, hlt]
          · simp [strcmp, cstr, hcd, hc, hd, hlt]

/-- C12: `SaveStr` with a default equal to the string makes the one call
`DeleteValue(Handle, Key)` and leaves the map as it was; with no default,
or a default that differs, it makes the one call `WriteStringToReg` and the
group gains exactly the line of that write.  `SaveIntNum` does the same on
`Num = DefaultNum`.  A group without a line beginning with `Key=` has none
after a suppressed write. -/
theorem SaveStr_SaveIntNum_default (hash : List Nat → List Nat) (EncryptSettings : Bool)
    (key : List Nat) (map : IniMap) (KeyName Key Str d : List Nat) (Num DefaultNum : Int) :
    (cstr Str = cstr d →
      SaveStr hash EncryptSettings key map KeyName Key Str (some d)
        = (map, [StoreCall.DeleteValue Key])) ∧
    (cstr Str ≠ cstr d →
      SaveStr hash EncryptSettings key map KeyName Key Str (some d)
        = (REGDATATBL.WriteStringToReg hash EncryptSettings key map KeyName Key Str,
            [StoreCall.WriteStringToReg Key Str])) ∧
    SaveStr hash EncryptSettings key map KeyName Key Str none
      = (REGDATATBL.WriteStringToReg hash EncryptSettings key map KeyName Key Str,
          [StoreCall.WriteStringToReg Key Str]) ∧
    (REGDATATBL.WriteStringToReg hash EncryptSettings key map KeyName Key Str).lines KeyName
      = map.lines KeyName ++ [Key ++ [0x3D] ++ escapeValue
          (Config.WriteStringToReg hash EncryptSettings key KeyName Key Str)] ∧
    SaveIntNum hash EncryptSettings key map KeyName Key Num Num
      = (map, [StoreCall.DeleteValue Key]) ∧
    (Num ≠ DefaultNum →
      SaveIntNum hash EncryptSettings key map KeyName Key Num DefaultNum
        = (REGDATATBL.WriteIntValueToReg hash EncryptSettings key map KeyName Key Num,
            [StoreCall.WriteIntValueToReg Key Num])) ∧
    (REGDATATBL.WriteIntValueToReg hash EncryptSettings key map KeyName Key Num).lines KeyName
      = map.lines KeyName ++ [Key ++ [0x3D] ++ to_string
          (Config.WriteIntValueToReg hash EncryptSettings key KeyName Key Num)] ∧
    ((∀ line ∈ map.lines KeyName, ¬ (Key ++ [0x3D]) <+: line) → cstr Str = cstr d →
      (∀ line ∈ (SaveStr hash EncryptSettings key map KeyName Key Str (some d)).1.lines KeyName,
          ¬ (Key ++ [0x3D]) <+: line) ∧
      ∀ line ∈ (SaveIntNum hash EncryptSettings key map KeyName Key Num Num).1.lines KeyName,
          ¬ (Key ++ [0x3D]) <+: line) := by
  have hdel : (DeleteValue RegType.REGTYPE_INI (fun _ => false) map Key).2 = map := rfl
  have hint : SaveIntNum hash EncryptSettings key map KeyName Key Num Num
      = (map, [StoreCall.DeleteValue Key]) := by
    simp only [SaveIntNum, if_true, hdel]
  have hstr : cstr Str = cstr d →
      SaveStr hash EncryptSettings key map KeyName Key Str (some d)
        = (map, [StoreCall.DeleteValue Key]) := by
    intro h
    have h0 : strcmp Str d = 0 := (strcmp_eq_zero_iff Str d).mpr h
    simp only [SaveStr, Option.isSome_some, Option.getD_some, h0, and_self, if_true, hdel]
  refine ⟨hstr, ?_, ?_, ?_, hint, ?_, ?_, ?_⟩
  · intro h
    have h0 : strcmp Str d ≠ 0 := fun e => h ((strcmp_eq_zero_iff Str d).mp e)
    simp only [SaveStr, Option.isSome_some, Option.getD_some, h0, and_false, if_false]
  · simp [SaveStr]
  · simp only [REGDATATBL.WriteStringToReg, REGDATATBL.Write, IniMap.lines_push_back]
  · intro h
    simp only [SaveIntNum, h, if_false]
  · simp only [REGDATATBL.WriteIntValueToReg, REGDATATBL.WriteInt, IniMap.lines_push_back]
  · intro hnone h
    rw [hstr h, hint]
    exact ⟨hnone, hnone⟩


/-! ## The same name written twice -/

theorem scanLines_append_none (name : List Nat) (rest : List (List Nat)) :
    ∀ ls : List (List Nat), scanLines name ls = none →
      scanLines name (ls ++ rest) = scanLines name rest
  | [], _ => rfl
  | l :: ls, h => by
    simp only [scanLines] at h
    split at h
    · exact absurd h (by simp)
    · rename_i hm
      simp only [List.cons_append, scanLines, hm, Bool.false_eq_true, if_false]
      exact scanLines_append_none name rest ls h

theorem scanLines_push_back_twice (map : IniMap) (KeyName name t1 t2 : List Nat)
    (hfresh : scanLines name (map.lines KeyName) = none) :
    scanLines name (((map.push_back KeyName (name ++ [0x3D] ++ t1)).push_back KeyName
        (name ++ [0x3D] ++ t2)).lines KeyName)
      = if t1 ≠ [] then some t1 else if t2 ≠ [] then some t2 else none := by
  rw [IniMap.lines_push_back, IniMap.lines_push_back, List.append_assoc,
    scanLines_append_none _ _ _ hfresh]
  by_cases h1 : t1 = []
  · subst h1
    by_cases h2 : t2 = []
    · subst h2
      simp [scanLines, scanMatches]
    · have hm : scanMatches name (name ++ [0x3D] ++ []) = false := by simp [scanMatches]
      simp only [List.singleton_append, scanLines, hm, Bool.false_eq_true, if_false,
        scanMatches_line name t2 h2, if_true, drop_line, ne_eq, not_true_eq_false, h2,
        not_false_eq_true]
  · simp only [List.singleton_append, scanLines, scanMatches_line name t1 h1, if_true,
      drop_line, ne_eq, h1, not_false_eq_true]

/-- After two writes of a name that had no line in the group, the first
with a value that is not empty, the read yields the first value. -/
theorem ReadValue_Write_twice (a2w_u8 : List Nat → List Nat) (map : IniMap)
    (KeyName Name v1 v2 : List Nat) (hne : v1 ≠ []) (hlt : ∀ b ∈ v1, b < 256)
    (hfresh : scanLines Name (map.lines KeyName) = none) :
    (REGDATATBL.ReadValue false a2w_u8
      (REGDATATBL.Write (REGDATATBL.Write map KeyName Name v1) KeyName Name v2) KeyName Name).2
      = some v1 := by
  simp only [REGDATATBL.ReadValue, REGDATATBL.Scan, REGDATATBL.Write]
  rw [scanLines_push_back_twice map KeyName Name _ _ hfresh,
    if_pos (escapeValue_ne_nil v1 hne)]
  simp only [Bool.false_eq_true, if_false]
  rw [unescape_cstr_escape v1 hlt]

/-- C18 at an empty first value: after `Write(n, "")` and `Write(n, v2)`
with `v2` not empty, in a group that had no line for `n`, the read of `n`
yields `v2`, the value of the second line: `Scan` passes over the line
`n=`, which begins with the prefix `n=`. -/
theorem ReadValue_Write_twice_empty (a2w_u8 : List Nat → List Nat) (map : IniMap)
    (KeyName Name v2 : List Nat) (hne : v2 ≠ []) (hlt : ∀ b ∈ v2, b < 256)
    (hfresh : scanLines Name (map.lines KeyName) = none) :
    (REGDATATBL.Write (REGDATATBL.Write map KeyName Name []) KeyName Name v2).lines KeyName
      = map.lines KeyName ++ [Name ++ [0x3D], Name ++ [0x3D] ++ escapeValue v2] ∧
    (REGDATATBL.ReadValue false a2w_u8
      (REGDATATBL.Write (REGDATATBL.Write map KeyName Name []) KeyName Name v2) KeyName Name).2
      = some v2 := by
  constructor
  · simp [REGDATATBL.Write, IniMap.lines_push_back, escapeValue]
  · simp only [REGDATATBL.ReadValue, REGDATATBL.Scan, REGDATATBL.Write]
    rw [scanLines_push_back_twice map KeyName Name _ _ hfresh]
    have h1 : escapeValue [] = [] := rfl
    rw [h1, if_neg (by simp), if_pos (escapeValue_ne_nil v2 hne)]
    simp only [Bool.false_eq_true, if_false]
    rw [unescape_cstr_escape v2 hlt]

/-- Witness for C18 at an empty first value: the name `U` written in the
empty group `F`, first empty and then as `x`, reads as `x`. -/
theorem ReadValue_Write_twice_empty_witness :
    (REGDATATBL.ReadValue false id
      (REGDATATBL.Write (REGDATATBL.Write [] [0x46] [0x55] []) [0x46] [0x55] [0x78])
      [0x46] [0x55]).2 = some [0x78] :=
  (ReadValue_Write_twice_empty id [] [0x46] [0x55] [0x78] (by decide) (by decide) rfl).2


/-! ## The digest string without stretching -/

theorem encodeNibbles_bytes (a b c d : Nat) (ha : a < 256) (hb : b < 256) (hc : c < 256)
    (hd : d < 256) :
    encodeNibbles 8 (a * 2 ^ 24 + b * 2 ^ 16 + c * 2 ^ 8 + d)
      = [0x40 + a / 16, 0x40 + a % 16, 0x40 + b / 16, 0x40 + b % 16,
          0x40 + c / 16, 0x40 + c % 16, 0x40 + d / 16, 0x40 + d % 16] := by
  rw [encodeNibbles_succ _ _ (by omega), encodeNibbles_succ _ _ (Nat.mod_lt _ (by decide)),
    encodeNibbles_succ _ _ (Nat.mod_lt _ (by decide)),
    encodeNibbles_succ _ _ (Nat.mod_lt _ (by decide)),
    encodeNibbles_succ _ _ (Nat.mod_lt _ (by decide)),
    encodeNibbles_succ _ _ (Nat.mod_lt _ (by decide)),
    encodeNibbles_succ _ _ (Nat.mod_lt _ (by decide)),
    encodeNibbles_succ _ _ (Nat.mod_lt _ (by decide))]
  simp only [encodeNibbles]
  have e1 : (a * 2 ^ 24 + b * 2 ^ 16 + c * 2 ^ 8 + d) * 16 % 2 ^ 32
      = (a % 16) * 2 ^ 28 + b * 2 ^ 20 + c * 2 ^ 12 + d * 2 ^ 4 := by omega
  have e2 : ((a % 16) * 2 ^ 28 + b * 2 ^ 20 + c * 2 ^ 12 + d * 2 ^ 4) * 16 % 2 ^ 32
      = b * 2 ^ 24 + c * 2 ^ 16 + d * 2 ^ 8 := by omega
  have e3 : (b * 2 ^ 24 + c * 2 ^ 16 + d * 2 ^ 8) * 16 % 2 ^ 32
      = (b % 16) * 2 ^ 28 + c * 2 ^ 20 + d * 2 ^ 12 := by omega
  have e4 : ((b % 16) * 2 ^ 28 + c * 2 ^ 20 + d * 2 ^ 12) * 16 % 2 ^ 32
      = c * 2 ^ 24 + d * 2 ^ 16 := by omega
  have e5 : (c * 2 ^ 24 + d * 2 ^ 16) * 16 % 2 ^ 32 = (c % 16) * 2 ^ 28 + d * 2 ^ 20 := by omega
  have e6 : ((c % 16) * 2 ^ 28 + d * 2 ^ 20) * 16 % 2 ^ 32 = d * 2 ^ 24 := by omega
  have e7 : (d * 2 ^ 24) * 16 % 2 ^ 32 = (d % 16) * 2 ^ 28 := by omega
  rw [e1, e2, e3, e4, e5, e6, e7]
  have q0 : (a * 2 ^ 24 + b * 2 ^ 16 + c * 2 ^ 8 + d) / 2 ^ 28 + 64 = 64 + a / 16 := by omega
  have q1 : ((a % 16) * 2 ^ 28 + b * 2 ^ 20 + c * 2 ^ 12 + d * 2 ^ 4) / 2 ^ 28 + 64
      = 64 + a % 16 := by omega
  have q2 : (b * 2 ^ 24 + c * 2 ^ 16 + d * 2 ^ 8) / 2 ^ 28 + 64 = 64 + b / 16 := by omega
  have q3 : ((b % 16) * 2 ^ 28 + c * 2 ^ 20 + d * 2 ^ 12) / 2 ^ 28 + 64 = 64 + b % 16 := by
    omega
  have q4 : (c * 2 ^ 24 + d * 2 ^ 16) / 2 ^ 28 + 64 = 64 + c / 16 := by omega
  have q5 : ((c % 16) * 2 ^ 28 + d * 2 ^ 20) / 2 ^ 28 + 64 = 64 + c % 16 := by omega
  have q6 : (d * 2 ^ 24) / 2 ^ 28 + 64 = 64 + d / 16 := by omega
  have q7 : ((d % 16) * 2 ^ 28) / 2 ^ 28 + 64 = 64 + d % 16 := by omega
  rw [q0, q1, q2, q3, q4, q5, q6, q7]

theorem byteswap_wordAt (D : List Nat) (i : Nat) :
    byteswap_ulong (wordAt D i)
      = (D.getD (4 * i) 0 % 256) * 2 ^ 24 + (D.getD (4 * i + 1) 0 % 256) * 2 ^ 16
        + (D.getD (4 * i + 2) 0 % 256) * 2 ^ 8 + D.getD (4 * i + 3) 0 % 256 := by
  unfold byteswap_ulong wordAt
  omega

theorem encodeNibbles_word (D : List Nat) (i : Nat) :
    encodeNibbles 8 (byteswap_ulong (wordAt D i))
      = digestChars [D.getD (4 * i) 0 % 256, D.getD (4 * i + 1) 0 % 256,
          D.getD (4 * i + 2) 0 % 256, D.getD (4 * i + 3) 0 % 256] := by
  rw [byteswap_wordAt, encodeNibbles_bytes _ _ _ _ (Nat.mod_lt _ (by decide))
    (Nat.mod_lt _ (by decide)) (Nat.mod_lt _ (by decide)) (Nat.mod_lt _ (by decide))]
  rfl

theorem digestChars_append : ∀ a b : List Nat, digestChars (a ++ b) = digestChars a ++ digestChars b
  | [], _ => rfl
  | x :: a, b => by simp [digestChars, digestChars_append a b]

theorem hexPairs_isHexDigit : ∀ l : List Nat, ∀ c ∈ hexPairs l, isHexDigit c = true
  | [], c, hc => by simp [hexPairs] at hc
  | b :: l, c, hc => by
    simp only [hexPairs, List.mem_cons] at hc
    rcases hc with rfl | rfl | hc
    · exact hexDigitLower_isHexDigit _ (by omega)
    · exact hexDigitLower_isHexDigit _ (by omega)
    · exact hexPairs_isHexDigit l c hc

/-- C16: when the allocations, the random source and the provider succeed,
`EncodePassword` on a plaintext of `n` bytes leaves `0C`, the 32 hex digits
of the IV, a colon and the `2 * L` hex digits of the `L` encrypted bytes,
where `L = max(32, 16 * ceil(n / 16))` is a multiple of 16 with `n ≤ L` and
`32 ≤ L`; the text has `35 + 2 * L` characters, 99 for every plaintext of
at most 32 bytes. -/
theorem EncodePassword_format (P : Provider) (SecretKey Str iv : List Nat)
    (rndPad : Option (List Nat))
    (hStr : ∀ b ∈ Str, b < 256)
    (hpad : Str.length + 1 < paddedLength Str.length →
      ∃ pad, rndPad = some pad ∧ pad.length = paddedLength Str.length - Str.length - 1 ∧
        ∀ b ∈ pad, b < 256)
    (hiv : iv.length = 16)
    (halloc1 : P.alloc (paddedLength Str.length) = true)
    (halloc2 : P.alloc (strlen SecretKey + 16 + 1) = true)
    (hP : P.Succeeds) :
    ∃ encrypted, encrypted.length = paddedLength Str.length ∧
      EncodePassword P SecretKey rndPad (some iv) Str
        = [0x30, 0x43] ++ hexPairs iv ++ [0x3A] ++ hexPairs encrypted ∧
      (hexPairs iv).length = 32 ∧ (∀ c ∈ hexPairs iv, isHexDigit c = true) ∧
      (hexPairs encrypted).length = 2 * paddedLength Str.length ∧
      (∀ c ∈ hexPairs encrypted, isHexDigit c = true) ∧
      paddedLength Str.length = max 32 (16 * ((Str.length + 15) / 16)) ∧
      paddedLength Str.length % 16 = 0 ∧ Str.length ≤ paddedLength Str.length ∧
      32 ≤ paddedLength Str.length ∧
      (EncodePassword P SecretKey rndPad (some iv) Str).length
        = 35 + 2 * paddedLength Str.length ∧
      (Str.length ≤ 32 → (EncodePassword P SecretKey rndPad (some iv) Str).length = 99) := by
  have hL := paddedLength_spec Str.length
  have hLmax : paddedLength Str.length = max 32 (16 * ((Str.length + 15) / 16)) := by
    unfold paddedLength
    omega
  obtain ⟨key, hkey⟩ : ∃ key, CreateAesKey P SecretKey = some key := by
    unfold CreateAesKey
    rw [if_pos halloc2]
    exact ⟨_, rfl⟩
  have hklen := CreateAesKey_length P SecretKey key hkey
  obtain ⟨himp, hmode, hsetiv, hcbc⟩ := hP key iv hklen hiv
  -- the padded plaintext buffer
  have hbuf : ∃ buffer : List Nat,
      (if paddedLength Str.length ≤ Str.length + 1 then
          some (Str ++ List.replicate (paddedLength Str.length - Str.length) 0)
        else
          match rndPad with
          | some pad => some (Str ++ [0] ++ pad)
          | none => none) = some buffer ∧
      buffer.length = paddedLength Str.length ∧ (∀ b ∈ buffer, b < 256) := by
    by_cases hle : paddedLength Str.length ≤ Str.length + 1
    · rw [if_pos hle]
      refine ⟨_, rfl, ?_, ?_⟩
      · simp; omega
      · intro b hb
        rcases List.mem_append.mp hb with hb | hb
        · exact hStr b hb
        · rw [List.eq_of_mem_replicate hb]; decide
    · rw [if_neg hle]
      have hlt : Str.length + 1 < paddedLength Str.length := by omega
      rcases hpad hlt with ⟨pad, rfl, hplen, hplt⟩
      refine ⟨_, rfl, ?_, ?_⟩
      · simp only [List.length_append, List.length_cons, List.length_nil, hplen]
        omega
      · intro b hb
        simp only [List.mem_append, List.mem_singleton] at hb
        rcases hb with (hb | rfl) | hb
        · exact hStr b hb
        · decide
        · exact hplt b hb
  obtain ⟨buffer, hbe, hblen, hblt⟩ := hbuf
  obtain ⟨encrypted, henc, helen, _, _⟩ := hcbc buffer (by rw [hblen]; exact hL.2.2) hblt
  have hout : EncodePassword P SecretKey rndPad (some iv) Str
      = [0x30, 0x43] ++ hexPairs iv ++ [0x3A] ++ hexPairs encrypted := by
    unfold EncodePassword
    rw [if_neg (by rw [halloc1]; simp), hbe]
    simp only [hkey, himp, hmode, hsetiv, henc, Bool.and_true, Bool.true_and, if_true]
  have hlen : (EncodePassword P SecretKey rndPad (some iv) Str).length
      = 35 + 2 * paddedLength Str.length := by
    rw [hout]
    simp only [List.length_append, List.length_cons, List.length_nil, hexPairs_length, hiv,
      helen, hblen]
  refine ⟨encrypted, by rw [helen, hblen], hout, by rw [hexPairs_length, hiv],
    hexPairs_isHexDigit iv, by rw [hexPairs_length, helen, hblen], hexPairs_isHexDigit encrypted,
    hLmax, hL.2.2, hL.1, hL.2.1, hlen, ?_⟩
  intro hn
  rw [hlen]
  have : paddedLength Str.length = 32 := by
    unfold paddedLength
    omega
  omega

/-- Witness for C16: the plaintext `abc` with 28 padding bytes and the
empty secret key under the evaluation provider yields 99 characters. -/
theorem EncodePassword_format_witness :
    (EncodePassword toyProvider [0] (some (List.replicate 28 9)) (some (List.replicate 16 7))
      [0x61, 0x62, 0x63]).length = 99 := by
  obtain ⟨_, _, _, _, _, _, _, _, _, _, _, _, h⟩ :=
    EncodePassword_format toyProvider [0] [0x61, 0x62, 0x63] (List.replicate 16 7)
      (some (List.replicate 28 9)) (by decide)
      (fun _ => ⟨List.replicate 28 9, rfl, by decide, by decide⟩) rfl rfl rfl
      toyProvider_succeeds
  exact h (by decide)


/-! ## Failure of a provider step -/

theorem readHexPairs_some : ∀ (items Str : List Nat), 2 * items.length ≤ Str.length →
    ∃ out, readHexPairs items Str = some (out, Str.drop (2 * items.length))
  | [], Str, _ => ⟨[], rfl⟩
  | item :: items, [], h => by simp at h
  | item :: items, [c0], h => by simp at h; omega
  | item :: items, c0 :: c1 :: Str, h => by
    obtain ⟨out, hout⟩ := readHexPairs_some items Str (by simp at h; omega)
    refine ⟨from_chars2 c0 c1 item :: out, ?_⟩
    have e : 2 * (item :: items).length = 2 * items.length + 1 + 1 := by
      simp only [List.length_cons]
      omega
    simp only [readHexPairs, hout, e, List.drop_succ_cons]

/-- The ways `EncodePassword` ends: with the empty string, or with every
step done and the text of the encrypted buffer. -/
theorem EncodePassword_cases (P : Provider) (SecretKey : List Nat)
    (rndPad rndIv : Option (List Nat)) (Str : List Nat) :
    EncodePassword P SecretKey rndPad rndIv Str = [] ∨
    ∃ key iv buffer encrypted,
      P.alloc (paddedLength Str.length) = true ∧
      (Str.length + 1 < paddedLength Str.length → rndPad ≠ none) ∧
      rndIv = some iv ∧ CreateAesKey P SecretKey = some key ∧
      P.CryptImportKey key = true ∧ P.CryptSetKeyParam_MODE key = true ∧
      P.CryptSetKeyParam_IV key iv = true ∧ P.CryptEncrypt key iv buffer = some encrypted ∧
      EncodePassword P SecretKey rndPad rndIv Str
        = [0x30, 0x43] ++ hexPairs iv ++ [0x3A] ++ hexPairs encrypted := by
  unfold EncodePassword
  by_cases halloc : P.alloc (paddedLength Str.length) = false
  · left
    rw [if_pos halloc]
  · rw [if_neg halloc]
    have halloc' : P.alloc (paddedLength Str.length) = true := by simpa using halloc
    cases hiv : rndIv with
    | none =>
      left
      split <;> simp_all
    | some iv =>
      cases hkey : CreateAesKey P SecretKey with
      | none =>
        left
        by_cases hle : paddedLength Str.length ≤ Str.length + 1
        · simp only [if_pos hle]
        · cases rndPad <;> simp only [if_neg hle]
      | some key =>
        by_cases hle : paddedLength Str.length ≤ Str.length + 1
        · simp only [if_pos hle]
          by_cases hsteps : (P.CryptImportKey key && P.CryptSetKeyParam_MODE key
              && P.CryptSetKeyParam_IV key iv) = true
          · simp only [hsteps, if_true]
            cases henc : P.CryptEncrypt key iv
                (Str ++ List.replicate (paddedLength Str.length - Str.length) 0) with
            | none => left; rfl
            | some encrypted =>
              right
              simp only [Bool.and_eq_true] at hsteps
              exact ⟨key, iv, _, encrypted, halloc', fun h => absurd h (by omega), rfl, rfl,
                hsteps.1.1, hsteps.1.2, hsteps.2, henc, rfl⟩
          · left
            simp only [hsteps, Bool.false_eq_true, if_false]
        · simp only [if_neg hle]
          cases hpad : rndPad with
          | none => left; rfl
          | some pad =>
            by_cases hsteps : (P.CryptImportKey key && P.CryptSetKeyParam_MODE key
                && P.CryptSetKeyParam_IV key iv) = true
            · simp only [hsteps, if_true]
              cases henc : P.CryptEncrypt key iv (Str ++ [0] ++ pad) with
              | none => left; rfl
              | some encrypted =>
                right
                simp only [Bool.and_eq_true] at hsteps
                exact ⟨key, iv, _, encrypted, halloc', fun _ => by simp, rfl, rfl,
                  hsteps.1.1, hsteps.1.2, hsteps.2, henc, rfl⟩
            · left
              simp only [hsteps, Bool.false_eq_true, if_false]

/-- The ways `DecodePassword3` ends on a NUL-terminated input: with the
empty string, or with every step done and the string in the decrypted
buffer.  It never reads outside the input. -/
theorem DecodePassword3_cases (P : Provider) (SecretKey stack s tail : List Nat)
    (hs : ∀ c ∈ s, c ≠ 0) :
    DecodePassword3 P SecretKey stack (s ++ 0 :: tail) = some [] ∨
    ∃ key iv buffer decrypted,
      P.alloc ((s.length - 1) / 2 - 16 + 1) = true ∧ CreateAesKey P SecretKey = some key ∧
      P.CryptImportKey key = true ∧ P.CryptSetKeyParam_MODE key = true ∧
      P.CryptSetKeyParam_IV key iv = true ∧ P.CryptDecrypt key iv buffer = some decrypted ∧
      DecodePassword3 P SecretKey stack (s ++ 0 :: tail) = some (cstr (decrypted ++ [0])) := by
  unfold DecodePassword3
  rw [strlenIn_append s tail hs]
  simp only []
  by_cases hlen : 16 * 2 + 1 < s.length
  · rw [if_pos hlen]
    by_cases halloc : P.alloc ((s.length - 1) / 2 - 16 + 1) = false
    · left
      rw [if_pos halloc]
    · rw [if_neg halloc]
      have halloc' : P.alloc ((s.length - 1) / 2 - 16 + 1) = true := by simpa using halloc
      obtain ⟨iv, hiv⟩ := readHexPairs_some ((List.range 16).map fun j => stack.getD j 0 % 256)
        (s ++ 0 :: tail) (by simp; omega)
      have hdrop : (s ++ 0 :: tail).drop
          (2 * ((List.range 16).map fun j => stack.getD j 0 % 256).length)
          = s.drop 32 ++ 0 :: tail := by
        have e : 2 * ((List.range 16).map fun j => stack.getD j 0 % 256).length = 32 := by simp
        rw [e, List.drop_append_of_le_length (by omega)]
      rw [hdrop] at hiv
      rw [hiv]
      simp only []
      obtain ⟨c, r, hcr⟩ : ∃ c r, s.drop 32 = c :: r := by
        cases h : s.drop 32 with
        | nil =>
          have := congrArg List.length h
          simp at this
          omega
        | cons c r => exact ⟨c, r, rfl⟩
      have hrlen : r.length = s.length - 33 := by
        have := congrArg List.length hcr
        simp at this
        omega
      rw [hcr, List.cons_append]
      simp only []
      by_cases hc : c = 0x3A
      · rw [if_pos hc]
        cases hkey : CreateAesKey P SecretKey with
        | none => left; rfl
        | some key =>
          simp only []
          obtain ⟨buffer, hbuf⟩ := readHexPairs_some
            (List.replicate ((s.length - 1) / 2 - 16) 0) (r ++ 0 :: tail)
            (by simp [hrlen]; omega)
          rw [hbuf]
          simp only []
          by_cases hsteps : (P.CryptImportKey key && P.CryptSetKeyParam_MODE key
              && P.CryptSetKeyParam_IV key iv) = true
          · simp only [hsteps, if_true]
            cases hdec : P.CryptDecrypt key iv buffer with
            | none => left; rfl
            | some decrypted =>
              right
              simp only [Bool.and_eq_true] at hsteps
              exact ⟨key, iv, buffer, decrypted, halloc', rfl, hsteps.1.1, hsteps.1.2,
                hsteps.2, hdec, rfl⟩
          · left
            simp only [hsteps, Bool.false_eq_true, if_false]
      · left
        rw [if_neg hc]
  · left
    rw [if_neg hlen]

/-- C15: `EncodePassword` leaves the empty string when an allocation or a
call of the random source fails, when `CreateAesKey` fails, or when key
import, setting the mode, setting the IV or the encryption fails, also
after tag and IV were written; `DecodePassword3` on a NUL-terminated input
returns the empty string under the same failures of allocation, key, mode,
IV or decryption, and in every case returns a string, without a read
outside its input. -/
theorem EncodePassword_DecodePassword3_failure (P : Provider)
    (SecretKey stack s tail Str : List Nat) (rndPad rndIv : Option (List Nat))
    (hs : ∀ c ∈ s, c ≠ 0) :
    ((P.alloc (paddedLength Str.length) = false ∨
        (Str.length + 1 < paddedLength Str.length ∧ rndPad = none) ∨ rndIv = none ∨
        CreateAesKey P SecretKey = none ∨
        (∀ key, P.CryptImportKey key = false) ∨ (∀ key, P.CryptSetKeyParam_MODE key = false) ∨
        (∀ key iv, P.CryptSetKeyParam_IV key iv = false) ∨
        (∀ key iv buffer, P.CryptEncrypt key iv buffer = none)) →
      EncodePassword P SecretKey rndPad rndIv Str = []) ∧
    ((P.alloc ((s.length - 1) / 2 - 16 + 1) = false ∨ CreateAesKey P SecretKey = none ∨
        (∀ key, P.CryptImportKey key = false) ∨ (∀ key, P.CryptSetKeyParam_MODE key = false) ∨
        (∀ key iv, P.CryptSetKeyParam_IV key iv = false) ∨
        (∀ key iv buffer, P.CryptDecrypt key iv buffer = none)) →
      DecodePassword3 P SecretKey stack (s ++ 0 :: tail) = some []) ∧
    ∃ out, DecodePassword3 P SecretKey stack (s ++ 0 :: tail) = some out := by
  refine ⟨?_, ?_, ?_⟩
  · intro hfail
    rcases EncodePassword_cases P SecretKey rndPad rndIv Str with h | h
    · exact h
    · exfalso
      obtain ⟨key, iv, buffer, encrypted, halloc, hpad, hiv, hkey, himp, hmode, hsetiv, henc, _⟩
        := h
      rcases hfail with h | ⟨h1, h2⟩ | h | h | h | h | h | h
      · rw [h] at halloc; exact absurd halloc (by simp)
      · exact hpad h1 h2
      · rw [h] at hiv; exact absurd hiv (by simp)
      · rw [h] at hkey; exact absurd hkey (by simp)
      · rw [h key] at himp; exact absurd himp (by simp)
      · rw [h key] at hmode; exact absurd hmode (by simp)
      · rw [h key iv] at hsetiv; exact absurd hsetiv (by simp)
      · rw [h key iv buffer] at henc; exact absurd henc (by simp)
  · intro hfail
    rcases DecodePassword3_cases P SecretKey stack s tail hs with h | h
    · exact h
    · exfalso
      obtain ⟨key, iv, buffer, decrypted, halloc, hkey, himp, hmode, hsetiv, hdec, _⟩ := h
      rcases hfail with h | h | h | h | h | h
      · rw [h] at halloc; exact absurd halloc (by simp)
      · rw [h] at hkey; exact absurd hkey (by simp)
      · rw [h key] at himp; exact absurd himp (by simp)
      · rw [h key] at hmode; exact absurd hmode (by simp)
      · rw [h key iv] at hsetiv; exact absurd hsetiv (by simp)
      · rw [h key iv buffer] at hdec; exact absurd hdec (by simp)
  · rcases DecodePassword3_cases P SecretKey stack s tail hs with h | h
    · exact ⟨_, h⟩
    · obtain ⟨_, _, _, decrypted, _, _, _, _, _, _, h⟩ := h
      exact ⟨_, h⟩

/-- Witness for C15: with a provider that refuses the key import, the
plaintext `a` encodes to the empty string, and a text of 32 digits, a
colon and 64 digits decodes to the empty string. -/
theorem EncodePassword_DecodePassword3_failure_witness :
    EncodePassword refusingProvider [0] (some (List.replicate 30 9))
        (some (List.replicate 16 7)) [0x61] = [] ∧
      DecodePassword3 refusingProvider [0] []
        ((List.replicate 32 0x30 ++ [0x3A] ++ List.replicate 64 0x30) ++ 0 :: []) = some [] :=
  ⟨(EncodePassword_DecodePassword3_failure refusingProvider [0] []
      (List.replicate 32 0x30 ++ [0x3A] ++ List.replicate 64 0x30) [] [0x61]
      (some (List.replicate 30 9)) (some (List.replicate 16 7)) (by decide)).1
      (Or.inr (Or.inr (Or.inr (Or.inr (Or.inl (fun _ => rfl)))))),
    (EncodePassword_DecodePassword3_failure refusingProvider [0] []
      (List.replicate 32 0x30 ++ [0x3A] ++ List.replicate 64 0x30) [] [0x61]
      (some (List.replicate 30 9)) (some (List.replicate 16 7)) (by decide)).2.1
      (Or.inr (Or.inr (Or.inl (fun _ => rfl))))⟩


/-! ## Guards of `SaveRegistry` -/

/-- C20: when the master-password status is `PASSWORD_UNMATCH`, or
`EncryptSettingsError` is `YES`, or `ReadOnlySettings` is `YES`,
`SaveRegistry` returns before it opens a store and before it hashes
anything: the file and the variables afterwards are those before, whatever
would have been written and whether or not the file can be written. -/
theorem SaveRegistry_guarded (C : Consts) (P : Provider) (ReadOnlySettings : Bool)
    (EncryptAllSettings : Int) (tick ft0 ft2 ft3 : Nat) (rndPad rndIv : Option (List Nat))
    (subgroupWrites : List (List Nat × List Nat)) (canWrite : Bool)
    (file : Option (List Nat)) (g : Statics)
    (hguard : g.IsMasterPasswordError = PasswordStatus.PASSWORD_UNMATCH ∨
      g.EncryptSettingsError = true ∨ ReadOnlySettings = true) :
    SaveRegistry C P ReadOnlySettings EncryptAllSettings tick ft0 ft2 ft3 rndPad rndIv
      subgroupWrites canWrite file g = some (g, file) := by
  unfold SaveRegistry
  rcases hguard with h | h | h
  · rw [if_pos h]
  · by_cases h1 : g.IsMasterPasswordError = PasswordStatus.PASSWORD_UNMATCH
    · rw [if_pos h1]
    · rw [if_neg h1, if_pos h]
  · by_cases h1 : g.IsMasterPasswordError = PasswordStatus.PASSWORD_UNMATCH
    · rw [if_pos h1]
    · by_cases h2 : g.EncryptSettingsError = true
      · rw [if_neg h1, if_pos h2]
      · rw [if_neg h1, if_neg h2, if_pos h]

/-- Witness for C20: a file whose stored digest is not that of the master
password `pw` sets the status to `PASSWORD_UNMATCH`, and a save under that
status leaves the variables and the file as they are. -/
theorem SaveRegistry_guarded_witness :
    (ValidateMasterPassword ⟨1980, 1, 127, ascii "DefaultPassword", ascii "# settings"⟩
        toyProvider.hash id
        (some (ascii "[FFFTP]\nCredentialSalt=0\nCredentialCheck="
          ++ List.replicate 40 0x40 ++ [0x0A]))
        false none [] []
        (SetMasterPassword ⟨1980, 1, 127, ascii "DefaultPassword", ascii "# settings"⟩
          (some (ascii "pw")) ⟨[], 0, PasswordStatus.PASSWORD_OK, false, false, false⟩)).map
        (fun checked => checked.1.IsMasterPasswordError)
      = some PasswordStatus.PASSWORD_UNMATCH ∧
    SaveRegistry ⟨1980, 1, 127, ascii "DefaultPassword", ascii "# settings"⟩ toyProvider false 0
      0x12345678 11 22 33 (some []) (some (List.replicate 16 7)) [] true
      (some (ascii "[FFFTP]\nCredentialSalt=0\nCredentialCheck="
        ++ List.replicate 40 0x40 ++ [0x0A]))
      ⟨[0x70, 0x77, 0, 0, 0, 0, 0], 7, PasswordStatus.PASSWORD_UNMATCH, false, false, false⟩
      = some (⟨[0x70, 0x77, 0, 0, 0, 0, 0], 7, PasswordStatus.PASSWORD_UNMATCH,
          false, false, false⟩,
        some (ascii "[FFFTP]\nCredentialSalt=0\nCredentialCheck="
          ++ List.replicate 40 0x40 ++ [0x0A])) :=
  ⟨by decide, SaveRegistry_guarded _ _ _ _ _ _ _ _ _ _ _ _ _ _ (Or.inl rfl)⟩


/-! ## Multi-string reads -/

theorem multiEntriesFrom_entry (rest : List Nat) : ∀ (e acc : List Nat), (∀ c ∈ e, c ≠ 0) →
    multiEntriesFrom (e ++ 0 :: rest) acc = (acc.reverse ++ e) :: multiEntriesFrom rest []
  | [], acc, _ => by simp [multiEntriesFrom]
  | c :: e, acc, h => by
    have hc : c ≠ 0 := h c (List.mem_cons_self _ _)
    have ih := multiEntriesFrom_entry rest e (c :: acc)
      (fun d hd => h d (List.mem_cons_of_mem _ hd))
    rw [List.cons_append, multiEntriesFrom, if_neg hc, ih]
    simp

theorem multiEntries_joinEntries : ∀ es : List (List Nat), (∀ e ∈ es, ∀ c ∈ e, c ≠ 0) →
    multiEntries (joinEntries es) = es
  | [], _ => rfl
  | e :: es, h => by
    have ih := multiEntries_joinEntries es (fun e' he' => h e' (List.mem_cons_of_mem _ he'))
    unfold multiEntries at ih ⊢
    have e1 : joinEntries (e :: es) = e ++ 0 :: joinEntries es := by simp [joinEntries]
    rw [e1, multiEntriesFrom_entry _ e [] (h e (List.mem_cons_self _ _)), ih]
    rfl

theorem joinEntries_append : ∀ a b : List (List Nat),
    joinEntries (a ++ b) = joinEntries a ++ joinEntries b
  | [], _ => rfl
  | e :: a, b => by simp [joinEntries, joinEntries_append a b]

/-- C19 at a value that does not fit: the stored value `ab\0cd\0` read
with capacity 5 leaves `ab\0c\0` in the destination, which cuts the entry
`cd` and is not made of whole entries followed by the closing NUL. -/
theorem ReadMultiStringFromReg_cuts_entry :
    Config.ReadMultiStringFromReg (fun _ => 0) (fun _ => []) false [] [0x46] [0x42]
        (some [0x61, 0x62, 0, 0x63, 0x64, 0]) (List.replicate 5 0xFF) 5
      = (Status.FFFTP_SUCCESS, [0x61, 0x62, 0, 0x63, 0]) ∧
    multiEntries [0x61, 0x62, 0, 0x63, 0x64, 0] = [[0x61, 0x62], [0x63, 0x64]] ∧
    ¬ WholeEntries [0x61, 0x62, 0, 0x63, 0x64, 0] [0x61, 0x62, 0, 0x63, 0] := by
  decide

/-- C19 as the code has it: with masking off and a capacity of at least
one byte, `ReadMultiStringFromReg` leaves the first `min(size, Size - 1)`
bytes of the stored value and one NUL behind them, and the bytes of the
destination behind that as they were.  When the stored value is a list of
NUL-terminated entries and that many bytes are exactly its first `k`
entries, as when the whole value fits, the destination holds a well-formed
multi-string of whole entries. -/
theorem ReadMultiStringFromReg_truncates (StrMultiLen : List Nat → Nat)
    (hash : List Nat → List Nat) (key KeyName Name read Str : List Nat) (Size : Nat)
    (hSize : 0 < Size) :
    Config.ReadMultiStringFromReg StrMultiLen hash false key KeyName Name (some read) Str Size
      = (Status.FFFTP_SUCCESS,
          read.take (min read.length (Size - 1)) ++ [0]
            ++ Str.drop (min read.length (Size - 1) + 1)) ∧
    ∀ (es : List (List Nat)) (k : Nat), (∀ e ∈ es, ∀ c ∈ e, c ≠ 0) → read = joinEntries es →
      k ≤ es.length → (joinEntries (es.take k)).length = min read.length (Size - 1) →
      WholeEntries read
        (Config.ReadMultiStringFromReg StrMultiLen hash false key KeyName Name (some read)
          Str Size).2 := by
  have hval : Config.ReadMultiStringFromReg StrMultiLen hash false key KeyName Name (some read)
      Str Size = (Status.FFFTP_SUCCESS,
        read.take (min read.length (Size - 1)) ++ [0]
          ++ Str.drop (min read.length (Size - 1) + 1)) := by
    have hne : Size ≠ 0 := by omega
    simp only [Config.ReadMultiStringFromReg, if_neg hne, memcpyAt, Bool.false_eq_true, if_false,
      List.take_zero, List.nil_append, Nat.zero_add, List.length_append, List.length_take,
      List.length_cons, List.length_nil]
    congr 3
    omega
  refine ⟨hval, ?_⟩
  intro es k hes hread hk hcut
  rw [hval]
  have hsplit : read = joinEntries (es.take k) ++ joinEntries (es.drop k) := by
    rw [hread, ← joinEntries_append, List.take_append_drop]
  have htake : read.take (min read.length (Size - 1)) = joinEntries (es.take k) := by
    rw [← hcut]
    conv_lhs => rw [hsplit]
    exact List.take_left' rfl
  refine ⟨k, List.mem_range.mpr (by
    rw [hread, multiEntries_joinEntries es hes]; omega), ?_⟩
  rw [hread, multiEntries_joinEntries es hes, ← hread, htake]
  exact ⟨_, rfl⟩

/-- Witness for C19 as the code has it: the stored value `ab\0cd\0` read
with capacity 7 fits and is left whole. -/
theorem ReadMultiStringFromReg_truncates_witness :
    Config.ReadMultiStringFromReg (fun _ => 0) (fun _ => []) false [] [0x46] [0x42]
        (some [0x61, 0x62, 0, 0x63, 0x64, 0]) (List.replicate 7 0xFF) 7
      = (Status.FFFTP_SUCCESS, [0x61, 0x62, 0, 0x63, 0x64, 0, 0]) :=
  (ReadMultiStringFromReg_truncates (fun _ => 0) (fun _ => []) [] [0x46] [0x42]
    [0x61, 0x62, 0, 0x63, 0x64, 0] (List.replicate 7 0xFF) 7 (by decide)).1


/-! ## Version fix-ups of `LoadRegistry` -/

/-- C13: for a store whose `Version` entry reads `v`, `LoadRegistry` sets
`IniKanjiCode` to `KANJI_SJIS` exactly when `v < 1980` and otherwise leaves
it as it was; in every host record `NameKanjiCode` is preset to
`KANJI_SJIS` before the stored value is applied exactly when `v < 1980`,
`Pasv` and `ListCmdOnly` are preset to `NO` exactly when `v < 1921`, a
loaded `KANJI_UTF8N` becomes `KANJI_UTF8BOM` exactly when `v < 1983`, and
`ReuseCmdSkt` is forced to `NO` exactly when `v < 1985` and
`MaxThreadCount > 1`.  For `v ≥ 1980` an `IniKanjiCode` that was not
`KANJI_SJIS` is not afterwards; for `v ≥ 1986` the record is the default
record with the stored values applied, and the variables are unchanged. -/
theorem LoadRegistry_version_fixups (K : KanjiConsts) (hash : List Nat → List Nat)
    (hKey3 hKey5 : OpenedStore) (Version0 v : Int) (g gh : Statics) (KeyName : List Nat)
    (Host : HOSTDATA)
    (hv : hKey3.ReadInt (ascii "Version") = some v) (hE : g.EncryptSettings = false) :
    (LoadRegistry.readVersion hash hKey3 Version0 g).2 = v ∧
    (LoadRegistry.readVersion hash hKey3 Version0 g).1
      = (if v < 1980 then { g with sjis := true } else g) ∧
    (LoadRegistry.readHost K hash gh KeyName hKey5 v Host).NameKanjiCode
      = hKey5.ReadIntValueFromReg hash gh KeyName "NameKanji"
          (if v < 1980 then K.KANJI_SJIS else Host.NameKanjiCode) ∧
    (LoadRegistry.readHost K hash gh KeyName hKey5 v Host).Pasv
      = hKey5.ReadIntValueFromReg hash gh KeyName "Pasv"
          (if v < 1921 then K.NO else Host.Pasv) ∧
    (LoadRegistry.readHost K hash gh KeyName hKey5 v Host).ListCmdOnly
      = hKey5.ReadIntValueFromReg hash gh KeyName "List"
          (if v < 1921 then K.NO else Host.ListCmdOnly) ∧
    (LoadRegistry.readHost K hash gh KeyName hKey5 v Host).KanjiCode
      = (if v < 1983 ∧
            hKey5.ReadIntValueFromReg hash gh KeyName "Kanji" Host.KanjiCode = K.KANJI_UTF8N
          then K.KANJI_UTF8BOM
          else hKey5.ReadIntValueFromReg hash gh KeyName "Kanji" Host.KanjiCode) ∧
    (LoadRegistry.readHost K hash gh KeyName hKey5 v Host).MaxThreadCount
      = hKey5.ReadIntValueFromReg hash gh KeyName "ThreadCount" Host.MaxThreadCount ∧
    (LoadRegistry.readHost K hash gh KeyName hKey5 v Host).ReuseCmdSkt
      = (if v < 1985 ∧
            hKey5.ReadIntValueFromReg hash gh KeyName "ThreadCount" Host.MaxThreadCount > 1
          then K.NO
          else hKey5.ReadIntValueFromReg hash gh KeyName "ReuseCmdSkt" Host.ReuseCmdSkt) ∧
    (1980 ≤ v → g.sjis = false →
      (LoadRegistry.readVersion hash hKey3 Version0 g).1.sjis = false) ∧
    (1986 ≤ v →
      (LoadRegistry.readVersion hash hKey3 Version0 g).1 = g ∧
      LoadRegistry.readHost K hash gh KeyName hKey5 v Host
        = { KanjiCode := hKey5.ReadIntValueFromReg hash gh KeyName "Kanji" Host.KanjiCode
            NameKanjiCode :=
              hKey5.ReadIntValueFromReg hash gh KeyName "NameKanji" Host.NameKanjiCode
            Pasv := hKey5.ReadIntValueFromReg hash gh KeyName "Pasv" Host.Pasv
            ListCmdOnly := hKey5.ReadIntValueFromReg hash gh KeyName "List" Host.ListCmdOnly
            MaxThreadCount :=
              hKey5.ReadIntValueFromReg hash gh KeyName "ThreadCount" Host.MaxThreadCount
            ReuseCmdSkt :=
              hKey5.ReadIntValueFromReg hash gh KeyName "ReuseCmdSkt" Host.ReuseCmdSkt }) := by
  have hver : hKey3.ReadIntValueFromReg hash g (ascii "FFFTP") "Version" Version0 = v := by
    simp only [OpenedStore.ReadIntValueFromReg, hv, Config.ReadIntValueFromReg, hE,
      Bool.false_eq_true, if_false]
  refine ⟨?_, ?_, ?_, ?_, ?_, ?_, ?_, ?_, ?_, ?_⟩
  · simp only [LoadRegistry.readVersion, hver]
  · simp only [LoadRegistry.readVersion, hver]
  · simp only [LoadRegistry.readHost]
  · simp only [LoadRegistry.readHost]
  · simp only [LoadRegistry.readHost]
  · simp only [LoadRegistry.readHost]
    split_ifs <;> simp_all
  · simp only [LoadRegistry.readHost]
  · simp only [LoadRegistry.readHost]
    split_ifs <;> simp_all
  · intro h80 hs
    have h2 : ¬ v < 1980 := by omega
    simp only [LoadRegistry.readVersion, hver, if_neg h2, hs]
  · intro h86
    have h1 : ¬ v < 1921 := by omega
    have h2 : ¬ v < 1980 := by omega
    have h3 : ¬ v < 1983 := by omega
    have h4 : ¬ v < 1985 := by omega
    constructor
    · simp only [LoadRegistry.readVersion, hver, if_neg h2]
    · simp only [LoadRegistry.readHost, if_neg h1, if_neg h2, if_neg h3, if_neg h4]

/-- Witness for C13: a store with `Version` 1975 and a host sub-group
without entries gives the Shift_JIS defaults, `KANJI_UTF8BOM` and
`ReuseCmdSkt = NO`; a store with
`Version` 1988 leaves the variables and the default record as they were. -/
theorem LoadRegistry_version_fixups_witness :
    ((LoadRegistry.readVersion (fun _ => []) ⟨fun _ => some 1975, fun _ => none⟩ 0
        ⟨[], 0, PasswordStatus.PASSWORD_OK, false, false, false⟩).1.sjis = true ∧
      (LoadRegistry.readHost ⟨0, 0, 5, 6⟩ (fun _ => [])
        ⟨[], 0, PasswordStatus.PASSWORD_OK, false, false, false⟩ [0x48]
        ⟨fun _ => none, fun _ => none⟩ 1975 ⟨5, 2, 1, 1, 2, 1⟩) = ⟨6, 0, 1, 1, 2, 0⟩) ∧
    ((LoadRegistry.readVersion (fun _ => []) ⟨fun _ => some 1988, fun _ => none⟩ 0
        ⟨[], 0, PasswordStatus.PASSWORD_OK, false, false, false⟩).1.sjis = false ∧
      (LoadRegistry.readHost ⟨0, 0, 5, 6⟩ (fun _ => [])
        ⟨[], 0, PasswordStatus.PASSWORD_OK, false, false, false⟩ [0x48]
        ⟨fun _ => none, fun _ => none⟩ 1988 ⟨5, 2, 1, 1, 2, 1⟩) = ⟨5, 2, 1, 1, 2, 1⟩) :=
  ⟨⟨by
      rw [(LoadRegistry_version_fixups ⟨0, 0, 5, 6⟩ (fun _ => [])
        ⟨fun _ => some 1975, fun _ => none⟩ ⟨fun _ => none, fun _ => none⟩ 0 1975
        ⟨[], 0, PasswordStatus.PASSWORD_OK, false, false, false⟩
        ⟨[], 0, PasswordStatus.PASSWORD_OK, false, false, false⟩ [0x48] ⟨5, 2, 1, 1, 2, 1⟩
        rfl rfl).2.1]
      rfl,
    by decide⟩,
   ⟨(LoadRegistry_version_fixups ⟨0, 0, 5, 6⟩ (fun _ => [])
        ⟨fun _ => some 1988, fun _ => none⟩ ⟨fun _ => none, fun _ => none⟩ 0 1988
        ⟨[], 0, PasswordStatus.PASSWORD_OK, false, false, false⟩
        ⟨[], 0, PasswordStatus.PASSWORD_OK, false, false, false⟩ [0x48] ⟨5, 2, 1, 1, 2, 1⟩
        rfl rfl).2.2.2.2.2.2.2.2.1 (by decide) rfl,
    ((LoadRegistry_version_fixups ⟨0, 0, 5, 6⟩ (fun _ => [])
        ⟨fun _ => some 1988, fun _ => none⟩ ⟨fun _ => none, fun _ => none⟩ 0 1988
        ⟨[], 0, PasswordStatus.PASSWORD_OK, false, false, false⟩
        ⟨[], 0, PasswordStatus.PASSWORD_OK, false, false, false⟩ [0x48] ⟨5, 2, 1, 1, 2, 1⟩
        rfl rfl).2.2.2.2.2.2.2.2.2 (by decide)).2⟩⟩


/-! ## The stretched hash -/

theorem wordBytes_byteswap_wordAt (D : List Nat) (i : Nat) :
    wordBytes (byteswap_ulong (wordAt D i))
      = [D.getD (4 * i + 3) 0 % 256, D.getD (4 * i + 2) 0 % 256,
          D.getD (4 * i + 1) 0 % 256, D.getD (4 * i) 0 % 256] := by
  rw [byteswap_wordAt]
  unfold wordBytes
  congr 1
  · omega
  · congr 1
    · omega
    · congr 1
      · omega
      · congr 1
        omega

theorem sha1_eq_list (hash : List Nat → List Nat) (X : List Nat) :
    sha1 hash X = (List.range 20).map fun j => (sha1 hash X).getD j 0 := by
  apply List.ext_getElem
  · simp [sha1]
  · intro n h1 h2
    simp only [List.getElem_map, List.getElem_range]
    rw [List.getD_eq_getElem?_getD, List.getElem?_eq_getElem h1]
    rfl

theorem wordsBytes_sha_memory (hash : List Nat → List Nat) (X : List Nat) :
    wordsBytes (sha_memory hash X) = reverseWordBytes (sha1 hash X) := by
  have hD : ∀ j, (sha1 hash X).getD j 0 % 256 = (sha1 hash X).getD j 0 := by
    intro j
    apply Nat.mod_eq_of_lt
    exact getD_lt_of_forall_lt _ _ (sha1_lt hash X)
  have hw : wordsBytes (sha_memory hash X)
      = wordBytes (byteswap_ulong (wordAt (sha1 hash X) 0))
        ++ (wordBytes (byteswap_ulong (wordAt (sha1 hash X) 1))
        ++ (wordBytes (byteswap_ulong (wordAt (sha1 hash X) 2))
        ++ (wordBytes (byteswap_ulong (wordAt (sha1 hash X) 3))
        ++ (wordBytes (byteswap_ulong (wordAt (sha1 hash X) 4)) ++ [])))) := rfl
  rw [hw]
  simp only [wordBytes_byteswap_wordAt, hD, Nat.reduceMul, Nat.reduceAdd, List.cons_append,
    List.nil_append, List.append_nil]
  conv_rhs => rw [sha1_eq_list]
  rfl

theorem stretchRounds_digest (hash : List Nat → List Nat) (Password : List Nat) :
    ∀ (n : Nat) (X : List Nat) (log : List (List Nat)),
      stretchRounds hash Password n (sha_memory hash X) log
        = (sha_memory hash
              ((fun M => reverseWordBytes (sha1 hash M) ++ Password)^[n] X),
            log ++ (List.range n).map fun i =>
              (fun M => reverseWordBytes (sha1 hash M) ++ Password)^[i + 1] X)
  | 0, X, log => by simp [stretchRounds]
  | n + 1, X, log => by
    rw [stretchRounds, wordsBytes_sha_memory, stretchRounds_digest hash Password n]
    simp only [Function.iterate_succ, Function.comp_apply, List.range_succ_eq_map, List.map_cons,
      List.map_map, Function.iterate_zero, id_eq, List.append_assoc, List.singleton_append]
    rfl

theorem sha1_iterate_stretch (hash : List Nat → List Nat) (Password : List Nat) :
    ∀ n : Nat, sha1 hash ((fun M => reverseWordBytes (sha1 hash M) ++ Password)^[n] Password)
      = stretchDigest hash Password n
  | 0 => rfl
  | n + 1 => by
    rw [Function.iterate_succ_apply', stretchDigest]
    rw [sha1_iterate_stretch hash Password n]

theorem iterate_stretch_message (hash : List Nat → List Nat) (Password : List Nat) (i : Nat) :
    (fun M => reverseWordBytes (sha1 hash M) ++ Password)^[i + 1] Password
      = reverseWordBytes (stretchDigest hash Password i) ++ Password := by
  rw [Function.iterate_succ_apply']
  rw [sha1_iterate_stretch hash Password i]

theorem encodeWords_sha_memory (hash : List Nat → List Nat) (M : List Nat) :
    encodeWords (sha_memory hash M) 5 0 = digestChars (sha1 hash M) := by
  have hD : ∀ j, j < 20 → (sha1 hash M).getD j 0 % 256 = (sha1 hash M).getD j 0 := by
    intro j _
    apply Nat.mod_eq_of_lt
    exact getD_lt_of_forall_lt _ _ (sha1_lt hash M)
  have hw : ∀ i, i < 5 → (sha_memory hash M).getD i 0
      = byteswap_ulong (wordAt (sha1 hash M) i) := by
    intro i hi
    simp only [sha_memory]
    rw [List.getD_eq_getElem?_getD, List.getElem?_eq_getElem (by simpa using hi)]
    simp
  have hcph : encodeWords (sha_memory hash M) 5 0
      = encodeNibbles 8 ((sha_memory hash M).getD 0 0)
        ++ (encodeNibbles 8 ((sha_memory hash M).getD 1 0)
        ++ (encodeNibbles 8 ((sha_memory hash M).getD 2 0)
        ++ (encodeNibbles 8 ((sha_memory hash M).getD 3 0)
        ++ (encodeNibbles 8 ((sha_memory hash M).getD 4 0) ++ [])))) := rfl
  rw [hcph, hw 0 (by decide), hw 1 (by decide), hw 2 (by decide), hw 3 (by decide),
    hw 4 (by decide), encodeNibbles_word, encodeNibbles_word, encodeNibbles_word,
    encodeNibbles_word, encodeNibbles_word, List.append_nil, ← digestChars_append,
    ← digestChars_append, ← digestChars_append, ← digestChars_append]
  congr 1
  conv_rhs => rw [sha1_eq_list]
  simp only [Nat.reduceMul, Nat.reduceAdd, List.cons_append, List.nil_append]
  rw [hD 0 (by decide), hD 1 (by decide), hD 2 (by decide), hD 3 (by decide), hD 4 (by decide),
    hD 5 (by decide), hD 6 (by decide), hD 7 (by decide), hD 8 (by decide), hD 9 (by decide),
    hD 10 (by decide), hD 11 (by decide), hD 12 (by decide), hD 13 (by decide),
    hD 14 (by decide), hD 15 (by decide), hD 16 (by decide), hD 17 (by decide),
    hD 18 (by decide), hD 19 (by decide)]
  rfl

theorem hashWords_stretchDigest (hash : List Nat → List Nat) (Password : List Nat)
    (n : Nat) :
    hashWords hash Password (n : Int)
      = (sha_memory hash
            ((fun M => reverseWordBytes (sha1 hash M) ++ Password)^[n] Password),
          Password :: (List.range n).map fun i =>
            reverseWordBytes (stretchDigest hash Password i) ++ Password) := by
  unfold hashWords
  rw [Int.toNat_ofNat, stretchRounds_digest]
  simp only [iterate_stretch_message, List.singleton_append]


/-! ## Well-formed digest strings -/

theorem decodeNibbles_chunk (cs rest : List Nat) (hlen : cs.length = 8)
    (hr : ∀ c ∈ cs, 0x40 ≤ c ∧ c ≤ 0x4F) :
    ∃ w, w < 2 ^ 32 ∧ decodeNibbles 8 0 (cs ++ rest) = some (w, rest) ∧
      encodeNibbles 8 w = cs := by
  match cs, hlen with
  | [c1, c2, c3, c4, c5, c6, c7, c8], _ =>
    have h1 := hr c1 (by simp)
    have h2 := hr c2 (by simp)
    have h3 := hr c3 (by simp)
    have h4 := hr c4 (by simp)
    have h5 := hr c5 (by simp)
    have h6 := hr c6 (by simp)
    have h7 := hr c7 (by simp)
    have h8 := hr c8 (by simp)
    have ha : (c1 - 0x40) * 16 + (c2 - 0x40) < 256 := by omega
    have hb : (c3 - 0x40) * 16 + (c4 - 0x40) < 256 := by omega
    have hc : (c5 - 0x40) * 16 + (c6 - 0x40) < 256 := by omega
    have hd : (c7 - 0x40) * 16 + (c8 - 0x40) < 256 := by omega
    have pair : ∀ x y : Nat, 0x40 ≤ x ∧ x ≤ 0x4F → 0x40 ≤ y ∧ y ≤ 0x4F →
        0x40 + ((x - 0x40) * 16 + (y - 0x40)) / 16 = x ∧
        0x40 + ((x - 0x40) * 16 + (y - 0x40)) % 16 = y := by
      intro x y hx hy
      constructor <;> omega
    have henc : encodeNibbles 8 (((c1 - 0x40) * 16 + (c2 - 0x40)) * 2 ^ 24
        + ((c3 - 0x40) * 16 + (c4 - 0x40)) * 2 ^ 16
        + ((c5 - 0x40) * 16 + (c6 - 0x40)) * 2 ^ 8 + ((c7 - 0x40) * 16 + (c8 - 0x40)))
        = [c1, c2, c3, c4, c5, c6, c7, c8] := by
      rw [encodeNibbles_bytes _ _ _ _ ha hb hc hd, (pair c1 c2 h1 h2).1, (pair c1 c2 h1 h2).2,
        (pair c3 c4 h3 h4).1, (pair c3 c4 h3 h4).2, (pair c5 c6 h5 h6).1, (pair c5 c6 h5 h6).2,
        (pair c7 c8 h7 h8).1, (pair c7 c8 h7 h8).2]
    have hw : ((c1 - 0x40) * 16 + (c2 - 0x40)) * 2 ^ 24
        + ((c3 - 0x40) * 16 + (c4 - 0x40)) * 2 ^ 16
        + ((c5 - 0x40) * 16 + (c6 - 0x40)) * 2 ^ 8 + ((c7 - 0x40) * 16 + (c8 - 0x40))
        < 2 ^ 32 := by
      have e24 : (2 : Nat) ^ 24 = 16777216 := by norm_num
      have e16 : (2 : Nat) ^ 16 = 65536 := by norm_num
      have e8 : (2 : Nat) ^ 8 = 256 := by norm_num
      have e32 : (2 : Nat) ^ 32 = 4294967296 := by norm_num
      rw [e24, e16, e8, e32]
      generalize (c1 - 0x40) * 16 + (c2 - 0x40) = a at ha
      generalize (c3 - 0x40) * 16 + (c4 - 0x40) = b at hb
      generalize (c5 - 0x40) * 16 + (c6 - 0x40) = c at hc
      generalize (c7 - 0x40) * 16 + (c8 - 0x40) = d at hd
      omega
    refine ⟨_, hw, ?_, henc⟩
    rw [← henc, decodeNibbles_encodeNibbles 8 0 _ rest hw, nibbleRounds_eight _ hw]

theorem encodeWords_cons (w : Nat) (ws : List Nat) :
    ∀ n i, encodeWords (w :: ws) n (i + 1) = encodeWords ws n i := by
  intro n
  induction n with
  | zero => intro i; rfl
  | succ n ih =>
    intro i
    simp only [encodeWords, List.getD_cons_succ, ih]

theorem decodeWords_inrange : ∀ (n : Nat) (p : List Nat), p.length = 8 * n →
    (∀ c ∈ p, 0x40 ≤ c ∧ c ≤ 0x4F) →
    ∃ ws, decodeWords n p = some ws ∧ ws.length = n ∧ (∀ w ∈ ws, w < 2 ^ 32) ∧
      encodeWords ws n 0 = p
  | 0, p, hlen, _ => by
    have : p = [] := List.length_eq_zero.mp (by simpa using hlen)
    subst this
    exact ⟨[], rfl, rfl, by simp, rfl⟩
  | n + 1, p, hlen, hr => by
    have hsplit : p = p.take 8 ++ p.drop 8 := (List.take_append_drop 8 p).symm
    have htake : (p.take 8).length = 8 := by
      rw [List.length_take]
      omega
    obtain ⟨w, hw, hdec, henc⟩ := decodeNibbles_chunk (p.take 8) (p.drop 8) htake
      (fun c hc => hr c (List.mem_of_mem_take hc))
    obtain ⟨ws, hws, hwl, hwlt, hwe⟩ := decodeWords_inrange n (p.drop 8)
      (by rw [List.length_drop]; omega) (fun c hc => hr c (List.mem_of_mem_drop hc))
    rw [← hsplit] at hdec
    refine ⟨w :: ws, ?_, by simp [hwl], ?_, ?_⟩
    · simp only [decodeWords, hdec, hws]
    · intro x hx
      rcases List.mem_cons.mp hx with rfl | hx
      · exact hw
      · exact hwlt x hx
    · rw [encodeWords, List.getD_cons_zero, henc, encodeWords_cons, hwe]
      exact hsplit.symm

theorem wordBytes_injective (a b : Nat) (ha : a < 2 ^ 32) (hb : b < 2 ^ 32)
    (h : wordBytes a = wordBytes b) : a = b := by
  simp only [wordBytes, List.cons.injEq, and_true] at h
  omega

theorem wordsBytes_injective : ∀ (xs ys : List Nat), xs.length = ys.length →
    (∀ w ∈ xs, w < 2 ^ 32) → (∀ w ∈ ys, w < 2 ^ 32) → wordsBytes xs = wordsBytes ys → xs = ys
  | [], [], _, _, _, _ => rfl
  | [], _ :: _, h, _, _, _ => by simp at h
  | _ :: _, [], h, _, _, _ => by simp at h
  | x :: xs, y :: ys, hl, hx, hy, h => by
    have h1 : wordBytes x = wordBytes y ∧ wordsBytes xs = wordsBytes ys := by
      simp only [wordsBytes, wordBytes, List.cons_append, List.nil_append, List.cons.injEq] at h
      simp only [wordBytes, List.cons.injEq, and_true]
      exact ⟨⟨h.1, h.2.1, h.2.2.1, h.2.2.2.1⟩, h.2.2.2.2⟩
    rw [wordBytes_injective x y (hx x (List.mem_cons_self _ _)) (hy y (List.mem_cons_self _ _))
      h1.1,
      wordsBytes_injective xs ys (by simpa using hl)
        (fun w hw => hx w (List.mem_cons_of_mem _ hw))
        (fun w hw => hy w (List.mem_cons_of_mem _ hw)) h1.2]

/-- On a digest string of 40 characters in `0x40 .. 0x4F` the check
compares with the encoding of the hash words and hashes the same messages
as `CreatePasswordHash`, when the scratch writes fit `Buf`. -/
theorem check_wellformed (C : Consts) (hash : List Nat → List Nat) (Password D : List Nat)
    (StretchCount : Int) (hlen : D.length = 40) (hr : ∀ c ∈ D, 0x40 ≤ c ∧ c ≤ 0x4F) :
    CheckPasswordValidityTraced C hash Password D StretchCount
      = if scratchFits C Password.length StretchCount
          then some (if D = digestString hash Password StretchCount then 1 else 0,
            (hashWords hash Password StretchCount).2)
          else none := by
  have hstr : strlen D = 40 := by
    rw [strlen_of_nonzero _ (fun c hc => by have := hr c hc; omega), hlen]
  have hhead := headD_ne_zero_of_range D hlen hr
  obtain ⟨ws, hws, hwl, hwlt, hwe⟩ := decodeWords_inrange 5 D (by rw [hlen]) hr
  have hh := hashWords_isHashWords hash Password StretchCount
  unfold CheckPasswordValidityTraced
  rw [if_neg hhead, if_neg (by rw [hstr]; simp), hws, hashPassword_eq]
  by_cases hfit : scratchFits C Password.length StretchCount
  · rw [if_pos hfit, if_pos hfit]
    by_cases hD : D = digestString hash Password StretchCount
    · have hws' : ws = (hashWords hash Password StretchCount).1 := by
        have h1 := decodeWords_digestString hash Password StretchCount
        rw [← hD, hws] at h1
        exact Option.some.inj h1
      simp only [if_pos hD, hws', if_true]
    · have hne : wordsBytes ws ≠ wordsBytes (hashWords hash Password StretchCount).1 := by
        intro e
        apply hD
        have := wordsBytes_injective ws _ (by rw [hwl, hh.1]) hwlt hh.2 e
        rw [← hwe, this]
        rfl
      simp only [if_neg hD, if_neg hne]
  · rw [if_neg hfit, if_neg hfit]

theorem digestString_stretchDigest (hash : List Nat → List Nat) (Password : List Nat)
    (n : Nat) :
    digestString hash Password (n : Int) = digestChars (stretchDigest hash Password n) := by
  unfold digestString
  rw [hashWords_stretchDigest, encodeWords_sha_memory, sha1_iterate_stretch]

theorem encodeWords_injective (h h' : List Nat) (hh : IsHashWords h) (hh' : IsHashWords h')
    (e : encodeWords h 5 0 = encodeWords h' 5 0) : h = h' := by
  have h1 := decodeWords_encodeWords h (isHashWords_getD_lt hh) 5 0
  have h2 := decodeWords_encodeWords h' (isHashWords_getD_lt hh') 5 0
  rw [isHashWords_range hh] at h1
  rw [isHashWords_range hh', ← e, h1] at h2
  exact Option.some.inj h2

/-- C21 on the plain recurrence: with the hash that returns the first
bytes of its message, the password `01 02 03 04` and one round of
stretching (whose 24 bytes fit `Buf`), the string of `CreatePasswordHash`
is the one that stands for the digest of the byte-reversed words followed
by the password, and not the one that stands for
`H_1 = SHA1(H_0 || password)`. -/
theorem CreatePasswordHash_not_plain_recurrence :
    CreatePasswordHash ⟨1980, 1, 127, [], []⟩ toyProvider.hash [1, 2, 3, 4] 1
      = some (digestChars (stretchDigest toyProvider.hash [1, 2, 3, 4] 1)) ∧
    CreatePasswordHash ⟨1980, 1, 127, [], []⟩ toyProvider.hash [1, 2, 3, 4] 1
      ≠ some (digestChars (stretchDigestPlain toyProvider.hash [1, 2, 3, 4] 1)) := by
  decide

/-- C21 as the code has it: for a stretch count `n` and a password whose
rounds fit `Buf` (`n = 0`, or `20 + length ≤ MAX_PASSWORD_LEN + 32`), the
hash words of `CreatePasswordHash` and `CheckPasswordValidity` are those of
the digest `H_n`, where `H_0` is the digest of the password and `H_(i+1)`
the digest of the 20 bytes of `H_i`, every group of four bytes reversed,
followed by the password; the messages hashed are the password and then
exactly `n` such buffers, in both functions. -/
theorem hashPassword_stretch (C : Consts) (hash : List Nat → List Nat) (Password : List Nat)
    (n : Nat) (hfit : scratchFits C Password.length (n : Int)) :
    (∃ r : List Nat × List (List Nat),
      hashPassword C hash Password (n : Int) = some r ∧
      wordsBytes r.1 = reverseWordBytes (stretchDigest hash Password n) ∧
      r.2 = Password :: (List.range n).map
          (fun i => reverseWordBytes (stretchDigest hash Password i) ++ Password) ∧
      r.2.length = n + 1) ∧
    CreatePasswordHash C hash Password (n : Int)
      = some (digestChars (stretchDigest hash Password n)) ∧
    CheckPasswordValidityTraced C hash Password (digestChars (stretchDigest hash Password n))
        (n : Int)
      = some (1, Password :: (List.range n).map fun i =>
          reverseWordBytes (stretchDigest hash Password i) ++ Password) := by
  have hcph := digestString_stretchDigest hash Password n
  have hlog : (hashWords hash Password (n : Int)).2
      = Password :: (List.range n).map fun i =>
          reverseWordBytes (stretchDigest hash Password i) ++ Password := by
    rw [hashWords_stretchDigest]
  refine ⟨⟨hashWords hash Password (n : Int), hashPassword_of_fits C hash Password _ hfit,
    ?_, hlog, ?_⟩, ?_, ?_⟩
  · rw [hashWords_stretchDigest]
    rw [wordsBytes_sha_memory, sha1_iterate_stretch]
  · rw [hlog]
    simp
  · rw [CreatePasswordHash_of_fits C hash Password _ hfit, hcph]
  · have hc := checkTraced_of_create C hash Password (n : Int)
    rw [if_pos hfit, hlog, hcph] at hc
    exact hc

/-- Witness for C21 as the code has it: the password `01 02 03 04` and one
round of stretching. -/
theorem hashPassword_stretch_witness :
    CreatePasswordHash ⟨1980, 1, 127, [], []⟩ toyProvider.hash [1, 2, 3, 4] ((1 : Nat) : Int)
      = some (digestChars (stretchDigest toyProvider.hash [1, 2, 3, 4] 1)) :=
  (hashPassword_stretch ⟨1980, 1, 127, [], []⟩ toyProvider.hash [1, 2, 3, 4] 1
    (by decide)).2.1


/-- C29: on a stored digest of exactly 40 characters, all in
`0x40 .. 0x4F`: when the scratch writes fit `Buf` (no round is run, or
`20 + length ≤ MAX_PASSWORD_LEN + 32`), `CheckPasswordValidity` returns 1
when the digest is the string that `CreatePasswordHash` produces for the
password and stretch count, and 0 otherwise, never 2; otherwise both
functions write past the end of `Buf`.  The 40-character encoding of five
hash words is injective. -/
theorem CheckPasswordValidity_wellformed (C : Consts) (hash : List Nat → List Nat)
    (Password D : List Nat) (StretchCount : Int) (hlen : D.length = 40)
    (hr : ∀ c ∈ D, 0x40 ≤ c ∧ c ≤ 0x4F) :
    (scratchFits C Password.length StretchCount →
      ∃ H : List Nat, CreatePasswordHash C hash Password StretchCount = some H ∧
        CheckPasswordValidity C hash Password D StretchCount
          = some (if D = H then 1 else 0) ∧
        CheckPasswordValidity C hash Password D StretchCount ≠ some 2) ∧
    (¬ scratchFits C Password.length StretchCount →
      CreatePasswordHash C hash Password StretchCount = none ∧
      CheckPasswordValidity C hash Password D StretchCount = none) ∧
    ∀ h h' : List Nat, IsHashWords h → IsHashWords h' →
      encodeWords h 5 0 = encodeWords h' 5 0 → h = h' := by
  have hval := check_wellformed C hash Password D StretchCount hlen hr
  refine ⟨?_, ?_, encodeWords_injective⟩
  · intro hfit
    rw [if_pos hfit] at hval
    have hv : CheckPasswordValidity C hash Password D StretchCount
        = some (if D = digestString hash Password StretchCount then 1 else 0) := by
      rw [CheckPasswordValidity_of_traced, hval]
      rfl
    refine ⟨_, CreatePasswordHash_of_fits C hash Password _ hfit, hv, ?_⟩
    rw [hv]
    split <;> decide
  · intro hover
    rw [if_neg hover] at hval
    refine ⟨CreatePasswordHash_overflow C hash Password _ hover, ?_⟩
    rw [CheckPasswordValidity_of_traced, hval]
    rfl

/-- Witness for C29: the digest of forty `@` is well formed and is not the
digest of the password `pw` under the evaluation hash, so the check returns
0; for a password of 17 bytes, `MAX_PASSWORD_LEN = 4` and one round of
stretching, the 37 bytes of the round do not fit the 36 bytes of `Buf`. -/
theorem CheckPasswordValidity_wellformed_witness :
    (∃ H : List Nat,
      CreatePasswordHash ⟨1980, 1, 127, [], []⟩ toyProvider.hash [0x70, 0x77] 0 = some H ∧
      CheckPasswordValidity ⟨1980, 1, 127, [], []⟩ toyProvider.hash [0x70, 0x77]
          (List.replicate 40 0x40) 0
        = some (if List.replicate 40 0x40 = H then 1 else 0) ∧
      CheckPasswordValidity ⟨1980, 1, 127, [], []⟩ toyProvider.hash [0x70, 0x77]
          (List.replicate 40 0x40) 0 ≠ some 2) ∧
    (CreatePasswordHash ⟨1980, 1, 4, [], []⟩ toyProvider.hash (List.replicate 17 0x61) 1
        = none ∧
      CheckPasswordValidity ⟨1980, 1, 4, [], []⟩ toyProvider.hash (List.replicate 17 0x61)
        (List.replicate 40 0x40) 1 = none) :=
  ⟨(CheckPasswordValidity_wellformed ⟨1980, 1, 127, [], []⟩ toyProvider.hash [0x70, 0x77]
      (List.replicate 40 0x40) 0 (by decide) (by decide)).1 (by decide),
    (CheckPasswordValidity_wellformed ⟨1980, 1, 4, [], []⟩ toyProvider.hash
      (List.replicate 17 0x61) (List.replicate 40 0x40) 1 (by decide) (by decide)).2.1
      (by decide)⟩

/-- C2: when the scratch writes fit `Buf` (no round is run, or
`20 + length ≤ MAX_PASSWORD_LEN + 32`), checking a password against the
digest string that `CreatePasswordHash` produced for the same password
bytes and stretch count returns 1 (match), for every hash provider,
password and stretch count; otherwise `CreatePasswordHash` writes past the
end of `Buf`, and so does `CheckPasswordValidity` on every digest string of
40 characters in `0x40 .. 0x4F`. -/
theorem CheckPasswordValidity_CreatePasswordHash (C : Consts) (hash : List Nat → List Nat)
    (Password : List Nat) (StretchCount : Int) :
    (scratchFits C Password.length StretchCount →
      ∃ H : List Nat, CreatePasswordHash C hash Password StretchCount = some H ∧
        CheckPasswordValidity C hash Password H StretchCount = some 1) ∧
    (¬ scratchFits C Password.length StretchCount →
      CreatePasswordHash C hash Password StretchCount = none ∧
      ∀ D : List Nat, D.length = 40 → (∀ c ∈ D, 0x40 ≤ c ∧ c ≤ 0x4F) →
        CheckPasswordValidity C hash Password D StretchCount = none) ∧
    (scratchFits C Password.length StretchCount
      ↔ StretchCount ≤ 0 ∨ 20 + Password.length ≤ C.MAX_PASSWORD_LEN + 32) := by
  refine ⟨?_, ?_, Iff.rfl⟩
  · intro hfit
    exact ⟨_, CreatePasswordHash_of_fits C hash Password _ hfit,
      check_of_create C hash Password StretchCount hfit⟩
  · intro hover
    refine ⟨CreatePasswordHash_overflow C hash Password _ hover, ?_⟩
    intro D hlen hr
    rw [CheckPasswordValidity_of_traced, check_wellformed C hash Password D StretchCount hlen hr,
      if_neg hover]
    rfl

/-- Witness for C2: the password `pw` with one round of stretching matches
its digest; for a password of 17 bytes, `MAX_PASSWORD_LEN = 4` and one
round of stretching, the 37 bytes of the round do not fit the 36 bytes of
`Buf`. -/
theorem CheckPasswordValidity_CreatePasswordHash_witness :
    (∃ H : List Nat,
      CreatePasswordHash ⟨1980, 1, 127, [], []⟩ toyProvider.hash [0x70, 0x77] 1 = some H ∧
      CheckPasswordValidity ⟨1980, 1, 127, [], []⟩ toyProvider.hash [0x70, 0x77] H 1
        = some 1) ∧
    CreatePasswordHash ⟨1980, 1, 4, [], []⟩ toyProvider.hash (List.replicate 17 0x61) 1
      = none :=
  ⟨(CheckPasswordValidity_CreatePasswordHash ⟨1980, 1, 127, [], []⟩ toyProvider.hash
      [0x70, 0x77] 1).1 (by decide),
    ((CheckPasswordValidity_CreatePasswordHash ⟨1980, 1, 4, [], []⟩ toyProvider.hash
      (List.replicate 17 0x61) 1).2.1 (by decide)).1⟩


/-! ## Masking with zero escaping -/

theorem maskByte_escape_eq_zero_iff (b m : Nat) : maskByte true b m = 0 ↔ b = 0 := by
  constructor
  · intro h
    by_contra hb
    exact maskByte_escape_ne_zero b m hb h
  · intro h
    rw [h, maskByte_escape_zero]

theorem maskLoop_escape_getElem? (hash : List Nat → List Nat) (salt key : List Nat) :
    ∀ (Data : List Nat) (i : Nat) (mask : List Nat) (k : Nat),
      (maskLoop hash salt key true i mask Data)[k]? = some 0 ↔ Data[k]? = some 0 := by
  intro Data
  induction Data with
  | nil => intro i mask k; simp [maskLoop]
  | cons b p ih =>
    intro i mask k
    cases k with
    | zero => simp [maskLoop, maskByte_escape_eq_zero_iff]
    | succ k =>
      simp only [maskLoop, List.getElem?_cons_succ]
      exact ih _ _ k

theorem maskLoop_escape_strlen (hash : List Nat → List Nat) (salt key : List Nat) :
    ∀ (Data : List Nat) (i : Nat) (mask : List Nat),
      strlen (maskLoop hash salt key true i mask Data) = strlen Data := by
  intro Data
  induction Data with
  | nil => intro i mask; rfl
  | cons b p ih =>
    intro i mask
    by_cases hb : b = 0
    · subst hb
      simp [maskLoop, maskByte_escape_zero, strlen]
    · simp only [maskLoop, strlen, if_neg hb, if_neg (maskByte_escape_ne_zero b _ hb), ih]

/-- C22, negated: for no hash provider, salt, key and buffer does masking
twice with zero escaping differ from the buffer. -/
theorem MaskSettingsData_escape_no_loss :
    ¬ ∃ (hash : List Nat → List Nat) (salt key buf : List Nat),
      MaskSettingsData hash salt key (MaskSettingsData hash salt key buf true) true ≠ buf := by
  rintro ⟨hash, salt, key, buf, h⟩
  exact h (maskLoop_escape_involutive hash salt key buf 0 [])

/-- C22 as the code has it: masking with zero escaping is an involution,
hence a bijection on buffers; a zero byte and a byte equal to the mask byte
at its position are left as they are, every other byte is XORed with the
mask byte, and masking twice gives the buffer back. -/
theorem MaskSettingsData_escape_involutive (hash : List Nat → List Nat)
    (salt key buf : List Nat) (b m : Nat) :
    MaskSettingsData hash salt key (MaskSettingsData hash salt key buf true) true = buf ∧
    Function.Bijective (fun d : List Nat => MaskSettingsData hash salt key d true) ∧
    maskByte true 0 m = 0 ∧ maskByte true m m = m ∧
    (b ≠ 0 → b ≠ m → maskByte true b m = b ^^^ m) ∧
    maskByte true (maskByte true b m) m = b := by
  have hinv : ∀ d, MaskSettingsData hash salt key (MaskSettingsData hash salt key d true) true
      = d := fun d => maskLoop_escape_involutive hash salt key d 0 []
  refine ⟨hinv buf, ?_, maskByte_escape_zero m, ?_, ?_, maskByte_escape_involutive b m⟩
  · exact Function.Involutive.bijective hinv
  · simp [maskByte]
  · intro h0 hm
    simp [maskByte, h0, hm]

/-- C23: with zero escaping, byte `k` of the masked buffer is zero exactly
when byte `k` of the buffer is zero, for every provider, salt, key and
buffer; so the position of the first NUL is the same, and the string in a
masked buffer has the length of the string in the buffer. -/
theorem MaskSettingsData_escape_zero_iff (hash : List Nat → List Nat)
    (salt key Data : List Nat) (k : Nat) :
    ((MaskSettingsData hash salt key Data true)[k]? = some 0 ↔ Data[k]? = some 0) ∧
    (MaskSettingsData hash salt key Data true).length = Data.length ∧
    strlen (MaskSettingsData hash salt key Data true) = strlen Data ∧
    (cstr (MaskSettingsData hash salt key Data true)).length = (cstr Data).length := by
  have hstr := maskLoop_escape_strlen hash salt key Data 0 []
  have hlen : ∀ s : List Nat, (cstr s).length = strlen s := by
    intro s
    induction s with
    | nil => rfl
    | cons c r ih =>
      by_cases hc : c = 0
      · simp [cstr, strlen, hc]
      · simp [cstr, strlen, hc, ih]
  refine ⟨maskLoop_escape_getElem? hash salt key Data 0 [] k,
    MaskSettingsData_length hash salt key Data true, hstr, ?_⟩
  rw [hlen, hlen]
  exact hstr


/-! ## Construction of the block mask -/

theorem seedWords_iterate : ∀ (j nonce : Nat),
    seedWords j nonce = (List.range j).map fun k => nextNonce^[k + 1] nonce
  | 0, _ => rfl
  | j + 1, nonce => by
    rw [seedWords, seedWords_iterate j (nextNonce nonce), List.range_succ_eq_map, List.map_cons,
      List.map_map]
    rfl

theorem seedWords_length : ∀ (j nonce : Nat), (seedWords j nonce).length = j
  | 0, _ => rfl
  | j + 1, nonce => by simp [seedWords, seedWords_length j]

theorem sha1_length (hash : List Nat → List Nat) (X : List Nat) : (sha1 hash X).length = 20 := by
  simp [sha1]

/-- C24 on the last buffer: with the provider hash that returns its
message from byte 64 on, the mask of block 0 is not the mask obtained when
all 84 bytes are XORed with `0x6a`. -/
theorem blockMask_not_all84 :
    blockMask (fun m => m.drop 64) [] [] 0 ≠ blockMaskAll84 (fun m => m.drop 64) [] [] 0 := by
  decide

/-- C24 as the code has it: the mask of the block at offset `o` is the hash
of 84 bytes, namely the 64 bytes of the second buffer XORed with `0x6a`
followed by the second hash `h2` as it is; the second buffer holds
`h1 XOR 0x36` in bytes 0..19 and `0x36` in bytes 20..63, and `h1` is the
hash of the 64 seed bytes (16 words obtained by iterating the mixing
function from `o`), the salt and the key bytes.  Without zero escaping,
data byte `i` is XORed with byte `i mod 20` of the mask of its block. -/
theorem blockMask_construction (hash : List Nat → List Nat) (salt key Data : List Nat)
    (o : Nat) :
    (wordsBytes (seedWords 16 o)).length = 64 ∧
    seedWords 16 o = (List.range 16).map (fun k => nextNonce^[k + 1] o) ∧
    ((sha1 hash (wordsBytes (seedWords 16 o) ++ salt ++ key)).map (fun b => b ^^^ 0x36)
      ++ List.replicate 44 0x36).length = 64 ∧
    (((sha1 hash (wordsBytes (seedWords 16 o) ++ salt ++ key)).map (fun b => b ^^^ 0x36)
        ++ List.replicate 44 0x36).map (fun b => b ^^^ 0x6a)
      ++ sha1 hash ((sha1 hash (wordsBytes (seedWords 16 o) ++ salt ++ key)).map
          (fun b => b ^^^ 0x36) ++ List.replicate 44 0x36)).length = 84 ∧
    blockMask hash salt key o
      = sha1 hash
          (((sha1 hash (wordsBytes (seedWords 16 o) ++ salt ++ key)).map (fun b => b ^^^ 0x36)
              ++ List.replicate 44 0x36).map (fun b => b ^^^ 0x6a)
            ++ sha1 hash ((sha1 hash (wordsBytes (seedWords 16 o) ++ salt ++ key)).map
                (fun b => b ^^^ 0x36) ++ List.replicate 44 0x36)) ∧
    MaskSettingsData hash salt key Data false
      = List.zipWith (fun b m => b ^^^ m) Data
          ((List.range Data.length).map fun i =>
            (blockMask hash salt key (i - i % 20)).getD (i % 20) 0) := by
  refine ⟨?_, seedWords_iterate 16 o, ?_, ?_, rfl, ?_⟩
  · rw [wordsBytes_length, seedWords_length]
  · simp [sha1_length]
  · simp [sha1_length]
  · unfold MaskSettingsData
    rw [maskLoop_keystream hash salt key Data 0 [] (by simp), List.range_eq_range']
    rfl


/-! ## The AES key -/

theorem wordsBytes_sha_memory_take3 (hash : List Nat → List Nat) (X : List Nat) :
    wordsBytes ((sha_memory hash X).take 3) = reverseWordBytes ((sha1 hash X).take 12) := by
  have hD : ∀ j, (sha1 hash X).getD j 0 % 256 = (sha1 hash X).getD j 0 := by
    intro j
    apply Nat.mod_eq_of_lt
    exact getD_lt_of_forall_lt _ _ (sha1_lt hash X)
  have hw : wordsBytes ((sha_memory hash X).take 3)
      = wordBytes (byteswap_ulong (wordAt (sha1 hash X) 0))
        ++ (wordBytes (byteswap_ulong (wordAt (sha1 hash X) 1))
        ++ (wordBytes (byteswap_ulong (wordAt (sha1 hash X) 2)) ++ [])) := rfl
  rw [hw]
  simp only [wordBytes_byteswap_wordAt, hD, Nat.reduceMul, Nat.reduceAdd, List.cons_append,
    List.nil_append, List.append_nil]
  conv_rhs => rw [sha1_eq_list]
  rfl

theorem wordsBytes_append : ∀ a b : List Nat, wordsBytes (a ++ b) = wordsBytes a ++ wordsBytes b
  | [], _ => rfl
  | w :: a, b => by simp [wordsBytes, wordsBytes_append a b]

theorem reverseWordBytes_sha1_append (hash : List Nat → List Nat) (X Y : List Nat) :
    reverseWordBytes (sha1 hash X ++ Y) = reverseWordBytes (sha1 hash X) ++ reverseWordBytes Y := by
  conv_lhs => rw [sha1_eq_list]
  conv_rhs => rw [sha1_eq_list]
  rfl

theorem CreateAesKey_eq (P : Provider) (SecretKey : List Nat)
    (halloc : P.alloc (strlen SecretKey + 16 + 1) = true) :
    CreateAesKey P SecretKey
      = some (reverseWordBytes (aesKeyInDigestOrder P.hash (cstr SecretKey))) := by
  unfold CreateAesKey aesKeyInDigestOrder
  rw [if_pos halloc]
  have htake : (sha_memory P.hash (cstr SecretKey ++ aesSuffix1)
      ++ sha_memory P.hash (cstr SecretKey ++ aesSuffix2)).take 8
      = sha_memory P.hash (cstr SecretKey ++ aesSuffix1)
        ++ (sha_memory P.hash (cstr SecretKey ++ aesSuffix2)).take 3 := by
    rw [List.take_append_eq_append_take, sha_memory_length]
    rw [List.take_of_length_le (by rw [sha_memory_length]; decide)]
  simp only [htake, wordsBytes_append, wordsBytes_sha_memory, wordsBytes_sha_memory_take3,
    reverseWordBytes_sha1_append]

/-- C25 on key material with salt: for the master password `pw` with the
salt `01 .. 10` installed, under the hash that returns the first bytes of
its message, the key of `CreateAesKey` is not the key made of the two
digests of `SecretKey` with its salt in digest byte order. -/
theorem CreateAesKey_not_digest_order :
    CreateAesKey toyProvider
        (SetHashSalt1 (some [1, 2, 3, 4, 5, 6, 7, 8, 9, 10, 11, 12, 13, 14, 15, 16])
          (SetMasterPassword ⟨1980, 1, 127, ascii "DefaultPassword", ascii "# settings"⟩
            (some (ascii "pw"))
            ⟨[], 0, PasswordStatus.PASSWORD_OK, false, false, false⟩)).SecretKey
      ≠ some (aesKeyInDigestOrder toyProvider.hash
        (SetHashSalt1 (some [1, 2, 3, 4, 5, 6, 7, 8, 9, 10, 11, 12, 13, 14, 15, 16])
          (SetMasterPassword ⟨1980, 1, 127, ascii "DefaultPassword", ascii "# settings"⟩
            (some (ascii "pw"))
            ⟨[], 0, PasswordStatus.PASSWORD_OK, false, false, false⟩)).key) := by
  decide

/-- C25 as the code has it: when the allocation succeeds, the 32 key bytes
are the 20 bytes of the hash of the string in `SecretKey` followed by the
first suffix, then the first 12 bytes of the hash of that string followed
by the second suffix, with every group of four bytes in reverse order.
The string ends at the first NUL, so the salt bytes behind it do not enter
the key. -/
theorem CreateAesKey_bytes (P : Provider) (SecretKey : List Nat)
    (halloc : P.alloc (strlen SecretKey + 16 + 1) = true) :
    CreateAesKey P SecretKey
      = some (reverseWordBytes
          (sha1 P.hash (cstr SecretKey ++ aesSuffix1)
            ++ (sha1 P.hash (cstr SecretKey ++ aesSuffix2)).take 12)) ∧
    (reverseWordBytes
      (sha1 P.hash (cstr SecretKey ++ aesSuffix1)
        ++ (sha1 P.hash (cstr SecretKey ++ aesSuffix2)).take 12)).length = 32 ∧
    ∀ pw salt salt' : List Nat, (∀ c ∈ pw, c ≠ 0) →
      CreateAesKey P (pw ++ 0 :: salt) = CreateAesKey P (pw ++ 0 :: salt') := by
  have h := CreateAesKey_eq P SecretKey halloc
  refine ⟨h, ?_, ?_⟩
  · have := CreateAesKey_length P SecretKey _ h
    exact this
  · intro pw salt salt' hpw
    unfold CreateAesKey
    rw [cstr_append_nul pw salt hpw, cstr_append_nul pw salt' hpw,
      strlen_append_nul pw salt hpw, strlen_append_nul pw salt' hpw]

/-- Witness for C25 as the code has it: the key for the secret `pw`
followed by NUL and salt bytes, under the evaluation provider. -/
theorem CreateAesKey_bytes_witness :
    CreateAesKey toyProvider [0x70, 0x77, 0, 1, 2, 3]
      = some (reverseWordBytes
          (sha1 toyProvider.hash (cstr [0x70, 0x77, 0, 1, 2, 3] ++ aesSuffix1)
            ++ (sha1 toyProvider.hash (cstr [0x70, 0x77, 0, 1, 2, 3] ++ aesSuffix2)).take 12)) :=
  (CreateAesKey_bytes toyProvider [0x70, 0x77, 0, 1, 2, 3] rfl).1


/-! ## Dispatch on the first byte, and reads behind the terminator -/

/-- C26 at the byte `0x80`: the input `80 41` begins with none of the tags
and its first byte has the high bit set, yet `DecodePassword` returns the
empty string and not the legacy decoding of the input, which is the byte
`0x10`. -/
theorem DecodePassword_high_bit_not_legacy :
    DecodePassword toyProvider [0x70, 0] [] [0x80, 0x41, 0] = some [] ∧
    DecodePasswordOriginal [0x80, 0x41, 0] = some [0x10] ∧
    DecodePassword toyProvider [0x70, 0] [] [0x80, 0x41, 0]
      ≠ DecodePasswordOriginal [0x80, 0x41, 0] := by
  decide

/-- C26 as the code has it: an input whose first byte is in `0x40 .. 0x7F`
is decoded by the legacy algorithm as a whole; an input whose first byte is
`0x80` or above begins with none of the tags and yields the empty
string. -/
theorem DecodePassword_first_byte (P : Provider) (SecretKey stack s tail : List Nat)
    (hs : ∀ c ∈ s, c ≠ 0) :
    (0x40 ≤ s.headD 0 ∧ s.headD 0 < 0x80 →
      DecodePassword P SecretKey stack (s ++ 0 :: tail)
        = DecodePasswordOriginal (s ++ 0 :: tail)) ∧
    (0x80 ≤ s.headD 0 →
      ¬ [0x30, 0x41] <+: s ∧ ¬ [0x30, 0x42] <+: s ∧ ¬ [0x30, 0x43] <+: s ∧
      DecodePassword P SecretKey stack (s ++ 0 :: tail) = some []) := by
  have hcases := DecodePassword_cases P SecretKey stack s tail hs
  constructor
  · intro h
    have hne : s ≠ [] := by
      intro e
      rw [e] at h
      simp at h
    rw [hcases, if_neg hne, if_pos h]
  · intro h
    have hne : s ≠ [] := by
      intro e
      rw [e] at h
      simp at h
    have hnot : ¬ (0x40 ≤ s.headD 0 ∧ s.headD 0 < 0x80) := by omega
    have hpre : ∀ b : Nat, ¬ [0x30, b] <+: s := by
      intro b hp
      obtain ⟨t, ht⟩ := hp
      rw [← ht] at h
      simp at h
    refine ⟨hpre _, hpre _, hpre _, ?_⟩
    rw [hcases, if_neg hne, if_neg hnot, if_neg (hpre _), if_neg (hpre _), if_neg (hpre _)]

/-- Witness for C26 as the code has it: the input `80 41`. -/
theorem DecodePassword_first_byte_witness :
    DecodePassword toyProvider [0x70, 0] [] ([0x80, 0x41] ++ 0 :: []) = some [] :=
  ((DecodePassword_first_byte toyProvider [0x70, 0] [] [0x80, 0x41] [] (by decide)).2
    (by decide)).2.2.2

/-- C27 at the input `A`: the legacy loop reads the terminator as the
second character of the group and then moves three bytes on, so the next
byte it tests lies two bytes behind the terminator.  When the buffer ends
at the terminator the lookup fails; when more bytes follow, the result is
made from them.  The same holds behind the tags `0A` and `0B`, and for the
input `B`, where the loop moves two bytes on. -/
theorem DecodePassword_reads_behind_terminator (P : Provider) (SecretKey stack : List Nat) :
    DecodePassword P SecretKey stack [0x41, 0] = none ∧
    DecodePassword P SecretKey stack [0x41, 0, 0x55, 0x42, 0x43, 0] = some [1, 50] ∧
    DecodePassword P SecretKey stack [0x41, 0, 0x55, 0x44, 0x45, 0] = some [1, 84] ∧
    DecodePassword P SecretKey stack [0x42, 0] = none ∧
    DecodePassword P SecretKey stack [0x30, 0x41, 0x41, 0] = none ∧
    DecodePassword P [0x70, 0] stack [0x30, 0x42, 0x41, 0] = none := by
  refine ⟨?_, ?_, ?_, ?_, ?_, ?_⟩ <;> rfl


/-! ## Character groups of the legacy decoding -/

theorem decodeOriginalFrom_skip : ∀ (k : Nat) (l : List Nat),
    decodeOriginalFrom k l = decodeOriginalFrom 0 (l.drop k)
  | 0, l => by simp
  | k + 1, [] => by simp [decodeOriginalFrom]
  | k + 1, a :: r => by
    rw [decodeOriginalFrom, decodeOriginalFrom_skip k r]
    rfl

set_option maxRecDepth 100000 in
theorem rotate_bits : ∀ x < 256, ∀ r < 4,
    (((x <<< 8) >>> r) &&& 0xFF) ||| ((((x <<< 8) >>> r) >>> 8) &&& 0xFF) = rotr8 x r := by
  decide

theorem group_byte_lt (c0 c1 : Nat) : (c0 &&& 0xF) ||| ((c1 &&& 0xF) <<< 4) < 256 := by
  have h0 : c0 &&& 0xF ≤ 0xF := Nat.and_le_right
  have h1 : c1 &&& 0xF ≤ 0xF := Nat.and_le_right
  have h2 : (c1 &&& 0xF) <<< 4 = (c1 &&& 0xF) * 16 := by
    rw [Nat.shiftLeft_eq]
  have h3 : c0 &&& 0xF < 2 ^ 8 := by omega
  have h4 : (c1 &&& 0xF) <<< 4 < 2 ^ 8 := by omega
  exact Nat.or_lt_two_pow h3 h4

theorem group_rnd_lt (c0 : Nat) : (c0 >>> 4) &&& 0x3 < 4 := by
  have : (c0 >>> 4) &&& 0x3 ≤ 0x3 := Nat.and_le_right
  omega

theorem decodeGroup_eq_rotr8 (c0 c1 : Nat) :
    decodeGroup c0 c1 = rotr8 ((c0 &&& 0xF) ||| ((c1 &&& 0xF) <<< 4)) ((c0 >>> 4) &&& 0x3) :=
  rotate_bits _ (group_byte_lt c0 c1) _ (group_rnd_lt c0)

theorem rotr8_lt (x r : Nat) : rotr8 x r < 256 := Nat.mod_lt _ (by decide)

/-- C28: in the loop of `DecodePasswordOriginal`, a group that starts at
the character `c0` with next character `c1` gives the byte obtained from
`x = (c0 & 0x0F) | ((c1 & 0x0F) << 4)` by the 8-bit right rotation by
`r = (c0 >> 4) & 3`, and the loop goes on three characters further when
`c0` is odd and two otherwise; the bytes of the groups are what the
function leaves in front of the terminating NUL, and a NUL at the start of
a group ends the loop. -/
theorem DecodePasswordOriginal_group (c0 c1 : Nat) (rest : List Nat) (hc0 : c0 ≠ 0) :
    decodeGroup c0 c1 = rotr8 ((c0 &&& 0xF) ||| ((c1 &&& 0xF) <<< 4)) ((c0 >>> 4) &&& 0x3) ∧
    decodeGroup c0 c1 < 256 ∧
    decodeOriginalFrom 0 (c0 :: c1 :: rest)
      = (decodeOriginalFrom 0 ((c0 :: c1 :: rest).drop (if c0 % 2 = 1 then 3 else 2))).map
          (fun out => decodeGroup c0 c1 :: out) ∧
    decodeOriginalFrom 0 (0 :: rest) = some [] ∧
    DecodePasswordOriginal (c0 :: c1 :: rest)
      = (decodeOriginalFrom 0 (c0 :: c1 :: rest)).map cstr := by
  have hrot := decodeGroup_eq_rotr8 c0 c1
  have hlt : decodeGroup c0 c1 < 256 := by
    rw [hrot]
    exact rotr8_lt _ _
  refine ⟨hrot, hlt, ?_, rfl, rfl⟩
  have hodd : (c0 &&& 0x1 ≠ 0) ↔ c0 % 2 = 1 := by
    have e : c0 &&& 0x1 = c0 % 2 := Nat.and_one_is_mod c0
    rw [e]
    omega
  rw [decodeOriginalFrom, if_neg hc0]
  rw [decodeOriginalFrom_skip, Nat.mod_eq_of_lt hlt]
  by_cases h : c0 % 2 = 1
  · rw [if_pos (hodd.mpr h), if_pos h]
    have e : List.drop 3 (c0 :: c1 :: rest) = List.drop 2 (c1 :: rest) := rfl
    rw [e]
    cases decodeOriginalFrom 0 (List.drop 2 (c1 :: rest)) <;> rfl
  · rw [if_neg (fun h' => h (hodd.mp h')), if_neg h]
    have e : List.drop 2 (c0 :: c1 :: rest) = List.drop 1 (c1 :: rest) := rfl
    rw [e]
    cases decodeOriginalFrom 0 (List.drop 1 (c1 :: rest)) <;> rfl

/-- Witness for C28: the group `U`, `B`, `C` starts at an odd character, so
the loop goes on three characters; it gives the byte 0x12 rotated right by
one bit. -/
theorem DecodePasswordOriginal_group_witness :
    decodeOriginalFrom 0 (0x55 :: 0x42 :: [0x43, 0])
      = (decodeOriginalFrom 0 [0]).map (fun out => decodeGroup 0x55 0x42 :: out) :=
  (DecodePasswordOriginal_group 0x55 0x42 [0x43, 0] (by decide)).2.2.1


/-! ## The scratch buffer of the stretching loops -/

theorem cstr_length : ∀ s : List Nat, (cstr s).length = strlen s
  | [] => rfl
  | c :: r => by
    by_cases hc : c = 0
    · simp [cstr, strlen, hc]
    · simp [cstr, strlen, hc, cstr_length r]

theorem passwordString_length (C : Consts) (p : List Nat) :
    (passwordString C (some p)).length = min (strlen p) C.MAX_PASSWORD_LEN := by
  simp [passwordString, cstr_length, Nat.min_comm]

theorem SetMasterPassword_strlen (C : Consts) (Password : Option (List Nat)) (g : Statics) :
    strlen (SetMasterPassword C Password g).SecretKey = (passwordString C Password).length := by
  obtain ⟨tail, htail⟩ := SetMasterPassword_SecretKey C Password g
  rw [htail, strlen_append_nul _ _ (take_passwordString_nonzero C Password)]

theorem SetHashSalt1_SecretKeyLength (C : Consts) (Password : Option (List Nat)) (g : Statics)
    (salt : List Nat) :
    (SetHashSalt1 (some salt) (SetMasterPassword C Password g)).SecretKeyLength
      = strlen (SetMasterPassword C Password g).SecretKey + 1 + salt.length := by
  obtain ⟨tail, htail⟩ := SetMasterPassword_SecretKey C Password g
  have hnz := take_passwordString_nonzero C Password
  have hlen := strlen_append_nul (passwordString C Password) tail hnz
  have hmem : memcpyAt (passwordString C Password ++ 0 :: tail)
      ((passwordString C Password).length + 1) salt
      = passwordString C Password ++ 0 :: (salt ++ tail.drop salt.length) := by
    unfold memcpyAt
    have e1 : (passwordString C Password ++ 0 :: tail).take ((passwordString C Password).length + 1)
        = passwordString C Password ++ [0] := by
      have : passwordString C Password ++ 0 :: tail = (passwordString C Password ++ [0]) ++ tail := by
        simp
      rw [this, List.take_left' (by simp)]
    have e2 : (passwordString C Password ++ 0 :: tail).drop
        ((passwordString C Password).length + 1 + salt.length) = tail.drop salt.length := by
      have : passwordString C Password ++ 0 :: tail = (passwordString C Password ++ [0]) ++ tail := by
        simp
      rw [this, show (passwordString C Password).length + 1 + salt.length
        = (passwordString C Password ++ [0]).length + salt.length by simp, List.drop_append]
    rw [e1, e2]
    simp
  simp only [SetHashSalt1, htail, hlen, hmem,
    strlen_append_nul (passwordString C Password) _ hnz]

theorem reverseWordBytes_length : ∀ l : List Nat, (reverseWordBytes l).length = l.length
  | [] => rfl
  | [_] => rfl
  | [_, _] => rfl
  | [_, _, _] => rfl
  | _ :: _ :: _ :: _ :: rest => by
    simp [reverseWordBytes, reverseWordBytes_length rest]

theorem stretchDigest_length (hash : List Nat → List Nat) (Password : List Nat) (n : Nat) :
    (stretchDigest hash Password n).length = 20 := by
  cases n <;> simp [stretchDigest, sha1_length]

/-- C30 at the code: with a master password `p` set by `SetMasterPassword`
and a 16-byte salt installed by `SetHashSalt1`, `SecretKeyLength` is
`strlen + 1 + 16` with `strlen = min (strlen p) MAX_PASSWORD_LEN`, and
every round of the stretching loop of `CreatePasswordHash` and of
`CheckPasswordValidity` fills `Buf` with `20 + SecretKeyLength` bytes.
That write fits `char Buf[MAX_PASSWORD_LEN + 32]` exactly when the
password is at least five characters shorter than `MAX_PASSWORD_LEN`; then
the loop runs its rounds, each on a buffer of that length.  A password of
`MAX_PASSWORD_LEN - 4` characters or more is written past the end of `Buf`,
in both functions. -/
theorem stretch_scratch_write (C : Consts) (hash : List Nat → List Nat) (g : Statics)
    (p salt D : List Nat) (n : Nat) (hsalt : salt.length = 16)
    (hD : D.length = 40) (hr : ∀ c ∈ D, 0x40 ≤ c ∧ c ≤ 0x4F) :
    strlen (SetMasterPassword C (some p) g).SecretKey = min (strlen p) C.MAX_PASSWORD_LEN ∧
    (SetHashSalt1 (some salt) (SetMasterPassword C (some p) g)).SecretKeyLength
      = strlen (SetMasterPassword C (some p) g).SecretKey + 1 + 16 ∧
    ((SetHashSalt1 (some salt) (SetMasterPassword C (some p) g)).key).length
      = (SetHashSalt1 (some salt) (SetMasterPassword C (some p) g)).SecretKeyLength ∧
    (∀ h : List Nat, h.length = 5 →
      (wordsBytes h ++ (SetHashSalt1 (some salt) (SetMasterPassword C (some p) g)).key).length
        = 20 + (SetHashSalt1 (some salt) (SetMasterPassword C (some p) g)).SecretKeyLength ∧
      ((wordsBytes h ++ (SetHashSalt1 (some salt) (SetMasterPassword C (some p) g)).key).length
          ≤ sizeofBuf C
        ↔ min (strlen p) C.MAX_PASSWORD_LEN + 5 ≤ C.MAX_PASSWORD_LEN)) ∧
    (min (strlen p) C.MAX_PASSWORD_LEN + 5 ≤ C.MAX_PASSWORD_LEN →
      ∃ r : List Nat × List (List Nat),
        hashPassword C hash (SetHashSalt1 (some salt) (SetMasterPassword C (some p) g)).key
          ((n + 1 : Nat) : Int) = some r ∧
        r.2.tail.length = n + 1 ∧
        (∀ Buf ∈ r.2.tail,
          Buf.length
            = 20 + (SetHashSalt1 (some salt) (SetMasterPassword C (some p) g)).SecretKeyLength ∧
          Buf.length ≤ sizeofBuf C) ∧
        CreatePasswordHash C hash
            (SetHashSalt1 (some salt) (SetMasterPassword C (some p) g)).key
            ((n + 1 : Nat) : Int)
          = some (encodeWords r.1 5 0) ∧
        CheckPasswordValidityTraced C hash
            (SetHashSalt1 (some salt) (SetMasterPassword C (some p) g)).key D
            ((n + 1 : Nat) : Int)
          = some (if D = encodeWords r.1 5 0 then 1 else 0, r.2)) ∧
    (C.MAX_PASSWORD_LEN < min (strlen p) C.MAX_PASSWORD_LEN + 5 →
      hashPassword C hash (SetHashSalt1 (some salt) (SetMasterPassword C (some p) g)).key
        ((n + 1 : Nat) : Int) = none ∧
      CreatePasswordHash C hash (SetHashSalt1 (some salt) (SetMasterPassword C (some p) g)).key
        ((n + 1 : Nat) : Int) = none ∧
      CheckPasswordValidity C hash
        (SetHashSalt1 (some salt) (SetMasterPassword C (some p) g)).key D
        ((n + 1 : Nat) : Int) = none) := by
  have hs := SetMasterPassword_strlen C (some p) g
  rw [passwordString_length] at hs
  have hl := SetHashSalt1_SecretKeyLength C (some p) g salt
  rw [hsalt] at hl
  have hk := SetHashSalt1_key C (some p) g salt
  have hkl : ((SetHashSalt1 (some salt) (SetMasterPassword C (some p) g)).key).length
      = (SetHashSalt1 (some salt) (SetMasterPassword C (some p) g)).SecretKeyLength := by
    rw [hk, hl, hs]
    simp [passwordString_length, hsalt]
  have hlog := hashWords_stretchDigest hash
    (SetHashSalt1 (some salt) (SetMasterPassword C (some p) g)).key (n + 1)
  have hpos : ¬ (((n + 1 : Nat) : Int) ≤ 0) := by omega
  have hfits : scratchFits C
      ((SetHashSalt1 (some salt) (SetMasterPassword C (some p) g)).key).length
      ((n + 1 : Nat) : Int)
      ↔ min (strlen p) C.MAX_PASSWORD_LEN + 5 ≤ C.MAX_PASSWORD_LEN := by
    unfold scratchFits sizeofBuf
    rw [hkl, hl, hs]
    omega
  have hbuf : ∀ X : List Nat, X.length = 20 →
      (X ++ (SetHashSalt1 (some salt) (SetMasterPassword C (some p) g)).key).length
        = 20 + (SetHashSalt1 (some salt) (SetMasterPassword C (some p) g)).SecretKeyLength ∧
      ((X ++ (SetHashSalt1 (some salt) (SetMasterPassword C (some p) g)).key).length
          ≤ sizeofBuf C
        ↔ min (strlen p) C.MAX_PASSWORD_LEN + 5 ≤ C.MAX_PASSWORD_LEN) := by
    intro X hX
    have hlen : (X ++ (SetHashSalt1 (some salt) (SetMasterPassword C (some p) g)).key).length
        = 20 + (SetHashSalt1 (some salt) (SetMasterPassword C (some p) g)).SecretKeyLength := by
      rw [List.length_append, hX, hkl]
    refine ⟨hlen, ?_⟩
    rw [hlen, hl, hs]
    unfold sizeofBuf
    omega
  refine ⟨hs, hl, hkl, ?_, ?_, ?_⟩
  · intro h hh
    exact hbuf _ (by rw [wordsBytes_length, hh])
  · intro hfit
    have hsf := hfits.mpr hfit
    refine ⟨_, hashPassword_of_fits C hash _ _ hsf, ?_, ?_,
      CreatePasswordHash_of_fits C hash _ _ hsf, ?_⟩
    · rw [hlog]
      simp
    · intro Buf hBuf
      rw [hlog] at hBuf
      simp only [List.tail_cons, List.mem_map, List.mem_range] at hBuf
      obtain ⟨i, _, rfl⟩ := hBuf
      have hb := hbuf (reverseWordBytes (stretchDigest hash
        (SetHashSalt1 (some salt) (SetMasterPassword C (some p) g)).key i))
        (by rw [reverseWordBytes_length, stretchDigest_length])
      exact ⟨hb.1, hb.2.mpr hfit⟩
    · rw [check_wellformed C hash _ D _ hD hr, if_pos hsf]
      rfl
  · intro hover
    have hsf : ¬ scratchFits C
        ((SetHashSalt1 (some salt) (SetMasterPassword C (some p) g)).key).length
        ((n + 1 : Nat) : Int) := fun h => absurd (hfits.mp h) (by omega)
    refine ⟨hashPassword_overflow C hash _ _ hsf, CreatePasswordHash_overflow C hash _ _ hsf,
      ?_⟩
    rw [CheckPasswordValidity_of_traced, check_wellformed C hash _ D _ hD hr, if_neg hsf]
    rfl

/-- Witness for C30 at a password of `MAX_PASSWORD_LEN` characters (here
4): `SecretKeyLength` is 21, a round fills 41 bytes, `Buf` has 36, and
both functions write past its end. -/
theorem stretch_scratch_write_witness :
    hashPassword ⟨1, 1, 4, [], []⟩ toyProvider.hash
        (SetHashSalt1 (some (List.replicate 16 7))
          (SetMasterPassword ⟨1, 1, 4, [], []⟩ (some [0x61, 0x62, 0x63, 0x64])
            ⟨[], 0, PasswordStatus.PASSWORD_OK, false, false, false⟩)).key
        ((0 + 1 : Nat) : Int) = none ∧
    CreatePasswordHash ⟨1, 1, 4, [], []⟩ toyProvider.hash
        (SetHashSalt1 (some (List.replicate 16 7))
          (SetMasterPassword ⟨1, 1, 4, [], []⟩ (some [0x61, 0x62, 0x63, 0x64])
            ⟨[], 0, PasswordStatus.PASSWORD_OK, false, false, false⟩)).key
        ((0 + 1 : Nat) : Int) = none ∧
    CheckPasswordValidity ⟨1, 1, 4, [], []⟩ toyProvider.hash
        (SetHashSalt1 (some (List.replicate 16 7))
          (SetMasterPassword ⟨1, 1, 4, [], []⟩ (some [0x61, 0x62, 0x63, 0x64])
            ⟨[], 0, PasswordStatus.PASSWORD_OK, false, false, false⟩)).key
        (List.replicate 40 0x40) ((0 + 1 : Nat) : Int) = none :=
  (stretch_scratch_write ⟨1, 1, 4, [], []⟩ toyProvider.hash
    ⟨[], 0, PasswordStatus.PASSWORD_OK, false, false, false⟩ [0x61, 0x62, 0x63, 0x64]
    (List.replicate 16 7) (List.replicate 40 0x40) 0 (by decide) (by decide)
    (by decide)).2.2.2.2.2 (by decide)

end FFFTP
